import Mathlib

/-!
# video-arrager: export orchestration and transition filter graphs

A shallow embedding of `src/app/export.go`.

* Go strings are Lean strings, `[]string` is `List String`; the clip list `[]*Video` is a
  list of clips (no nil pointers).
* `float64` seconds are exact rationals (`ℚ`): the arithmetic of the source is kept
  operation by operation, rounding, NaN and infinities are outside the model.
* A Go index expression that would panic when out of range yields `none`; every
  builder is shown to return `some _`.
* The effects of the orchestrator (channel sends, temp file, engine run) are recorded,
  in order, as a list of `Effect`s; the outcomes of `os.CreateTemp` and of the
  engine are inputs (`Env`).
-/

namespace App

/-! ## Library functions used by the source -/

/-- The verb `%d` of `fmt.Sprintf` on a non-negative `int`. -/
def fmtD (i : Nat) : String := Nat.repr i

/-- Two decimal digits of a number below 100. -/
def pad2 (k : Nat) : String := if k < 10 then "0" ++ Nat.repr k else Nat.repr k

/-- Nearest natural number to a non-negative rational, ties to even. -/
def roundHalfEven (q : ℚ) : Nat :=
  let fl : Nat := (Rat.floor q).toNat
  let frac : ℚ := q - (fl : ℚ)
  if frac < 1 / 2 then fl
  else if 1 / 2 < frac then fl + 1
  else if fl % 2 = 0 then fl else fl + 1

/-- The verb `%.2f` of `fmt.Sprintf`: sign, integer digits, a point and exactly two
fraction digits of the value rounded to the nearest hundredth (ties to even). -/
def fmt2 (x : ℚ) : String :=
  let r := roundHalfEven (|x| * 100)
  (if x < 0 then "-" else "") ++ Nat.repr (r / 100) ++ "." ++ pad2 (r % 100)

/-- Go `strings.Join(elems, sep)`. -/
def stringsJoin : List String → String → String
  | [], _ => ""
  | [a], _ => a
  | a :: b :: rest, sep => a ++ sep ++ stringsJoin (b :: rest) sep

/-- Worker of `strings.ReplaceAll` on characters: `skip` counts the characters of a
matched occurrence of `old` that are still to be dropped. -/
def replaceAllChars (old new : List Char) : List Char → Nat → List Char
  | [], _ => []
  | _ :: cs, skip + 1 => replaceAllChars old new cs skip
  | c :: cs, 0 =>
    if old.isPrefixOf (c :: cs) then new ++ replaceAllChars old new cs (old.length - 1)
    else c :: replaceAllChars old new cs 0

/-- Go `strings.ReplaceAll(s, old, new)` for a non-empty `old`: the non-overlapping
occurrences of `old`, found left to right, are replaced by `new`. -/
def stringsReplaceAll (s old new : String) : String :=
  ⟨replaceAllChars old.data new.data s.data 0⟩

/-- Go `os.IsPathSeparator` on Unix. -/
def isPathSeparator (c : Char) : Bool := c == Char.ofNat 47

/-- Backward scan of `filepath.Ext` over the reversed path: `acc` holds the characters
already passed, in path order. -/
def extScan : List Char → List Char → List Char
  | [], _ => []
  | c :: rest, acc =>
    if isPathSeparator c then []
    else if c == Char.ofNat 46 then c :: acc
    else extScan rest (c :: acc)

/-- Go `filepath.Ext(path)`: the suffix beginning at the final dot of the final
element of `path`, empty if there is no dot. -/
def filepathExt (path : String) : String := ⟨extScan path.data.reverse []⟩

/-- Go `strings.ToLower`, on the ASCII letters (the three extensions it is compared
with are ASCII, and no other letter lowers to one of their characters). -/
def stringsToLower (s : String) : String := ⟨s.data.map Char.toLower⟩

/-! ## Data model -/

/-- Go `type TransitionType int`. -/
abbrev TransitionType := Int

/-- `TransitionNone TransitionType = iota`. -/
def TransitionNone : TransitionType := 0
/-- Second constant of the `iota` block. -/
def TransitionFade : TransitionType := 1
/-- Third constant of the `iota` block. -/
def TransitionCrossfade : TransitionType := 2

/-- Go `(t TransitionType) String()`. -/
def TransitionType.String (t : TransitionType) : String :=
  if t = TransitionFade then "Fade"
  else if t = TransitionCrossfade then "Crossfade"
  else "None"

/-- Go `ExportOptions`. -/
structure ExportOptions where
  Transition : TransitionType
  TransitionDuration : ℚ
  deriving DecidableEq

/-- Go `ExportProgress`; `Error` is `nil` (`none`) or an error with its message. -/
structure ExportProgress where
  Status : String := ""
  Done : Bool := false
  Error : Option String := none
  deriving DecidableEq

/-- Modelled from the spec: the type of `Video.Duration` is declared outside `src/`; the
source only calls `.Seconds()` on it, and the spec gives a clip a duration in real
seconds. -/
structure Duration where
  Seconds : ℚ
  deriving DecidableEq

/-- Modelled from the spec: the struct `Video` is declared outside `src/`; the source
reads its fields `Path` and `Duration` only (a clip: path and duration). -/
structure Video where
  Path : String
  Duration : Duration
  deriving DecidableEq

/-! ## Filter-graph builders -/

/-- The offsets loop of `buildCrossfadeFilter`: `offsets := make([]float64, n-1)`, then
for `i` in `0 .. n-2` the running `cumulative` is increased by
`videos[i].Duration.Seconds() - duration` and stored in `offsets[i]`. The state of
the loop is `(cumulative, offsets)`. Times are exact rationals here; the rounding of
`float64` is in `buildCrossfadeFilter_offsets64`. -/
def buildCrossfadeFilter_offsets (videos : List Video) (duration : ℚ) : Option (List ℚ) :=
  let n := videos.length
  Option.map Prod.snd
    ((List.range (n - 1)).foldlM
      (fun (st : ℚ × List ℚ) i => do
        let v ← videos[i]?
        let cumulative := st.1 + (v.Duration.Seconds - duration)
        if i < st.2.length then pure (cumulative, st.2.set i cumulative) else none)
      ((0 : ℚ), List.replicate (n - 1) (0 : ℚ)))

/-- The video loop of `buildCrossfadeFilter` (`for i := 1; i < n; i++`); the state of
the loop is `(lastVideo, filterParts)`. -/
def buildCrossfadeFilter_video (n : Nat) (duration : ℚ) (offsets : List ℚ) :
    Option (String × List String) :=
  (List.range' 1 (n - 1)).foldlM
    (fun (st : String × List String) i => do
      let outputLabel := if i = n - 1 then "[vout]" else "[v" ++ fmtD i ++ "]"
      let offset ← offsets[i - 1]?
      pure (outputLabel,
        st.2 ++ [st.1 ++ "[" ++ fmtD i ++ ":v]xfade=transition=fade:duration=" ++ fmt2 duration
          ++ ":offset=" ++ fmt2 offset ++ outputLabel]))
    ("[0:v]", [])

/-- The audio loop of `buildCrossfadeFilter`; the state of the loop is
`(lastAudio, audioFilterParts)`. -/
def buildCrossfadeFilter_audio (n : Nat) (duration : ℚ) : String × List String :=
  (List.range' 1 (n - 1)).foldl
    (fun (st : String × List String) i =>
      let outputLabel := if i = n - 1 then "[aout]" else "[a" ++ fmtD i ++ "]"
      (outputLabel,
        st.2 ++ [st.1 ++ "[" ++ fmtD i ++ ":a]acrossfade=d=" ++ fmt2 duration ++ outputLabel]))
    ("[0:a]", [])

/-- Go `buildCrossfadeFilter(videos, duration)`; `nil` is the empty list. -/
def buildCrossfadeFilter (videos : List Video) (duration : ℚ) : Option (List String) :=
  let n := videos.length
  if n < 2 then some []
  else do
    let offsets ← buildCrossfadeFilter_offsets videos duration
    let video ← buildCrossfadeFilter_video n duration offsets
    let audio := buildCrossfadeFilter_audio n duration
    let filter := stringsJoin video.2 ";" ++ ";" ++ stringsJoin audio.2 ";"
    pure ["-filter_complex", filter, "-map", "[vout]", "-map", "[aout]"]

/-- The body of the per-clip loop of `buildFadeFilter`: the pair `(vfilter, afilter)`
for clip `i` of `n`. -/
def buildFadeFilter_clip (n i : Nat) (videoDur duration : ℚ) : String × String :=
  let fadeOutStart := videoDur - duration
  if i = 0 then
    ("[" ++ fmtD i ++ ":v]fade=t=out:st=" ++ fmt2 fadeOutStart ++ ":d=" ++ fmt2 duration
        ++ "[v" ++ fmtD i ++ "]",
     "[" ++ fmtD i ++ ":a]afade=t=out:st=" ++ fmt2 fadeOutStart ++ ":d=" ++ fmt2 duration
        ++ "[a" ++ fmtD i ++ "]")
  else if i = n - 1 then
    ("[" ++ fmtD i ++ ":v]fade=t=in:st=0:d=" ++ fmt2 duration ++ "[v" ++ fmtD i ++ "]",
     "[" ++ fmtD i ++ ":a]afade=t=in:st=0:d=" ++ fmt2 duration ++ "[a" ++ fmtD i ++ "]")
  else
    ("[" ++ fmtD i ++ ":v]fade=t=in:st=0:d=" ++ fmt2 duration ++ ",fade=t=out:st="
        ++ fmt2 fadeOutStart ++ ":d=" ++ fmt2 duration ++ "[v" ++ fmtD i ++ "]",
     "[" ++ fmtD i ++ ":a]afade=t=in:st=0:d=" ++ fmt2 duration ++ ",afade=t=out:st="
        ++ fmt2 fadeOutStart ++ ":d=" ++ fmt2 duration ++ "[a" ++ fmtD i ++ "]")

/-- The per-clip loop of `buildFadeFilter` (`for i := 0; i < n; i++`); the state of the
loop is `(filterParts, audioFilterParts)`. -/
def buildFadeFilter_parts (videos : List Video) (duration : ℚ) :
    Option (List String × List String) :=
  let n := videos.length
  (List.range n).foldlM
    (fun (st : List String × List String) i => do
      let v ← videos[i]?
      let fs := buildFadeFilter_clip n i v.Duration.Seconds duration
      pure (st.1 ++ [fs.1], st.2 ++ [fs.2]))
    ([], [])

/-- The `concatInputs` loop of `buildFadeFilter`. -/
def buildFadeFilter_concatInputs (n : Nat) : String :=
  (List.range n).foldl (fun s i => s ++ ("[v" ++ fmtD i ++ "][a" ++ fmtD i ++ "]")) ""

/-- Go `buildFadeFilter(videos, duration)`. -/
def buildFadeFilter (videos : List Video) (duration : ℚ) : Option (List String) :=
  let n := videos.length
  if n < 1 then some []
  else do
    let parts ← buildFadeFilter_parts videos duration
    let concatFilter := buildFadeFilter_concatInputs n ++ "concat=n=" ++ fmtD n
      ++ ":v=1:a=1[vout][aout]"
    let filter := stringsJoin parts.1 ";" ++ ";" ++ stringsJoin parts.2 ";" ++ ";"
      ++ concatFilter
    pure ["-filter_complex", filter, "-map", "[vout]", "-map", "[aout]"]

/-! ## Orchestrator -/

/-- What the orchestrator does to the outside world, one constructor per kind of call. -/
inductive Effect where
  /-- `progress <- p`. -/
  | send (p : ExportProgress)
  /-- `close(progress)`. -/
  | closeChan
  /-- `os.CreateTemp("", pattern)`. -/
  | createTemp (pattern : String)
  /-- `fmt.Fprintf(tmpFile, ...)` writing `text` to the file `file`. -/
  | write (file : String) (text : String)
  /-- `tmpFile.Close()`. -/
  | closeFile (file : String)
  /-- `os.Remove(file)`. -/
  | remove (file : String)
  /-- `exec.Command("ffmpeg", args...).CombinedOutput()`. -/
  | run (args : List String)
  /-- A run-time panic (index out of range). -/
  | panicked
  deriving DecidableEq

/-- Outcomes of the two calls whose result the orchestrator branches on. -/
structure Env where
  /-- `os.CreateTemp`: the error message, or the name of the created file. -/
  CreateTemp : Except String String
  /-- `CombinedOutput` of the engine run with the given arguments: the captured
  output and the error (`none` is `nil`). -/
  CombinedOutput : List String → String × Option String

/-- The extension test shared by both export paths. -/
def isFastStartExt (outputPath : String) : Bool :=
  let ext := stringsToLower (filepathExt outputPath)
  ext == ".mp4" || ext == ".mov" || ext == ".m4v"

/-- The terminal part of both export paths: run the engine, then send `Error` or `Done`. -/
def runEngine (env : Env) (args : List String) : List Effect :=
  let r := env.CombinedOutput args
  Effect.run args ::
    (match r.2 with
     | some err =>
       [Effect.send { Error := some ("ffmpeg error: " ++ err ++ "\n" ++ r.1) }]
     | none => [Effect.send { Status := "Export complete!", Done := true }])

/-- The argument list built by `exportSimple` for the manifest `tmpName`. -/
def exportSimple_args (tmpName outputPath : String) : List String :=
  let args := ["-f", "concat", "-safe", "0", "-i", tmpName]
  let args :=
    if isFastStartExt outputPath then args ++ ["-c", "copy", "-movflags", "+faststart"]
    else args ++ ["-c", "copy"]
  args ++ ["-y", outputPath]

/-- Go `exportSimple(videos, outputPath, progress)`. The deferred `os.Remove` runs last. -/
def exportSimple (env : Env) (videos : List Video) (outputPath : String) : List Effect :=
  Effect.createTemp "video-list-*.txt" ::
    (match env.CreateTemp with
     | Except.error err =>
       [Effect.send { Error := some ("failed to create temp file: " ++ err) }]
     | Except.ok tmpName =>
       videos.map (fun video =>
          let escaped := stringsReplaceAll video.Path "\x27" "\x27\\\x27\x27"
          Effect.write tmpName ("file \x27" ++ escaped ++ "\x27\n"))
        ++ [Effect.closeFile tmpName, Effect.send { Status := "Combining videos..." }]
        ++ runEngine env (exportSimple_args tmpName outputPath)
        ++ [Effect.remove tmpName])

/-- The duration default of `exportWithTransitions`. -/
def transitionDuration (options : ExportOptions) : ℚ :=
  if options.TransitionDuration ≤ 0 then 1 else options.TransitionDuration

/-- The argument list built by `exportWithTransitions`; `none` if a builder panics. -/
def exportWithTransitions_args (videos : List Video) (outputPath : String)
    (options : ExportOptions) : Option (List String) := do
  let duration := transitionDuration options
  let args := videos.foldl (fun args video => args ++ ["-i", video.Path]) []
  let args ←
    if options.Transition = TransitionCrossfade then
      (buildCrossfadeFilter videos duration).map (fun f => args ++ f)
    else if options.Transition = TransitionFade then
      (buildFadeFilter videos duration).map (fun f => args ++ f)
    else some args
  let args := if isFastStartExt outputPath then args ++ ["-movflags", "+faststart"] else args
  pure (args ++ ["-y", outputPath])

/-- Go `exportWithTransitions(videos, outputPath, options, progress)`. -/
def exportWithTransitions (env : Env) (videos : List Video) (outputPath : String)
    (options : ExportOptions) : List Effect :=
  Effect.send { Status := "Building transition filters..." } ::
    (match exportWithTransitions_args videos outputPath options with
     | none => [Effect.panicked]
     | some args =>
       Effect.send { Status := "Rendering with transitions..." } :: runEngine env args)

/-- Go `ExportVideos(videos, outputPath, options, progress)`: the effects in order; the
deferred `close(progress)` comes last. -/
def ExportVideos (env : Env) (videos : List Video) (outputPath : String)
    (options : ExportOptions) : List Effect :=
  (if videos.length = 0 then
      [Effect.send { Error := some "no videos to export" }]
    else
      Effect.send { Status := "Preparing export..." } ::
        (if options.Transition = TransitionNone ∨ videos.length = 1 then
          exportSimple env videos outputPath
        else
          exportWithTransitions env videos outputPath options))
    ++ [Effect.closeChan]

/-- The events received on the progress channel, in order. -/
def events : List Effect → List ExportProgress
  | [] => []
  | Effect.send p :: rest => p :: events rest
  | _ :: rest => events rest


/-! ## The offsets loop in binary64 arithmetic

Go's `float64` is the IEEE 754 binary64 format: 53 significant binary digits, exponents
from -1022 to 1023, and every `+` and `-` gives the exact result rounded to the nearest
binary64 value, ties going to the even significand. -/

/-- Two to the power `e`. -/
def pow2 (e : Int) : ℚ :=
  if 0 ≤ e then ((2 ^ e.toNat : Nat) : ℚ) else 1 / ((2 ^ (-e).toNat : Nat) : ℚ)

/-- Number of binary digits of `n`, by repeated halving; `fuel` bounds the number of
halvings. -/
def bitLengthAux : Nat → Nat → Nat
  | 0, _ => 0
  | fuel + 1, n => if n = 0 then 0 else bitLengthAux fuel (n / 2) + 1

/-- Number of binary digits of `n` (0 for 0). -/
def bitLength (n : Nat) : Nat := bitLengthAux n n

/-- For `x ≠ 0`, the exponent `e` with `2^e ≤ |x| < 2^(e+1)`: the difference of the
digit counts of numerator and denominator, or one less. -/
def binaryExponent (x : ℚ) : Int :=
  let e0 : Int := (bitLength x.num.natAbs : Int) - (bitLength x.den : Int)
  if pow2 e0 ≤ |x| then e0 else e0 - 1

/-- A `float64` value: a finite number, an infinity, or NaN. The sign of a zero is not
kept; it has no effect on the value of a sum or difference. -/
inductive F64 where
  | fin (q : ℚ)
  | inf (negative : Bool)
  | nan
  deriving DecidableEq

/-- The binary64 value of a real `x`: `x` is rounded to a multiple of `2^q`, where `q`
is the exponent of the last of 53 significant digits (at least `-1074`, the spacing of
the subnormal numbers), to nearest and ties to even; a result of magnitude `2^1024` or
more is an infinity. -/
def round64 (x : ℚ) : F64 :=
  if x = 0 then F64.fin 0
  else
    let q : Int := max (binaryExponent x) (-1022) - 52
    let m : Nat := roundHalfEven (|x| / pow2 q)
    if 971 < q ∨ (q = 971 ∧ 2 ^ 53 ≤ m) then F64.inf (decide (x < 0))
    else F64.fin ((if x < 0 then -1 else 1) * ((m : ℚ) * pow2 q))

/-- Negation of a `float64`. -/
def F64.neg : F64 → F64
  | F64.fin a => F64.fin (-a)
  | F64.inf s => F64.inf (!s)
  | F64.nan => F64.nan

/-- Go `a + b` on `float64`: the rounded sum of two finite values; an infinity absorbs a
finite value, infinities of opposite sign give NaN, NaN is kept. -/
def F64.add : F64 → F64 → F64
  | F64.fin a, F64.fin b => round64 (a + b)
  | F64.fin _, F64.inf s => F64.inf s
  | F64.inf s, F64.fin _ => F64.inf s
  | F64.inf s, F64.inf t => if s = t then F64.inf s else F64.nan
  | F64.nan, _ => F64.nan
  | _, F64.nan => F64.nan

/-- Go `a - b` on `float64`. -/
def F64.sub (a b : F64) : F64 := a.add b.neg

/-- The offsets loop of `buildCrossfadeFilter` with the arithmetic of `float64`:
`offsets := make([]float64, n-1)`, `cumulative := 0.0`, then for `i` in `0 .. n-2` the
statement `cumulative += videos[i].Duration.Seconds() - duration` rounds the
difference, then the sum, and `offsets[i] = cumulative` stores it. The arguments
`Duration.Seconds` and `duration` are the finite `float64` values that the loop reads.
The state of the loop is `(cumulative, offsets)`. -/
def buildCrossfadeFilter_offsets64 (videos : List Video) (duration : ℚ) :
    Option (List F64) :=
  let n := videos.length
  Option.map Prod.snd
    ((List.range (n - 1)).foldlM
      (fun (st : F64 × List F64) i => do
        let v ← videos[i]?
        let cumulative := st.1.add ((F64.fin v.Duration.Seconds).sub (F64.fin duration))
        if i < st.2.length then pure (cumulative, st.2.set i cumulative) else none)
      (F64.fin 0, List.replicate (n - 1) (F64.fin 0)))
/-! ## Filter graphs as data

The spec describes a graph description as an ordered sequence of nodes, each with
bracketed input labels, filters with `key=value` parameters and bracketed output
labels, plus the list of mapped output labels. These definitions give that reading,
and `FilterGraphSpec.args` writes it back as the argument list handed to the engine. -/

/-- Stream kind of an input file: video or audio. -/
inductive StreamKind where
  | v
  | a
  deriving DecidableEq

/-- Letter of a stream kind in a stream reference. -/
def StreamKind.render : StreamKind → String
  | StreamKind.v => "v"
  | StreamKind.a => "a"

/-- A bracketed label: the stream `[k:v]` / `[k:a]` of input `k`, or a label named by
a node. -/
inductive Label where
  | stream (k : Nat) (kind : StreamKind)
  | named (s : String)
  deriving DecidableEq

/-- Text of a label, brackets included. -/
def Label.render : Label → String
  | Label.stream k kind => "[" ++ fmtD k ++ ":" ++ kind.render ++ "]"
  | Label.named s => "[" ++ s ++ "]"

/-- Value of a filter parameter: a time in seconds (written with `%.2f`), a count
(written with `%d`) or a word written as it stands. -/
inductive ParamValue where
  | time (q : ℚ)
  | count (n : Nat)
  | word (s : String)
  deriving DecidableEq

/-- Text of a parameter value. -/
def ParamValue.render : ParamValue → String
  | ParamValue.time q => fmt2 q
  | ParamValue.count n => fmtD n
  | ParamValue.word s => s

/-- A filter: name and `key=value` parameters. -/
structure FilterSpec where
  name : String
  params : List (String × ParamValue)
  deriving DecidableEq

/-- Text of a filter: `name=k1=v1:k2=v2...`. -/
def FilterSpec.render (f : FilterSpec) : String :=
  f.name ++ "=" ++ stringsJoin (f.params.map (fun kv => kv.1 ++ "=" ++ kv.2.render)) ":"

/-- Value of the parameter `key` of a filter, if it has one. -/
def FilterSpec.param (f : FilterSpec) (key : String) : Option ParamValue :=
  (f.params.find? (fun kv => kv.1 == key)).map Prod.snd

/-- A node: input labels, a comma-separated chain of filters, output labels. -/
structure Node where
  inputs : List Label
  chain : List FilterSpec
  outputs : List Label
  deriving DecidableEq

/-- Text of a node. -/
def Node.render (n : Node) : String :=
  String.join (n.inputs.map Label.render) ++ stringsJoin (n.chain.map FilterSpec.render) ","
    ++ String.join (n.outputs.map Label.render)

/-- A graph description: nodes in order, and the labels selected as output streams. -/
structure FilterGraphSpec where
  nodes : List Node
  maps : List Label
  deriving DecidableEq

/-- The arguments that carry a graph: `-filter_complex` with the nodes joined by
semicolons, then one `-map` per selected label. -/
def FilterGraphSpec.args (g : FilterGraphSpec) : List String :=
  ["-filter_complex", stringsJoin (g.nodes.map Node.render) ";"]
    ++ (g.maps.map (fun l => ["-map", l.render])).flatten

/-- Output label of step `i` of a crossfade chain over `n` clips: the canonical
`out` label at the last step, a numbered one before. -/
def chainLabel (base out : String) (n i : Nat) : Label :=
  if i = n - 1 then Label.named out else Label.named (base ++ fmtD i)

/-- Left operand of step `i` of a crossfade chain: the stream of input 0 at step 1,
the output of step `i - 1` afterwards. -/
def chainLeft (kind : StreamKind) (base out : String) (n i : Nat) : Label :=
  if i = 1 then Label.stream 0 kind else chainLabel base out n (i - 1)

/-- Video crossfade node of step `i` with offset `off`. -/
def xfadeNode (n : Nat) (D : ℚ) (i : Nat) (off : ℚ) : Node where
  inputs := [chainLeft StreamKind.v "v" "vout" n i, Label.stream i StreamKind.v]
  chain := [{ name := "xfade",
              params := [("transition", ParamValue.word "fade"),
                         ("duration", ParamValue.time D), ("offset", ParamValue.time off)] }]
  outputs := [chainLabel "v" "vout" n i]

/-- Audio crossfade node of step `i`. -/
def acrossfadeNode (n : Nat) (D : ℚ) (i : Nat) : Node where
  inputs := [chainLeft StreamKind.a "a" "aout" n i, Label.stream i StreamKind.a]
  chain := [{ name := "acrossfade", params := [("d", ParamValue.time D)] }]
  outputs := [chainLabel "a" "aout" n i]

/-- The crossfade graph over `n` clips with the offsets `offs`: the video chain, then
the audio chain. -/
def crossfadeGraph (n : Nat) (D : ℚ) (offs : List ℚ) : FilterGraphSpec where
  nodes := (List.range' 1 (n - 1)).map (fun i => xfadeNode n D i (offs.getD (i - 1) 0))
    ++ (List.range' 1 (n - 1)).map (fun i => acrossfadeNode n D i)
  maps := [Label.named "vout", Label.named "aout"]

/-- Duration in seconds of clip `k`, zero past the end of the list. -/
def secondsAt (videos : List Video) (k : Nat) : ℚ :=
  match videos[k]? with
  | some v => v.Duration.Seconds
  | none => 0

/-- Value of `cumulative` after `k` iterations of the offsets loop. -/
def cumulativeAt (videos : List Video) (D : ℚ) : Nat → ℚ
  | 0 => 0
  | k + 1 => cumulativeAt videos D k + (secondsAt videos k - D)

/-- The fade-in filter of a clip: starts at 0 (written `st=0`), lasts `D`. -/
def fadeIn (name : String) (D : ℚ) : FilterSpec where
  name := name
  params := [("t", ParamValue.word "in"), ("st", ParamValue.count 0), ("d", ParamValue.time D)]

/-- The fade-out filter of a clip: starts at `start`, lasts `D`. -/
def fadeOut (name : String) (start D : ℚ) : FilterSpec where
  name := name
  params := [("t", ParamValue.word "out"), ("st", ParamValue.time start),
             ("d", ParamValue.time D)]

/-- The fade node of clip `i` of `n` on its stream of the given kind (`name` is `fade`
or `afade`, `base` is `v` or `a`), for a clip that lasts `dur` seconds. -/
def fadeNode (kind : StreamKind) (name base : String) (n i : Nat) (dur D : ℚ) : Node where
  inputs := [Label.stream i kind]
  chain :=
    if i = 0 then [fadeOut name (dur - D) D]
    else if i = n - 1 then [fadeIn name D]
    else [fadeIn name D, fadeOut name (dur - D) D]
  outputs := [Label.named (base ++ fmtD i)]

/-- The concatenation node over `n` faded clips. -/
def concatNode (n : Nat) : Node where
  inputs := ((List.range n).map
    (fun i => [Label.named ("v" ++ fmtD i), Label.named ("a" ++ fmtD i)])).flatten
  chain := [{ name := "concat",
              params := [("n", ParamValue.count n), ("v", ParamValue.count 1),
                         ("a", ParamValue.count 1)] }]
  outputs := [Label.named "vout", Label.named "aout"]

/-- The fade graph of a clip list: the video fade nodes, the audio fade nodes, then the
concatenation node. -/
def fadeGraph (videos : List Video) (D : ℚ) : FilterGraphSpec where
  nodes :=
    (List.range videos.length).map
        (fun i => fadeNode StreamKind.v "fade" "v" videos.length i (secondsAt videos i) D)
      ++ (List.range videos.length).map
        (fun i => fadeNode StreamKind.a "afade" "a" videos.length i (secondsAt videos i) D)
      ++ [concatNode videos.length]
  maps := [Label.named "vout", Label.named "aout"]

/-! ## Strategy selection and sample inputs -/

/-- The `-i <clip>` arguments of the transition path, one pair per clip. -/
def inputArgs (videos : List Video) : List String :=
  (videos.map (fun video => ["-i", video.Path])).flatten

/-- The fast-start arguments of the transition path. -/
def fastStartArgs (outputPath : String) : List String :=
  if isFastStartExt outputPath then ["-movflags", "+faststart"] else []

/-- The effects of the transition path when the filter arguments are `filter`. -/
def transitionRun (env : Env) (videos : List Video) (outputPath : String)
    (filter : List String) : List Effect :=
  [Effect.send { Status := "Building transition filters..." },
   Effect.send { Status := "Rendering with transitions..." }]
    ++ runEngine env (inputArgs videos ++ filter ++ fastStartArgs outputPath ++ ["-y", outputPath])

/-- A clip of five seconds. -/
def clipA : Video := ⟨"a.mp4", ⟨5⟩⟩
/-- A second clip of five seconds. -/
def clipB : Video := ⟨"b.mp4", ⟨5⟩⟩
/-- A third clip of five seconds. -/
def clipC : Video := ⟨"c.mp4", ⟨5⟩⟩

/-- An environment in which the temp file is created and the engine succeeds silently. -/
def quietEnv : Env := ⟨Except.ok "list.txt", fun _ => ("", none)⟩

/-! ## Scoping of labels -/

/-- Whether a label may be used: a stream reference needs an input index below the
number of clips, a named label needs a node among `nodes` that has it as an output. -/
def labelDefined (clips : Nat) (nodes : List Node) : Label → Bool
  | Label.stream k _ => decide (k < clips)
  | Label.named s => nodes.any (fun n => n.outputs.contains (Label.named s))

/-- Whether every input label of every node of the sequence is a stream of an existing
clip or an output of a node in `earlier` or earlier in the sequence. -/
def nodesScoped (clips : Nat) : List Node → List Node → Bool
  | _, [] => true
  | earlier, n :: rest =>
    n.inputs.all (labelDefined clips earlier) && nodesScoped clips (earlier ++ [n]) rest

/-- No forward and no undefined references: the nodes are scoped from the start of the
sequence, and every mapped label is a named output of some node. -/
def FilterGraphSpec.wellScoped (clips : Nat) (g : FilterGraphSpec) : Bool :=
  nodesScoped clips [] g.nodes
    && g.maps.all (fun l =>
        match l with
        | Label.stream _ _ => false
        | Label.named s => labelDefined clips g.nodes (Label.named s))

/-! ## Manifest text -/

/-- The text written to `file`, in order. -/
def written (file : String) : List Effect → String
  | [] => ""
  | Effect.write f text :: rest => if f = file then text ++ written file rest else written file rest
  | _ :: rest => written file rest

/-- Worker of `textLines`: `cur` is the line read so far. -/
def linesAux : List Char → List Char → List String
  | [], cur => if cur = [] then [] else [⟨cur⟩]
  | c :: cs, cur => if c = Char.ofNat 10 then ⟨cur⟩ :: linesAux cs [] else linesAux cs (cur ++ [c])

/-- The lines of a text: the runs of characters between newlines, terminators removed
(a last line need not be terminated). -/
def textLines (text : String) : List String := linesAux text.data []

/-- A path with every single quote replaced by the four characters quote, backslash,
quote, quote, and nothing else changed. -/
def escapeQuotes (path : String) : String :=
  ⟨(path.data.map (fun c =>
      if c = Char.ofNat 39 then [Char.ofNat 39, Char.ofNat 92, Char.ofNat 39, Char.ofNat 39]
      else [c])).flatten⟩

/-- A clip whose path holds a newline. -/
def clipNewline : Video := ⟨"a\nb.mp4", ⟨5⟩⟩

/-! ## Kinds of progress events -/

/-- A non-terminal Status event: neither `Error` nor `Done` is set. -/
def ExportProgress.isStatus (p : ExportProgress) : Bool := p.Error.isNone && !p.Done

/-- A Failed event: `Error` is set. -/
def ExportProgress.isFailed (p : ExportProgress) : Bool := p.Error.isSome

/-- A Completed event: `Done` is set (and `Error` is not). -/
def ExportProgress.isCompleted (p : ExportProgress) : Bool := p.Error.isNone && p.Done

/-- The argument lists of the engine runs, in order. -/
def engineRuns : List Effect → List (List String)
  | [] => []
  | Effect.run args :: rest => args :: engineRuns rest
  | _ :: rest => engineRuns rest

/-! ## Reading a graph description back from its text -/

/-- A node as it is read from the text: input labels, the text of the filters, output
labels (labels with their brackets). -/
structure RawNode where
  inputs : List String
  body : String
  outputs : List String
  deriving DecidableEq

/-- What a reader of the text sees of a node. -/
def Node.raw (n : Node) : RawNode where
  inputs := n.inputs.map Label.render
  body := stringsJoin (n.chain.map FilterSpec.render) ","
  outputs := n.outputs.map Label.render

/-- Splits a text at every occurrence of `sep`; `cur` is the piece read so far. -/
def splitAtChar (sep : Char) : List Char → List Char → List (List Char)
  | [], cur => [cur]
  | c :: cs, cur =>
    if c = sep then cur :: splitAtChar sep cs [] else splitAtChar sep cs (cur ++ [c])

/-- The characters before the first `stop`, and the rest of the text from it on. -/
def takeUntil (stop : Char) : List Char → List Char × List Char
  | [] => ([], [])
  | c :: cs => if c = stop then ([], c :: cs) else (c :: (takeUntil stop cs).1, (takeUntil stop cs).2)

/-- Reads the bracketed labels at the front of a text, at most `fuel` of them; returns
the labels and the rest of the text. -/
def readLabels : Nat → List Char → List String × List Char
  | 0, cs => ([], cs)
  | _ + 1, [] => ([], [])
  | fuel + 1, c :: rest =>
    if c = Char.ofNat 91 then
      match takeUntil (Char.ofNat 93) rest with
      | (lab, _ :: rest2) =>
        ((⟨c :: lab ++ [Char.ofNat 93]⟩ : String) :: (readLabels fuel rest2).1,
          (readLabels fuel rest2).2)
      | (_, []) => ([], c :: rest)
    else ([], c :: rest)

/-- Reads one node: the labels at its front, the filters up to the next bracket, the
labels that follow. -/
def readNode (cs : List Char) : RawNode :=
  let front := readLabels cs.length cs
  let mid := takeUntil (Char.ofNat 91) front.2
  { inputs := front.1, body := ⟨mid.1⟩, outputs := (readLabels mid.2.length mid.2).1 }

/-- Reads a graph description: the pieces between semicolons, each read as a node. -/
def parseGraph (text : String) : List RawNode :=
  (splitAtChar (Char.ofNat 59) text.data []).map readNode

/-- A character that is neither a bracket nor a semicolon. -/
def plainChar (c : Char) : Bool :=
  c != Char.ofNat 91 && c != Char.ofNat 93 && c != Char.ofNat 59

/-- Every character of the string is plain. -/
def plainStr (s : String) : Bool := s.data.all plainChar

/-- Text of a label between its brackets. -/
def Label.content : Label → String
  | Label.stream k kind => fmtD k ++ ":" ++ kind.render
  | Label.named s => s

/-- A node whose text can be read back: the label contents and the filters text hold no
bracket and no semicolon, and the filters text is not empty. -/
def Node.clean (n : Node) : Bool :=
  (n.inputs ++ n.outputs).all (fun l => plainStr l.content)
    && plainStr n.raw.body && !n.raw.body.data.isEmpty

/-- The structured graph is what a reader gets from the text it is written as: its
arguments are `-filter_complex <text> -map [vout] -map [aout]`, and reading `text` node
by node gives back the labels and filters of its nodes. -/
def FilterGraphSpec.readsBack (g : FilterGraphSpec) : Prop :=
  ∃ text, g.args = ["-filter_complex", text, "-map", "[vout]", "-map", "[aout]"]
    ∧ parseGraph text = g.nodes.map Node.raw

/-! ## Further projections of a run -/

/-- The Status events that come before the last event of a sequence. -/
def statusBeforeLast (es : List ExportProgress) : List ExportProgress :=
  es.dropLast.filter ExportProgress.isStatus

/-- An environment in which the temp file cannot be created. -/
def noTempEnv : Env := ⟨Except.error "disk full", fun _ => ("", none)⟩

/-- An environment in which the engine fails with exit status 1 and the given output. -/
def failingEnv : Env := ⟨Except.ok "list.txt", fun _ => ("boom", some "exit status 1")⟩

/-! ## Flags in an argument list -/

/-- Whether the argument list holds the flag `a` directly followed by its value `b`. -/
def hasPair (a b : String) : List String → Bool
  | x :: y :: rest => (x == a && y == b) || hasPair a b (y :: rest)
  | _ => false

/-! ## Written form of time values -/

/-- Fixed notation with exactly two decimal places: an optional minus sign, one or more
digits, a point, two digits. -/
def isTwoDecimal (s : String) : Bool :=
  let body :=
    match s.data with
    | c :: rest => if c = Char.ofNat 45 then rest else c :: rest
    | [] => []
  let p := takeUntil (Char.ofNat 46) body
  !p.1.isEmpty && p.1.all Char.isDigit &&
    match p.2 with
    | [_, a, b] => a.isDigit && b.isDigit
    | _ => false

/-- The number of hundredths that `fmt2` writes for `x`. -/
def hundredths (x : ℚ) : Nat := roundHalfEven (|x| * 100)


/-! ## Offsets in binary64 arithmetic -/

/-- Value of `cumulative` after `k` iterations of the offsets loop in `float64`. -/
def cumulativeAt64 (videos : List Video) (D : ℚ) : Nat → F64
  | 0 => F64.fin 0
  | k + 1 => (cumulativeAt64 videos D k).add ((F64.fin (secondsAt videos k)).sub (F64.fin D))

/-- The closed form of the offset of index `k`: the total length of the first `k + 1`
clips minus `k + 1` times `D`, in exact arithmetic. -/
def closedOffset (videos : List Video) (D : ℚ) (k : Nat) : ℚ :=
  ((videos.take (k + 1)).map (fun v => v.Duration.Seconds)).sum - ((k : ℚ) + 1) * D

/-- Whether a `float64` is the finite value with numerator `n` and denominator `d` in
lowest terms. -/
def F64.isQuotient (x : F64) (n : Int) (d : Nat) : Bool :=
  match x with
  | F64.fin q => q.num == n && q.den == d
  | _ => false

/-- The `float64` nearest to 2.435, the length in seconds of a clip of 2435 ms. -/
def secs2435 : ℚ := mkRat 5483132546323579 2251799813685248

/-- Four clips of 2435 ms. -/
def fourClips : List Video :=
  [⟨"a.mp4", ⟨secs2435⟩⟩, ⟨"b.mp4", ⟨secs2435⟩⟩, ⟨"c.mp4", ⟨secs2435⟩⟩, ⟨"d.mp4", ⟨secs2435⟩⟩]
/-! ## Lemmas on strings and loops -/

theorem string_eq_of_data {a b : String} (h : a.data = b.data) : a = b := by
  cases a; cases b; simp_all

theorem set_map_range_replicate (f : Nat → ℚ) (m k : Nat) (x : ℚ) (h : k < m) :
    ((List.range k).map f ++ List.replicate (m - k) (0 : ℚ)).set k x
      = (List.range k).map f ++ x :: List.replicate (m - (k + 1)) (0 : ℚ) := by
  have hm : m - k = (m - (k + 1)) + 1 := by omega
  rw [hm, List.replicate_succ]
  rw [List.set_append]
  simp

theorem offsets_loop (videos : List Video) (D : ℚ) (m : Nat) (hm : m ≤ videos.length) :
    ∀ k, k ≤ m →
      (List.range k).foldlM
        (fun (st : ℚ × List ℚ) i => do
          let v ← videos[i]?
          let cumulative := st.1 + (v.Duration.Seconds - D)
          if i < st.2.length then pure (cumulative, st.2.set i cumulative) else none)
        ((0 : ℚ), List.replicate m (0 : ℚ))
      = some (cumulativeAt videos D k,
          (List.range k).map (fun j => cumulativeAt videos D (j + 1))
            ++ List.replicate (m - k) (0 : ℚ)) := by
  intro k
  induction k with
  | zero => intro _; simp [cumulativeAt]
  | succ k ih =>
    intro hk
    have hk1 : k < videos.length := by omega
    rw [List.range_succ, List.foldlM_append, ih (by omega)]
    have hget : videos[k]? = some videos[k] := List.getElem?_eq_getElem hk1
    have hs : secondsAt videos k = videos[k].Duration.Seconds := by
      simp [secondsAt, hget]
    have hlen : k < ((List.range k).map (fun j => cumulativeAt videos D (j + 1))
            ++ List.replicate (m - k) (0 : ℚ)).length := by
      simp; omega
    simp only [List.foldlM_cons, List.foldlM_nil, hget, Option.bind_eq_bind, Option.some_bind,
      hlen, if_true, Option.pure_def, bind_pure]
    rw [set_map_range_replicate _ _ _ _ (by omega)]
    simp [cumulativeAt, hs, List.range_succ]

theorem offsets_eq (videos : List Video) (D : ℚ) :
    buildCrossfadeFilter_offsets videos D
      = some ((List.range (videos.length - 1)).map (fun j => cumulativeAt videos D (j + 1))) := by
  unfold buildCrossfadeFilter_offsets
  simp only []
  rw [offsets_loop videos D (videos.length - 1) (by omega) (videos.length - 1) (le_refl _)]
  simp

theorem xfadeNode_render (n : Nat) (D : ℚ) (i : Nat) (off : ℚ) :
    (xfadeNode n D i off).render
      = (chainLeft StreamKind.v "v" "vout" n i).render ++ "[" ++ fmtD i
          ++ ":v]xfade=transition=fade:duration=" ++ fmt2 D ++ ":offset=" ++ fmt2 off
          ++ (chainLabel "v" "vout" n i).render := by
  apply string_eq_of_data
  simp [xfadeNode, Node.render, FilterSpec.render, stringsJoin, ParamValue.render, Label.render,
    StreamKind.render, String.join, String.data_append]

theorem acrossfadeNode_render (n : Nat) (D : ℚ) (i : Nat) :
    (acrossfadeNode n D i).render
      = (chainLeft StreamKind.a "a" "aout" n i).render ++ "[" ++ fmtD i
          ++ ":a]acrossfade=d=" ++ fmt2 D ++ (chainLabel "a" "aout" n i).render := by
  apply string_eq_of_data
  simp [acrossfadeNode, Node.render, FilterSpec.render, stringsJoin, ParamValue.render,
    Label.render, StreamKind.render, String.join, String.data_append]

theorem chainLabel_render_v (n i : Nat) :
    (if i = n - 1 then "[vout]" else "[v" ++ fmtD i ++ "]") = (chainLabel "v" "vout" n i).render := by
  unfold chainLabel
  split
  · rfl
  · apply string_eq_of_data
    simp [Label.render, String.data_append]

theorem chainLabel_render_a (n i : Nat) :
    (if i = n - 1 then "[aout]" else "[a" ++ fmtD i ++ "]") = (chainLabel "a" "aout" n i).render := by
  unfold chainLabel
  split
  · rfl
  · apply string_eq_of_data
    simp [Label.render, String.data_append]

theorem chainLeft_succ (kind : StreamKind) (base out : String) (n k : Nat) (hk : 0 < k) :
    chainLeft kind base out n (k + 1) = chainLabel base out n k := by
  unfold chainLeft
  have : k + 1 ≠ 1 := by omega
  simp [this]

theorem video_loop (n : Nat) (D : ℚ) (offs : List ℚ) :
    ∀ k, k ≤ offs.length →
      (List.range' 1 k).foldlM
        (fun (st : String × List String) i => do
          let outputLabel := if i = n - 1 then "[vout]" else "[v" ++ fmtD i ++ "]"
          let offset ← offs[i - 1]?
          pure (outputLabel,
            st.2 ++ [st.1 ++ "[" ++ fmtD i ++ ":v]xfade=transition=fade:duration=" ++ fmt2 D
              ++ ":offset=" ++ fmt2 offset ++ outputLabel]))
        ("[0:v]", [])
      = some ((chainLeft StreamKind.v "v" "vout" n (k + 1)).render,
          (List.range' 1 k).map (fun i => (xfadeNode n D i (offs.getD (i - 1) 0)).render)) := by
  intro k
  induction k with
  | zero => intro _; simp [chainLeft, Label.render, StreamKind.render]; rfl
  | succ k ih =>
    intro hk
    have hk1 : k < offs.length := by omega
    rw [List.range'_concat, List.foldlM_append, ih (by omega)]
    have hget : offs[k]? = some offs[k] := List.getElem?_eq_getElem hk1
    have hD : offs.getD k 0 = offs[k] := by simp [List.getD, hget]
    simp only [List.foldlM_cons, List.foldlM_nil, Option.bind_eq_bind, Option.some_bind,
      Option.pure_def, bind_pure, Nat.add_sub_cancel_left, Nat.add_sub_cancel, hget, List.map_append, List.map_cons,
      List.map_nil, one_mul, hD, xfadeNode_render, chainLabel_render_v, Nat.add_comm 1 k]
    rw [chainLeft_succ _ _ _ _ (k+1) (by omega)]

theorem audio_loop (n : Nat) (D : ℚ) :
    ∀ k,
      (List.range' 1 k).foldl
        (fun (st : String × List String) i =>
          let outputLabel := if i = n - 1 then "[aout]" else "[a" ++ fmtD i ++ "]"
          (outputLabel,
            st.2 ++ [st.1 ++ "[" ++ fmtD i ++ ":a]acrossfade=d=" ++ fmt2 D ++ outputLabel]))
        ("[0:a]", [])
      = ((chainLeft StreamKind.a "a" "aout" n (k + 1)).render,
          (List.range' 1 k).map (fun i => (acrossfadeNode n D i).render)) := by
  intro k
  induction k with
  | zero => simp [chainLeft, Label.render, StreamKind.render]; rfl
  | succ k ih =>
    rw [List.range'_concat, List.foldl_append, ih]
    simp only [List.foldl_cons, List.foldl_nil, List.map_append, List.map_cons,
      List.map_nil, one_mul, acrossfadeNode_render, chainLabel_render_a, Nat.add_comm 1 k]
    rw [chainLeft_succ _ _ _ _ (k+1) (by omega)]

theorem stringsJoin_append (sep : String) :
    ∀ (a b : List String), a ≠ [] → b ≠ [] →
      stringsJoin (a ++ b) sep = stringsJoin a sep ++ sep ++ stringsJoin b sep := by
  intro a
  induction a with
  | nil => intro b h; exact absurd rfl h
  | cons x r ih =>
    intro b _ hb
    cases r with
    | nil =>
      cases b with
      | nil => exact absurd rfl hb
      | cons y t => simp [stringsJoin]
    | cons y t =>
      have := ih b (by simp) hb
      simp only [List.cons_append] at this ⊢
      simp only [stringsJoin, this, String.append_assoc]

theorem buildCrossfadeFilter_video_eq (n : Nat) (D : ℚ) (offs : List ℚ)
    (h : n - 1 ≤ offs.length) :
    buildCrossfadeFilter_video n D offs
      = some ((chainLeft StreamKind.v "v" "vout" n (n - 1 + 1)).render,
          (List.range' 1 (n - 1)).map (fun i => (xfadeNode n D i (offs.getD (i - 1) 0)).render)) :=
  video_loop n D offs (n - 1) h

theorem buildCrossfadeFilter_audio_eq (n : Nat) (D : ℚ) :
    buildCrossfadeFilter_audio n D
      = ((chainLeft StreamKind.a "a" "aout" n (n - 1 + 1)).render,
          (List.range' 1 (n - 1)).map (fun i => (acrossfadeNode n D i).render)) :=
  audio_loop n D (n - 1)

theorem buildCrossfadeFilter_short (videos : List Video) (D : ℚ) (h : videos.length < 2) :
    buildCrossfadeFilter videos D = some [] := by
  simp [buildCrossfadeFilter, h]

theorem buildCrossfadeFilter_eq (videos : List Video) (D : ℚ) (h : 2 ≤ videos.length) :
    ∃ offs, buildCrossfadeFilter_offsets videos D = some offs
      ∧ offs.length = videos.length - 1
      ∧ buildCrossfadeFilter videos D = some (crossfadeGraph videos.length D offs).args := by
  refine ⟨_, offsets_eq videos D, by simp, ?_⟩
  have hn : ¬ videos.length < 2 := by omega
  have hne : List.range' 1 (videos.length - 1) ≠ [] := by
    intro h0
    have := congrArg List.length h0
    simp at this
    omega
  unfold buildCrossfadeFilter
  simp only [hn, if_false, offsets_eq, Option.bind_eq_bind, Option.some_bind]
  rw [buildCrossfadeFilter_video_eq videos.length D _ (by simp)]
  simp only [Option.some_bind, buildCrossfadeFilter_audio_eq, Option.pure_def,
    crossfadeGraph, FilterGraphSpec.args, List.map_append, List.map_map]
  rw [stringsJoin_append ";" _ _ (by simpa using hne) (by simpa using hne)]
  simp [Label.render, Function.comp_def]

theorem repr_zero_data : (Nat.repr 0).data = [Char.ofNat 48] := by decide

theorem repr_one_data : (Nat.repr 1).data = [Char.ofNat 49] := by decide

theorem buildFadeFilter_clip_eq (n i : Nat) (dur D : ℚ) :
    buildFadeFilter_clip n i dur D
      = ((fadeNode StreamKind.v "fade" "v" n i dur D).render,
         (fadeNode StreamKind.a "afade" "a" n i dur D).render) := by
  unfold buildFadeFilter_clip fadeNode
  by_cases h0 : i = 0
  · simp only [h0, if_true, Prod.mk.injEq]
    constructor <;>
    · apply string_eq_of_data
      simp [Node.render, FilterSpec.render, stringsJoin, ParamValue.render, Label.render,
        StreamKind.render, String.join, String.data_append, fadeOut]
  · by_cases h1 : i = n - 1
    · simp only [h0, ← h1, if_true, if_false, Prod.mk.injEq]
      constructor <;>
      · apply string_eq_of_data
        simp [Node.render, FilterSpec.render, stringsJoin, ParamValue.render, Label.render,
          StreamKind.render, String.join, String.data_append, fadeIn, fmtD, repr_zero_data]
    · simp only [h0, h1, if_false, Prod.mk.injEq]
      constructor <;>
      · apply string_eq_of_data
        simp [Node.render, FilterSpec.render, stringsJoin, ParamValue.render, Label.render,
          StreamKind.render, String.join, String.data_append, fadeIn, fadeOut, fmtD, repr_zero_data]

theorem fade_loop (videos : List Video) (D : ℚ) (n : Nat) :
    ∀ k, k ≤ videos.length →
      (List.range k).foldlM
        (fun (st : List String × List String) i => do
          let v ← videos[i]?
          let fs := buildFadeFilter_clip n i v.Duration.Seconds D
          pure (st.1 ++ [fs.1], st.2 ++ [fs.2]))
        ([], [])
      = some
          ((List.range k).map
            (fun i => (fadeNode StreamKind.v "fade" "v" n i (secondsAt videos i) D).render),
           (List.range k).map
            (fun i => (fadeNode StreamKind.a "afade" "a" n i (secondsAt videos i) D).render)) := by
  intro k
  induction k with
  | zero => intro _; simp
  | succ k ih =>
    intro hk
    have hk1 : k < videos.length := by omega
    have hget : videos[k]? = some videos[k] := List.getElem?_eq_getElem hk1
    have hs : secondsAt videos k = videos[k].Duration.Seconds := by
      simp [secondsAt, hget]
    rw [List.range_succ, List.foldlM_append, ih (by omega)]
    simp only [List.foldlM_cons, List.foldlM_nil, hget, Option.bind_eq_bind, Option.some_bind,
      Option.pure_def, bind_pure, buildFadeFilter_clip_eq, List.map_append, List.map_cons,
      List.map_nil, hs]

theorem buildFadeFilter_parts_eq (videos : List Video) (D : ℚ) :
    buildFadeFilter_parts videos D
      = some
          ((List.range videos.length).map
            (fun i => (fadeNode StreamKind.v "fade" "v" videos.length i
              (secondsAt videos i) D).render),
           (List.range videos.length).map
            (fun i => (fadeNode StreamKind.a "afade" "a" videos.length i
              (secondsAt videos i) D).render)) :=
  fade_loop videos D videos.length videos.length (le_refl _)

theorem concatInputs_loop :
    ∀ k, (List.range k).foldl (fun s i => s ++ ("[v" ++ fmtD i ++ "][a" ++ fmtD i ++ "]")) ""
      = String.join ((((List.range k).map
          (fun i => [Label.named ("v" ++ fmtD i), Label.named ("a" ++ fmtD i)])).flatten).map
            Label.render) := by
  intro k
  induction k with
  | zero => rfl
  | succ k ih =>
    rw [List.range_succ, List.foldl_append, ih]
    apply string_eq_of_data
    simp [String.join, String.data_append, Label.render]

theorem concatNode_render (n : Nat) :
    (concatNode n).render
      = buildFadeFilter_concatInputs n ++ "concat=n=" ++ fmtD n ++ ":v=1:a=1[vout][aout]" := by
  unfold buildFadeFilter_concatInputs
  rw [concatInputs_loop]
  apply string_eq_of_data
  simp [concatNode, Node.render, FilterSpec.render, stringsJoin, ParamValue.render, Label.render,
    String.join, String.data_append, fmtD, repr_one_data]

theorem buildFadeFilter_empty (D : ℚ) : buildFadeFilter [] D = some [] := by
  simp [buildFadeFilter]

theorem buildFadeFilter_eq (videos : List Video) (D : ℚ) (h : 1 ≤ videos.length) :
    buildFadeFilter videos D = some (fadeGraph videos D).args := by
  have hn : ¬ videos.length < 1 := by omega
  have hne : List.range videos.length ≠ [] := by
    rw [Ne, List.range_eq_nil]
    omega
  unfold buildFadeFilter
  simp only [hn, if_false, buildFadeFilter_parts_eq, Option.bind_eq_bind, Option.some_bind,
    Option.pure_def, fadeGraph, FilterGraphSpec.args, List.map_append, List.map_map,
    List.map_cons, List.map_nil]
  rw [stringsJoin_append ";" _ _ (by simpa using hne) (by simp),
    stringsJoin_append ";" _ _ (by simpa using hne) (by simpa using hne)]
  simp [Label.render, Function.comp_def, stringsJoin, concatNode_render, String.append_assoc]

theorem inputs_loop (videos : List Video) :
    ∀ (acc : List String),
      videos.foldl (fun args video => args ++ ["-i", video.Path]) acc = acc ++ inputArgs videos := by
  induction videos with
  | nil => intro acc; simp [inputArgs]
  | cons v vs ih =>
    intro acc
    rw [List.foldl_cons, ih]
    simp [inputArgs]

theorem fade_ne_crossfade : ¬ (TransitionFade = TransitionCrossfade) := by decide

theorem exportWithTransitions_args_eq (videos : List Video) (outputPath : String)
    (options : ExportOptions) :
    exportWithTransitions_args videos outputPath options
      = (if options.Transition = TransitionCrossfade then
            buildCrossfadeFilter videos (transitionDuration options)
          else if options.Transition = TransitionFade then
            buildFadeFilter videos (transitionDuration options)
          else some []).map
          (fun f => inputArgs videos ++ f ++ fastStartArgs outputPath ++ ["-y", outputPath]) := by
  unfold exportWithTransitions_args
  simp only [inputs_loop, List.nil_append, Option.bind_eq_bind, Option.pure_def]
  by_cases hc : options.Transition = TransitionCrossfade
  · cases hb : buildCrossfadeFilter videos (transitionDuration options) <;>
      by_cases hf : isFastStartExt outputPath <;> simp [hc, hb, hf, fastStartArgs]
  · by_cases hd : options.Transition = TransitionFade
    · cases hb : buildFadeFilter videos (transitionDuration options) <;>
        by_cases hf : isFastStartExt outputPath <;>
        simp [hd, hb, hf, fastStartArgs, fade_ne_crossfade]
    · by_cases hf : isFastStartExt outputPath <;> simp [hc, hd, hf, fastStartArgs]

theorem buildCrossfadeFilter_args (videos : List Video) (D : ℚ) (h : 2 ≤ videos.length) :
    ∃ f, buildCrossfadeFilter videos D = some f ∧ f.head? = some "-filter_complex" := by
  obtain ⟨offs, -, -, hb⟩ := buildCrossfadeFilter_eq videos D h
  exact ⟨_, hb, rfl⟩

theorem exportWithTransitions_eq (env : Env) (videos : List Video) (outputPath : String)
    (options : ExportOptions) (f : List String)
    (hf : (if options.Transition = TransitionCrossfade then
            buildCrossfadeFilter videos (transitionDuration options)
          else if options.Transition = TransitionFade then
            buildFadeFilter videos (transitionDuration options)
          else some []) = some f) :
    exportWithTransitions env videos outputPath options
      = transitionRun env videos outputPath f := by
  unfold exportWithTransitions
  rw [exportWithTransitions_args_eq, hf]
  simp [transitionRun]

theorem offsets_getElem? (videos : List Video) (D : ℚ) (i : Nat) (h : i < videos.length - 1) :
    ((List.range (videos.length - 1)).map (fun j => cumulativeAt videos D (j + 1)))[i]?
      = some (cumulativeAt videos D (i + 1)) := by
  simp [List.getElem?_map, List.getElem?_range h]

theorem secondsAt_eq (videos : List Video) (i : Nat) (v : Video) (h : videos[i]? = some v) :
    secondsAt videos i = v.Duration.Seconds := by
  simp [secondsAt, h]

theorem crossfadeGraph_length (n : Nat) (D : ℚ) (offs : List ℚ) :
    (crossfadeGraph n D offs).nodes.length = (n - 1) + (n - 1) := by
  simp [crossfadeGraph]

theorem crossfadeGraph_video_node (n : Nat) (D : ℚ) (offs : List ℚ) (i : Nat)
    (h1 : 1 ≤ i) (h2 : i ≤ n - 1) :
    (crossfadeGraph n D offs).nodes[i - 1]? = some (xfadeNode n D i (offs.getD (i - 1) 0)) := by
  have hlt : i - 1 < n - 1 := by omega
  have hi : 1 + (i - 1) = i := by omega
  unfold crossfadeGraph
  simp only []
  rw [List.getElem?_append_left (by simpa using hlt)]
  simp [List.getElem?_map, List.getElem?_range' _ _ hlt, hi]

theorem crossfadeGraph_audio_node (n : Nat) (D : ℚ) (offs : List ℚ) (i : Nat)
    (h1 : 1 ≤ i) (h2 : i ≤ n - 1) :
    (crossfadeGraph n D offs).nodes[(n - 1) + (i - 1)]? = some (acrossfadeNode n D i) := by
  have hlt : i - 1 < n - 1 := by omega
  have hi : 1 + (i - 1) = i := by omega
  unfold crossfadeGraph
  simp only []
  rw [List.getElem?_append_right (by simp)]
  simp [List.getElem?_map, List.getElem?_range' _ _ hlt, hi]

theorem countP_map_const_true {α : Type} (p : Node → Bool) (f : α → Node) (l : List α)
    (h : ∀ x, p (f x) = true) : (l.map f).countP p = l.length := by
  induction l with
  | nil => rfl
  | cons a t ih => simp [List.countP_cons, h, ih]

theorem countP_map_const_false {α : Type} (p : Node → Bool) (f : α → Node) (l : List α)
    (h : ∀ x, p (f x) = false) : (l.map f).countP p = 0 := by
  induction l with
  | nil => rfl
  | cons a t ih => simp [List.countP_cons, h, ih]

theorem crossfadeGraph_count_xfade (n : Nat) (D : ℚ) (offs : List ℚ) :
    (crossfadeGraph n D offs).nodes.countP
      (fun x => decide (x.chain.map FilterSpec.name = ["xfade"])) = n - 1 := by
  unfold crossfadeGraph
  simp only [List.countP_append]
  rw [countP_map_const_true _ _ _ (by intro x; simp [xfadeNode]),
    countP_map_const_false _ _ _ (by intro x; simp [acrossfadeNode])]
  simp

theorem crossfadeGraph_count_acrossfade (n : Nat) (D : ℚ) (offs : List ℚ) :
    (crossfadeGraph n D offs).nodes.countP
      (fun x => decide (x.chain.map FilterSpec.name = ["acrossfade"])) = n - 1 := by
  unfold crossfadeGraph
  simp only [List.countP_append]
  rw [countP_map_const_false _ _ _ (by intro x; simp [xfadeNode]),
    countP_map_const_true _ _ _ (by intro x; simp [acrossfadeNode])]
  simp

theorem buildCrossfadeFilter_two_clips :
    buildCrossfadeFilter [clipA, clipB] 1 = some ["-filter_complex",
      "[0:v][1:v]xfade=transition=fade:duration=1.00:offset=4.00[vout];[0:a][1:a]acrossfade=d=1.00[aout]",
      "-map", "[vout]", "-map", "[aout]"] := by
  with_unfolding_all decide

set_option maxRecDepth 100000 in
theorem buildCrossfadeFilter_three_clips :
    buildCrossfadeFilter [clipA, clipB, clipC] 1 = some ["-filter_complex",
      "[0:v][1:v]xfade=transition=fade:duration=1.00:offset=4.00[v1];[v1][2:v]xfade=transition=fade:duration=1.00:offset=8.00[vout];[0:a][1:a]acrossfade=d=1.00[a1];[a1][2:a]acrossfade=d=1.00[aout]",
      "-map", "[vout]", "-map", "[aout]"] := by
  with_unfolding_all decide

set_option maxRecDepth 100000 in
theorem buildFadeFilter_three_clips :
    buildFadeFilter [clipA, clipB, clipC] 2 = some ["-filter_complex",
      "[0:v]fade=t=out:st=3.00:d=2.00[v0];[1:v]fade=t=in:st=0:d=2.00,fade=t=out:st=3.00:d=2.00[v1];[2:v]fade=t=in:st=0:d=2.00[v2];[0:a]afade=t=out:st=3.00:d=2.00[a0];[1:a]afade=t=in:st=0:d=2.00,afade=t=out:st=3.00:d=2.00[a1];[2:a]afade=t=in:st=0:d=2.00[a2];[v0][a0][v1][a1][v2][a2]concat=n=3:v=1:a=1[vout][aout]",
      "-map", "[vout]", "-map", "[aout]"] := by
  with_unfolding_all decide

theorem fadeGraph_length (videos : List Video) (D : ℚ) :
    (fadeGraph videos D).nodes.length = videos.length + videos.length + 1 := by
  simp [fadeGraph]
  omega

theorem fadeGraph_video_node (videos : List Video) (D : ℚ) (i : Nat) (h : i < videos.length) :
    (fadeGraph videos D).nodes[i]?
      = some (fadeNode StreamKind.v "fade" "v" videos.length i (secondsAt videos i) D) := by
  unfold fadeGraph
  simp only []
  rw [List.getElem?_append_left (by simp; omega), List.getElem?_append_left (by simpa using h)]
  simp [List.getElem?_map, List.getElem?_range h]

theorem fadeGraph_audio_node (videos : List Video) (D : ℚ) (i : Nat) (h : i < videos.length) :
    (fadeGraph videos D).nodes[videos.length + i]?
      = some (fadeNode StreamKind.a "afade" "a" videos.length i (secondsAt videos i) D) := by
  unfold fadeGraph
  simp only []
  rw [List.getElem?_append_left (by simp; omega), List.getElem?_append_right (by simp)]
  simp [List.getElem?_map, List.getElem?_range h]

theorem fadeGraph_last (videos : List Video) (D : ℚ) :
    (fadeGraph videos D).nodes.getLast? = some (concatNode videos.length) := by
  simp [fadeGraph]

theorem nodesScoped_append (clips : Nat) :
    ∀ (xs earlier ys : List Node),
      nodesScoped clips earlier (xs ++ ys)
        = (nodesScoped clips earlier xs && nodesScoped clips (earlier ++ xs) ys) := by
  intro xs
  induction xs with
  | nil => intro earlier ys; simp [nodesScoped]
  | cons x t ih =>
    intro earlier ys
    simp [nodesScoped, ih, Bool.and_assoc]

theorem labelDefined_named (clips : Nat) (nodes : List Node) (s : String) (n : Node)
    (hn : n ∈ nodes) (hs : Label.named s ∈ n.outputs) :
    labelDefined clips nodes (Label.named s) = true := by
  simp only [labelDefined, List.any_eq_true]
  exact ⟨n, hn, by simpa using hs⟩

/-- A chain of nodes `f s, f (s+1), ...` is scoped when the inputs of its first node are
defined and the inputs of each later node are defined as soon as the node before it
is among the earlier ones. -/
theorem nodesScoped_chain (clips : Nat) (f : Nat → Node) (bound : Nat)
    (hstep : ∀ s E, s + 1 < bound → f s ∈ E →
      (f (s + 1)).inputs.all (labelDefined clips E) = true) :
    ∀ k s E, s + k ≤ bound → (0 < k → (f s).inputs.all (labelDefined clips E) = true) →
      nodesScoped clips E ((List.range' s k).map f) = true := by
  intro k
  induction k with
  | zero => intro s E _ _; simp [nodesScoped]
  | succ k ih =>
    intro s E hb h0
    rw [List.range'_succ, List.map_cons]
    simp only [nodesScoped, Bool.and_eq_true]
    refine ⟨h0 (by omega), ih (s + 1) (E ++ [f s]) (by omega) ?_⟩
    intro hk
    exact hstep s (E ++ [f s]) (by omega) (by simp)

theorem chainLabel_named (base out : String) (n i : Nat) :
    ∃ s, chainLabel base out n i = Label.named s := by
  unfold chainLabel
  split
  · exact ⟨_, rfl⟩
  · exact ⟨_, rfl⟩

theorem chainLeft_defined (clips : Nat) (kind : StreamKind) (base out : String) (n s : Nat)
    (E : List Node) (x : Node) (hx : x ∈ E) (hout : x.outputs = [chainLabel base out n s])
    (hc : 0 < clips) :
    labelDefined clips E (chainLeft kind base out n (s + 1)) = true := by
  unfold chainLeft
  by_cases h1 : s + 1 = 1
  · simp [h1, labelDefined, hc]
  · simp only [h1, if_false, Nat.add_sub_cancel]
    obtain ⟨t, ht⟩ := chainLabel_named base out n s
    rw [ht]
    exact labelDefined_named clips E t x hx (by rw [hout, ht]; simp)

theorem crossfadeGraph_wellScoped (n : Nat) (D : ℚ) (offs : List ℚ) (h : 2 ≤ n) :
    (crossfadeGraph n D offs).wellScoped n = true := by
  have hV : ∀ E, nodesScoped n E
      ((List.range' 1 (n - 1)).map (fun i => xfadeNode n D i (offs.getD (i - 1) 0))) = true := by
    intro E
    apply nodesScoped_chain n _ n _ (n - 1) 1 E (by omega)
    · intro _
      simp [xfadeNode, chainLeft, labelDefined]
      omega
    · intro s E' hs hmem
      have hl := chainLeft_defined n StreamKind.v "v" "vout" n s E' _ hmem rfl (by omega)
      simp only [xfadeNode, List.all_cons, List.all_nil, Bool.and_true, Bool.and_eq_true]
      exact ⟨hl, by simp [labelDefined]; omega⟩
  have hA : ∀ E, nodesScoped n E
      ((List.range' 1 (n - 1)).map (fun i => acrossfadeNode n D i)) = true := by
    intro E
    apply nodesScoped_chain n _ n _ (n - 1) 1 E (by omega)
    · intro _
      simp [acrossfadeNode, chainLeft, labelDefined]
      omega
    · intro s E' hs hmem
      have hl := chainLeft_defined n StreamKind.a "a" "aout" n s E' _ hmem rfl (by omega)
      simp only [acrossfadeNode, List.all_cons, List.all_nil, Bool.and_true, Bool.and_eq_true]
      exact ⟨hl, by simp [labelDefined]; omega⟩
  have hmemV : xfadeNode n D (n - 1) (offs.getD (n - 1 - 1) 0)
      ∈ (crossfadeGraph n D offs).nodes := by
    unfold crossfadeGraph
    simp only [List.mem_append, List.mem_map, List.mem_range']
    left
    exact ⟨n - 1, ⟨n - 2, by omega, by omega⟩, rfl⟩
  have hmemA : acrossfadeNode n D (n - 1) ∈ (crossfadeGraph n D offs).nodes := by
    unfold crossfadeGraph
    simp only [List.mem_append, List.mem_map, List.mem_range']
    right
    exact ⟨n - 1, ⟨n - 2, by omega, by omega⟩, rfl⟩
  unfold FilterGraphSpec.wellScoped
  rw [Bool.and_eq_true]
  constructor
  · show nodesScoped n [] (_ ++ _) = true
    rw [nodesScoped_append, hV, hA]
    rfl
  · show List.all [Label.named "vout", Label.named "aout"] _ = true
    simp only [List.all_cons, List.all_nil, Bool.and_true, Bool.and_eq_true]
    exact ⟨labelDefined_named n _ "vout" _ hmemV (by simp [xfadeNode, chainLabel]),
      labelDefined_named n _ "aout" _ hmemA (by simp [acrossfadeNode, chainLabel])⟩

theorem fadeNodes_scoped (clips : Nat) (kind : StreamKind) (name base : String)
    (videos : List Video) (D : ℚ) (E : List Node) (h : videos.length ≤ clips) :
    nodesScoped clips E ((List.range videos.length).map
      (fun i => fadeNode kind name base videos.length i (secondsAt videos i) D)) = true := by
  rw [List.range_eq_range']
  apply nodesScoped_chain clips _ videos.length _ videos.length 0 E (by omega)
  · intro hk
    simp [fadeNode, labelDefined]
    omega
  · intro s E' hs _
    simp [fadeNode, labelDefined]
    omega

theorem fadeGraph_wellScoped (videos : List Video) (D : ℚ) :
    (fadeGraph videos D).wellScoped videos.length = true := by
  have hc : concatNode videos.length ∈ (fadeGraph videos D).nodes := by
    simp [fadeGraph]
  unfold FilterGraphSpec.wellScoped
  rw [Bool.and_eq_true]
  constructor
  · show nodesScoped videos.length [] (_ ++ _ ++ [concatNode videos.length]) = true
    rw [nodesScoped_append, nodesScoped_append, fadeNodes_scoped _ _ _ _ _ _ _ (le_refl _),
      fadeNodes_scoped _ _ _ _ _ _ _ (le_refl _)]
    simp only [Bool.and_self, Bool.true_and, nodesScoped, Bool.and_true, List.nil_append]
    rw [List.all_eq_true]
    intro l hl
    simp only [concatNode, List.mem_flatten, List.mem_map, List.mem_range] at hl
    obtain ⟨pair, ⟨i, hi, rfl⟩, hl⟩ := hl
    simp only [List.mem_cons, List.mem_singleton, List.not_mem_nil, or_false] at hl
    rcases hl with rfl | rfl
    · apply labelDefined_named _ _ _
        (fadeNode StreamKind.v "fade" "v" videos.length i (secondsAt videos i) D)
      · simp only [List.mem_append, List.mem_map, List.mem_range]
        left
        exact ⟨i, hi, rfl⟩
      · simp [fadeNode]
    · apply labelDefined_named _ _ _
        (fadeNode StreamKind.a "afade" "a" videos.length i (secondsAt videos i) D)
      · simp only [List.mem_append, List.mem_map, List.mem_range]
        right
        exact ⟨i, hi, rfl⟩
      · simp [fadeNode]
  · show List.all [Label.named "vout", Label.named "aout"] _ = true
    simp only [List.all_cons, List.all_nil, Bool.and_true, Bool.and_eq_true]
    exact ⟨labelDefined_named _ _ "vout" _ hc (by simp [concatNode]),
      labelDefined_named _ _ "aout" _ hc (by simp [concatNode])⟩

theorem replaceAllChars_quote (s : List Char) :
    replaceAllChars [Char.ofNat 39] [Char.ofNat 39, Char.ofNat 92, Char.ofNat 39, Char.ofNat 39] s 0
      = (s.map (fun c =>
          if c = Char.ofNat 39 then [Char.ofNat 39, Char.ofNat 92, Char.ofNat 39, Char.ofNat 39]
          else [c])).flatten := by
  induction s with
  | nil => rfl
  | cons c cs ih =>
    by_cases hc : c = Char.ofNat 39
    · subst hc
      simp [replaceAllChars, ih]
    · have hc' : ¬ (Char.ofNat 39 = c) := fun h => hc h.symm
      simp [replaceAllChars, ih, hc, hc']

theorem stringsReplaceAll_quote (p : String) :
    stringsReplaceAll p "\x27" "\x27\\\x27\x27" = escapeQuotes p := by
  unfold stringsReplaceAll escapeQuotes
  have h1 : ("\x27" : String).data = [Char.ofNat 39] := by decide
  have h2 : ("\x27\\\x27\x27" : String).data
      = [Char.ofNat 39, Char.ofNat 92, Char.ofNat 39, Char.ofNat 39] := by decide
  rw [h1, h2, replaceAllChars_quote]

theorem linesAux_line (l : List Char) (hl : Char.ofNat 10 ∉ l) :
    ∀ (cur rest : List Char),
      linesAux (l ++ Char.ofNat 10 :: rest) cur = ⟨cur ++ l⟩ :: linesAux rest [] := by
  induction l with
  | nil => intro cur rest; simp [linesAux]
  | cons c cs ih =>
    intro cur rest
    have hc : c ≠ Char.ofNat 10 := fun h => hl (by simp [h])
    have hcs : Char.ofNat 10 ∉ cs := fun h => hl (by simp [h])
    simp [linesAux, hc, ih hcs]

theorem linesAux_flatten (ls : List String) (h : ∀ l ∈ ls, Char.ofNat 10 ∉ l.data) :
    linesAux ((ls.map (fun l => l.data ++ [Char.ofNat 10])).flatten) [] = ls := by
  induction ls with
  | nil => rfl
  | cons l t ih =>
    have hl : Char.ofNat 10 ∉ l.data := h l (by simp)
    have ht := ih (fun x hx => h x (by simp [hx]))
    simp only [List.map_cons, List.flatten_cons, List.append_assoc, List.singleton_append]
    rw [linesAux_line l.data hl, ht]
    simp

theorem textLines_join (ls : List String) (h : ∀ l ∈ ls, Char.ofNat 10 ∉ l.data) :
    textLines (String.join (ls.map (fun l => l ++ "\n"))) = ls := by
  unfold textLines
  have hnl : ("\n" : String).data = [Char.ofNat 10] := by decide
  rw [String.join_eq]
  simp only [List.map_map, Function.comp_def, String.data_append, hnl]
  exact linesAux_flatten ls h

theorem escapeQuotes_no_newline (p : String) (h : Char.ofNat 10 ∉ p.data) :
    Char.ofNat 10 ∉ (escapeQuotes p).data := by
  unfold escapeQuotes
  simp only [List.mem_flatten, List.mem_map, not_exists, not_and]
  intro l hl
  obtain ⟨c, hc, rfl⟩ := hl
  intro hmem
  by_cases hq : c = Char.ofNat 39
  · simp only [hq, if_true] at hmem
    revert hmem
    decide
  · simp only [hq, if_false, List.mem_singleton] at hmem
    exact h (hmem ▸ hc)

theorem written_writes (file : String) (texts : List String) (rest : List Effect) :
    written file (texts.map (fun t => Effect.write file t) ++ rest)
      = String.join texts ++ written file rest := by
  induction texts with
  | nil => simp [String.join]
  | cons t ts ih =>
    have hj : String.join (t :: ts) = t ++ String.join ts := by
      rw [String.join_eq, String.join_eq]
      apply string_eq_of_data
      simp [String.data_append]
    show (if file = file then t ++ written file (ts.map (fun t => Effect.write file t) ++ rest)
      else written file (ts.map (fun t => Effect.write file t) ++ rest)) = _
    rw [if_pos rfl, ih, hj, String.append_assoc]

theorem written_runEngine (file : String) (env : Env) (args : List String) (rest : List Effect)
    (h : written file rest = "") : written file (runEngine env args ++ rest) = "" := by
  unfold runEngine
  generalize env.CombinedOutput args = r
  obtain ⟨o, e⟩ := r
  cases e <;> simp [written, h]

theorem exportSimple_written (env : Env) (videos : List Video) (outputPath tmpName : String)
    (hT : env.CreateTemp = Except.ok tmpName) :
    written tmpName (exportSimple env videos outputPath)
      = String.join (videos.map
          (fun v => "file \x27" ++ escapeQuotes v.Path ++ "\x27" ++ "\n")) := by
  have hentry : ∀ v : Video,
      "file \x27" ++ stringsReplaceAll v.Path "\x27" "\x27\\\x27\x27" ++ "\x27\n"
        = "file \x27" ++ escapeQuotes v.Path ++ "\x27" ++ "\n" := by
    intro v
    rw [stringsReplaceAll_quote]
    apply string_eq_of_data
    simp [String.data_append]
  have hmap : videos.map (fun video =>
        Effect.write tmpName
          ("file \x27" ++ stringsReplaceAll video.Path "\x27" "\x27\\\x27\x27" ++ "\x27\n"))
      = (videos.map (fun v => "file \x27" ++ escapeQuotes v.Path ++ "\x27" ++ "\n")).map
          (fun t => Effect.write tmpName t) := by
    simp [List.map_map, Function.comp_def, hentry]
  unfold exportSimple
  simp only [hT]
  show written tmpName (_ ++ _ ++ _ ++ _) = _
  rw [hmap, List.append_assoc, List.append_assoc, written_writes]
  have hrest : written tmpName
      ([Effect.closeFile tmpName, Effect.send { Status := "Combining videos..." }]
        ++ (runEngine env (exportSimple_args tmpName outputPath) ++ [Effect.remove tmpName]))
      = "" := by
    show written tmpName (runEngine env _ ++ [Effect.remove tmpName]) = ""
    exact written_runEngine _ _ _ _ rfl
  rw [hrest]
  simp

theorem events_append (a b : List Effect) : events (a ++ b) = events a ++ events b := by
  induction a with
  | nil => rfl
  | cons e t ih => cases e <;> simp [events, ih]

theorem events_runEngine (env : Env) (args : List String) :
    ∃ t, events (runEngine env args) = [t] ∧ (t.isFailed || t.isCompleted) = true
      ∧ t.isStatus = false := by
  unfold runEngine
  generalize env.CombinedOutput args = r
  obtain ⟨o, e⟩ := r
  cases e with
  | none => exact ⟨_, rfl, rfl, rfl⟩
  | some err => exact ⟨_, rfl, rfl, rfl⟩

theorem buildCrossfadeFilter_total (videos : List Video) (D : ℚ) :
    ∃ f, buildCrossfadeFilter videos D = some f := by
  by_cases h : videos.length < 2
  · exact ⟨_, buildCrossfadeFilter_short videos D h⟩
  · obtain ⟨offs, -, -, hb⟩ := buildCrossfadeFilter_eq videos D (by omega)
    exact ⟨_, hb⟩

theorem buildFadeFilter_total (videos : List Video) (D : ℚ) :
    ∃ f, buildFadeFilter videos D = some f := by
  by_cases h : videos.length < 1
  · have : videos = [] := List.length_eq_zero.mp (by omega)
    subst this
    exact ⟨_, buildFadeFilter_empty D⟩
  · exact ⟨_, buildFadeFilter_eq videos D (by omega)⟩

theorem exportWithTransitions_total (env : Env) (videos : List Video) (outputPath : String)
    (options : ExportOptions) :
    ∃ f, exportWithTransitions env videos outputPath options
      = transitionRun env videos outputPath f := by
  by_cases hc : options.Transition = TransitionCrossfade
  · obtain ⟨f, hf⟩ := buildCrossfadeFilter_total videos (transitionDuration options)
    exact ⟨f, exportWithTransitions_eq env videos outputPath options f (by simp [hc, hf])⟩
  · by_cases hd : options.Transition = TransitionFade
    · obtain ⟨f, hf⟩ := buildFadeFilter_total videos (transitionDuration options)
      exact ⟨f, exportWithTransitions_eq env videos outputPath options f
        (by simp only [hc, hd, if_false, if_true]; exact hf)⟩
    · exact ⟨[], exportWithTransitions_eq env videos outputPath options [] (by simp [hc, hd])⟩

theorem events_writes (file : String) (f : Video → String) (videos : List Video) :
    events (videos.map (fun v => Effect.write file (f v))) = [] := by
  induction videos with
  | nil => rfl
  | cons v t ih => simpa [events] using ih

theorem runEngine_no_panic (env : Env) (args : List String) :
    Effect.panicked ∉ runEngine env args := by
  unfold runEngine
  generalize env.CombinedOutput args = r
  obtain ⟨o, e⟩ := r
  cases e <;> simp

theorem exportSimple_events (env : Env) (videos : List Video) (outputPath : String) :
    ∃ statuses t, events (exportSimple env videos outputPath) = statuses ++ [t]
      ∧ (∀ s ∈ statuses, s.isStatus = true)
      ∧ (t.isFailed || t.isCompleted) = true ∧ t.isStatus = false
      ∧ Effect.panicked ∉ exportSimple env videos outputPath := by
  unfold exportSimple
  cases hT : env.CreateTemp with
  | error err =>
    refine ⟨[], _, rfl, by simp, rfl, rfl, by simp⟩
  | ok tmpName =>
    obtain ⟨t, ht, hterm, hns⟩ := events_runEngine env (exportSimple_args tmpName outputPath)
    have hp := runEngine_no_panic env (exportSimple_args tmpName outputPath)
    dsimp only
    generalize runEngine env (exportSimple_args tmpName outputPath) = r at ht hp ⊢
    refine ⟨[{ Status := "Combining videos..." }], t, ?_, ?_, hterm, hns, ?_⟩
    · simp only [events, events_append, events_writes, ht]
      rfl
    · intro s hs
      rw [List.mem_singleton] at hs
      subst hs
      rfl
    · simp [hp]

theorem transitionRun_events (env : Env) (videos : List Video) (outputPath : String)
    (f : List String) :
    ∃ statuses t, events (transitionRun env videos outputPath f) = statuses ++ [t]
      ∧ (∀ s ∈ statuses, s.isStatus = true)
      ∧ (t.isFailed || t.isCompleted) = true ∧ t.isStatus = false
      ∧ Effect.panicked ∉ transitionRun env videos outputPath f := by
  unfold transitionRun
  obtain ⟨t, ht, hterm, hns⟩ := events_runEngine env
    (inputArgs videos ++ f ++ fastStartArgs outputPath ++ ["-y", outputPath])
  have hp := runEngine_no_panic env
    (inputArgs videos ++ f ++ fastStartArgs outputPath ++ ["-y", outputPath])
  generalize runEngine env
    (inputArgs videos ++ f ++ fastStartArgs outputPath ++ ["-y", outputPath]) = r at ht hp ⊢
  refine ⟨[{ Status := "Building transition filters..." },
    { Status := "Rendering with transitions..." }], t, ?_, ?_, hterm, hns, ?_⟩
  · simp only [events_append, ht]
    rfl
  · intro s hs
    simp only [List.mem_cons, List.mem_singleton, List.not_mem_nil, or_false] at hs
    rcases hs with rfl | rfl <;> rfl
  · simp [hp]

theorem plainStr_append (a b : String) : plainStr (a ++ b) = (plainStr a && plainStr b) := by
  simp [plainStr, String.data_append, List.all_append]

theorem plainStr_iff (s : String) : plainStr s = true ↔ ∀ c ∈ s.data, plainChar c = true := by
  simp [plainStr, List.all_eq_true]

theorem digitChar_plain : ∀ d, d < 10 → plainChar (Nat.digitChar d) = true := by decide

theorem toDigitsCore_plain :
    ∀ fuel n ds, (∀ c ∈ ds, plainChar c = true) →
      ∀ c ∈ Nat.toDigitsCore 10 fuel n ds, plainChar c = true := by
  intro fuel
  induction fuel with
  | zero => intro n ds h c hc; exact h c (by simpa [Nat.toDigitsCore] using hc)
  | succ fuel ih =>
    intro n ds h c hc
    have hd : plainChar (Nat.digitChar (n % 10)) = true :=
      digitChar_plain _ (Nat.mod_lt _ (by decide))
    have hds : ∀ x ∈ Nat.digitChar (n % 10) :: ds, plainChar x = true := by
      intro x hx
      rcases List.mem_cons.mp hx with rfl | hx
      · exact hd
      · exact h x hx
    simp only [Nat.toDigitsCore] at hc
    split at hc
    · exact hds c hc
    · exact ih _ _ hds c hc

theorem repr_plain (n : Nat) : plainStr (Nat.repr n) = true := by
  rw [plainStr_iff]
  intro c hc
  have : (Nat.repr n).data = Nat.toDigits 10 n := by
    simp [Nat.repr, List.asString]
  rw [this] at hc
  exact toDigitsCore_plain _ _ [] (by simp) c hc

theorem fmtD_plain (n : Nat) : plainStr (fmtD n) = true := repr_plain n

theorem pad2_plain (k : Nat) : plainStr (pad2 k) = true := by
  unfold pad2
  split
  · rw [plainStr_append, repr_plain]; rfl
  · exact repr_plain k

theorem fmt2_plain (q : ℚ) : plainStr (fmt2 q) = true := by
  unfold fmt2
  simp only [plainStr_append, repr_plain, pad2_plain, Bool.and_true]
  split <;> rfl

theorem splitAtChar_piece (sep : Char) (l : List Char) (hl : sep ∉ l) :
    ∀ (cur rest : List Char),
      splitAtChar sep (l ++ sep :: rest) cur = (cur ++ l) :: splitAtChar sep rest [] := by
  induction l with
  | nil => intro cur rest; simp [splitAtChar]
  | cons c cs ih =>
    intro cur rest
    have hc : c ≠ sep := fun h => hl (by simp [h])
    have hcs : sep ∉ cs := fun h => hl (by simp [h])
    simp [splitAtChar, hc, ih hcs]

theorem splitAtChar_last (sep : Char) (l : List Char) (hl : sep ∉ l) :
    ∀ (cur : List Char), splitAtChar sep l cur = [cur ++ l] := by
  induction l with
  | nil => intro cur; simp [splitAtChar]
  | cons c cs ih =>
    intro cur
    have hc : c ≠ sep := fun h => hl (by simp [h])
    have hcs : sep ∉ cs := fun h => hl (by simp [h])
    simp [splitAtChar, hc, ih hcs]

theorem splitAtChar_join (ss : List String) (hne : ss ≠ [])
    (h : ∀ s ∈ ss, Char.ofNat 59 ∉ s.data) :
    splitAtChar (Char.ofNat 59) (stringsJoin ss ";").data [] = ss.map String.data := by
  induction ss with
  | nil => exact absurd rfl hne
  | cons a t ih =>
    have ha : Char.ofNat 59 ∉ a.data := h a (by simp)
    cases t with
    | nil => simp [stringsJoin, splitAtChar_last _ _ ha]
    | cons b r =>
      have hsep : (";" : String).data = [Char.ofNat 59] := by decide
      have := ih (by simp) (fun s hs => h s (by simp [hs]))
      simp only [stringsJoin, String.data_append, hsep, List.append_assoc, List.singleton_append,
        List.map_cons] at this ⊢
      rw [splitAtChar_piece _ _ ha, this]
      simp

theorem takeUntil_stop (stop : Char) (l : List Char) (hl : stop ∉ l) (rest : List Char) :
    takeUntil stop (l ++ stop :: rest) = (l, stop :: rest) := by
  induction l with
  | nil => simp [takeUntil]
  | cons c cs ih =>
    have hc : c ≠ stop := fun h => hl (by simp [h])
    have hcs : stop ∉ cs := fun h => hl (by simp [h])
    simp [takeUntil, hc, ih hcs]

theorem takeUntil_all (stop : Char) (l : List Char) (hl : stop ∉ l) :
    takeUntil stop l = (l, []) := by
  induction l with
  | nil => simp [takeUntil]
  | cons c cs ih =>
    have hc : c ≠ stop := fun h => hl (by simp [h])
    have hcs : stop ∉ cs := fun h => hl (by simp [h])
    simp [takeUntil, hc, ih hcs]

theorem readLabels_labels :
    ∀ (contents : List (List Char)) (fuel : Nat) (rest : List Char),
      contents.length ≤ fuel → (∀ c ∈ contents, Char.ofNat 93 ∉ c) →
      (∀ x r, rest = x :: r → x ≠ Char.ofNat 91) →
      readLabels fuel
          ((contents.map (fun c => Char.ofNat 91 :: c ++ [Char.ofNat 93])).flatten ++ rest)
        = (contents.map (fun c => (⟨Char.ofNat 91 :: c ++ [Char.ofNat 93]⟩ : String)), rest) := by
  intro contents
  induction contents with
  | nil =>
    intro fuel rest _ _ hrest
    cases fuel with
    | zero => simp [readLabels]
    | succ f =>
      cases rest with
      | nil => simp [readLabels]
      | cons x r =>
        have := hrest x r rfl
        simp [readLabels, this]
  | cons c t ih =>
    intro fuel rest hfuel hc hrest
    cases fuel with
    | zero => simp at hfuel
    | succ f =>
      have hc0 : Char.ofNat 93 ∉ c := hc c (by simp)
      have hrec := ih f rest (by simpa using hfuel) (fun x hx => hc x (by simp [hx])) hrest
      have e : ((c :: t).map (fun c => Char.ofNat 91 :: c ++ [Char.ofNat 93])).flatten ++ rest
          = Char.ofNat 91 :: (c ++ Char.ofNat 93 ::
              ((t.map (fun c => Char.ofNat 91 :: c ++ [Char.ofNat 93])).flatten ++ rest)) := by
        simp
      rw [e, readLabels, if_pos rfl, takeUntil_stop _ c hc0]
      simp only [hrec, List.map_cons]

theorem label_render_data (l : Label) :
    l.render.data = Char.ofNat 91 :: l.content.data ++ [Char.ofNat 93] := by
  cases l with
  | stream k kind => simp [Label.render, Label.content, String.data_append]
  | named s => simp [Label.render, Label.content, String.data_append]

theorem label_render_eq (l : Label) :
    l.render = (⟨Char.ofNat 91 :: l.content.data ++ [Char.ofNat 93]⟩ : String) :=
  string_eq_of_data (label_render_data l)

theorem labels_text (ls : List Label) :
    (String.join (ls.map Label.render)).data
      = ((ls.map (fun l => l.content.data)).map
          (fun c => Char.ofNat 91 :: c ++ [Char.ofNat 93])).flatten := by
  rw [String.join_eq]
  simp [List.map_map, Function.comp_def, label_render_data]

theorem labels_raw (ls : List Label) :
    (ls.map (fun l => l.content.data)).map
        (fun c => (⟨Char.ofNat 91 :: c ++ [Char.ofNat 93]⟩ : String))
      = ls.map Label.render := by
  simp [List.map_map, Function.comp_def, label_render_eq]

theorem plain_not_mem (s : String) (h : plainStr s = true) :
    Char.ofNat 91 ∉ s.data ∧ Char.ofNat 93 ∉ s.data ∧ Char.ofNat 59 ∉ s.data := by
  rw [plainStr_iff] at h
  refine ⟨fun hm => ?_, fun hm => ?_, fun hm => ?_⟩
  · exact absurd (h _ hm) (by decide)
  · exact absurd (h _ hm) (by decide)
  · exact absurd (h _ hm) (by decide)

theorem wrapped_length (cs : List (List Char)) :
    cs.length ≤ ((cs.map (fun c => Char.ofNat 91 :: c ++ [Char.ofNat 93])).flatten).length := by
  induction cs with
  | nil => simp
  | cons c t ih => simp only [List.map_cons, List.flatten_cons, List.length_append,
      List.length_cons]; omega

theorem wrapped_head (cs : List (List Char)) :
    (cs.map (fun c => Char.ofNat 91 :: c ++ [Char.ofNat 93])).flatten = []
    ∨ ∃ r, (cs.map (fun c => Char.ofNat 91 :: c ++ [Char.ofNat 93])).flatten
        = Char.ofNat 91 :: r := by
  cases cs with
  | nil => left; rfl
  | cons c t =>
    right
    exact ⟨c ++ Char.ofNat 93
      :: (t.map (fun c => Char.ofNat 91 :: c ++ [Char.ofNat 93])).flatten, by simp⟩

theorem readNode_render (n : Node) (h : n.clean = true) : readNode n.render.data = n.raw := by
  simp only [Node.clean, Bool.and_eq_true, List.all_eq_true, List.mem_append,
    Bool.not_eq_true', List.isEmpty_eq_false] at h
  obtain ⟨⟨hlab, hbody⟩, hne⟩ := h
  obtain ⟨hb1, -, -⟩ := plain_not_mem _ hbody
  have hin : ∀ c ∈ n.inputs.map (fun l => l.content.data), Char.ofNat 93 ∉ c := by
    intro c hc
    obtain ⟨l, hl, rfl⟩ := List.mem_map.mp hc
    exact (plain_not_mem _ (hlab l (Or.inl hl))).2.1
  have hout : ∀ c ∈ n.outputs.map (fun l => l.content.data), Char.ofNat 93 ∉ c := by
    intro c hc
    obtain ⟨l, hl, rfl⟩ := List.mem_map.mp hc
    exact (plain_not_mem _ (hlab l (Or.inr hl))).2.1
  have hdata : n.render.data
      = ((n.inputs.map (fun l => l.content.data)).map
            (fun c => Char.ofNat 91 :: c ++ [Char.ofNat 93])).flatten
          ++ (n.raw.body.data
            ++ ((n.outputs.map (fun l => l.content.data)).map
              (fun c => Char.ofNat 91 :: c ++ [Char.ofNat 93])).flatten) := by
    simp only [Node.render, Node.raw, String.data_append, labels_text, List.append_assoc]
  have hrest : ∀ x r, n.raw.body.data
        ++ ((n.outputs.map (fun l => l.content.data)).map
              (fun c => Char.ofNat 91 :: c ++ [Char.ofNat 93])).flatten = x :: r
      → x ≠ Char.ofNat 91 := by
    intro x r hx
    cases hbd : n.raw.body.data with
    | nil => exact absurd hbd hne
    | cons b bs =>
      rw [hbd] at hx hb1
      simp only [List.cons_append, List.cons.injEq] at hx
      rw [← hx.1]
      intro hb
      exact hb1 (by simp [hb])
  have hfront := readLabels_labels (n.inputs.map (fun l => l.content.data)) n.render.data.length
    _ (by rw [hdata, List.length_append]; have := wrapped_length
            (n.inputs.map (fun l => l.content.data)); omega) hin hrest
  have hmid : takeUntil (Char.ofNat 91) (n.raw.body.data
        ++ ((n.outputs.map (fun l => l.content.data)).map
              (fun c => Char.ofNat 91 :: c ++ [Char.ofNat 93])).flatten)
      = (n.raw.body.data, ((n.outputs.map (fun l => l.content.data)).map
              (fun c => Char.ofNat 91 :: c ++ [Char.ofNat 93])).flatten) := by
    rcases wrapped_head (n.outputs.map (fun l => l.content.data)) with he | ⟨r, he⟩
    · rw [he, List.append_nil, takeUntil_all _ _ hb1]
    · rw [he, takeUntil_stop _ _ hb1]
  have hback := readLabels_labels (n.outputs.map (fun l => l.content.data))
    (((n.outputs.map (fun l => l.content.data)).map
              (fun c => Char.ofNat 91 :: c ++ [Char.ofNat 93])).flatten).length
    [] (wrapped_length _) hout (by intro x r hx; cases hx)
  rw [List.append_nil] at hback
  unfold readNode
  simp only []
  rw [← hdata] at hfront
  rw [hfront]
  simp only [hmid, hback, labels_raw]
  rfl

theorem render_no_semicolon (n : Node) (h : n.clean = true) :
    Char.ofNat 59 ∉ n.render.data := by
  simp only [Node.clean, Bool.and_eq_true, List.all_eq_true, List.mem_append,
    Bool.not_eq_true', List.isEmpty_eq_false] at h
  obtain ⟨⟨hlab, hbody⟩, -⟩ := h
  have hl : ∀ ls : List Label, (∀ l ∈ ls, plainStr l.content = true) →
      Char.ofNat 59 ∉ (String.join (ls.map Label.render)).data := by
    intro ls hls
    rw [labels_text]
    simp only [List.mem_flatten, List.mem_map, not_exists, not_and]
    rintro x ⟨c, ⟨l, hl, rfl⟩, rfl⟩ hx
    have := (plain_not_mem _ (hls l hl)).2.2
    rw [List.cons_append, List.mem_cons, List.mem_append, List.mem_singleton] at hx
    rcases hx with hx | hx | hx
    · exact absurd hx (by decide)
    · exact this hx
    · exact absurd hx (by decide)
  simp only [Node.render, String.data_append, List.mem_append, not_or]
  exact ⟨⟨hl _ (fun l h => hlab l (Or.inl h)), (plain_not_mem _ hbody).2.2⟩,
    hl _ (fun l h => hlab l (Or.inr h))⟩

theorem parseGraph_render (nodes : List Node) (hne : nodes ≠ [])
    (h : ∀ n ∈ nodes, n.clean = true) :
    parseGraph (stringsJoin (nodes.map Node.render) ";") = nodes.map Node.raw := by
  unfold parseGraph
  rw [splitAtChar_join _ (by simpa using hne)
    (by
      intro s hs
      obtain ⟨n, hn, rfl⟩ := List.mem_map.mp hs
      exact render_no_semicolon n (h n hn))]
  simp only [List.map_map]
  apply List.map_congr_left
  intro n hn
  exact readNode_render n (h n hn)

theorem chainLabel_plain (base out : String) (n i : Nat) (hb : plainStr base = true)
    (ho : plainStr out = true) : plainStr (chainLabel base out n i).content = true := by
  unfold chainLabel
  split
  · exact ho
  · simp [Label.content, plainStr_append, hb, fmtD_plain]

theorem stream_plain (k : Nat) (kind : StreamKind) :
    plainStr (Label.stream k kind).content = true := by
  cases kind <;> simp [Label.content, plainStr_append, fmtD_plain, StreamKind.render] <;> decide

theorem chainLeft_plain (kind : StreamKind) (base out : String) (n i : Nat)
    (hb : plainStr base = true) (ho : plainStr out = true) :
    plainStr (chainLeft kind base out n i).content = true := by
  unfold chainLeft
  split
  · exact stream_plain 0 kind
  · exact chainLabel_plain base out n _ hb ho

theorem xfadeNode_clean (n : Nat) (D : ℚ) (i : Nat) (off : ℚ) :
    (xfadeNode n D i off).clean = true := by
  simp [Node.clean, xfadeNode, Node.raw, FilterSpec.render, stringsJoin, ParamValue.render,
    plainStr_append, fmt2_plain, stream_plain, String.data_append,
    chainLabel_plain "v" "vout" n i rfl rfl, chainLeft_plain StreamKind.v "v" "vout" n i rfl rfl]
  decide

theorem acrossfadeNode_clean (n : Nat) (D : ℚ) (i : Nat) :
    (acrossfadeNode n D i).clean = true := by
  simp [Node.clean, acrossfadeNode, Node.raw, FilterSpec.render, stringsJoin, ParamValue.render,
    plainStr_append, fmt2_plain, stream_plain, String.data_append,
    chainLabel_plain "a" "aout" n i rfl rfl, chainLeft_plain StreamKind.a "a" "aout" n i rfl rfl]
  decide

theorem fadeNode_clean_v (n i : Nat) (dur D : ℚ) :
    (fadeNode StreamKind.v "fade" "v" n i dur D).clean = true := by
  unfold fadeNode
  split_ifs <;>
  · simp [Node.clean, Node.raw, FilterSpec.render, stringsJoin, ParamValue.render, fadeIn,
      fadeOut, plainStr_append, fmt2_plain, fmtD_plain, stream_plain, String.data_append,
      Label.content]
    decide

theorem fadeNode_clean_a (n i : Nat) (dur D : ℚ) :
    (fadeNode StreamKind.a "afade" "a" n i dur D).clean = true := by
  unfold fadeNode
  split_ifs <;>
  · simp [Node.clean, Node.raw, FilterSpec.render, stringsJoin, ParamValue.render, fadeIn,
      fadeOut, plainStr_append, fmt2_plain, fmtD_plain, stream_plain, String.data_append,
      Label.content]
    decide

theorem concatNode_clean (n : Nat) : (concatNode n).clean = true := by
  simp only [Node.clean, Bool.and_eq_true, List.all_eq_true, List.mem_append,
    Bool.not_eq_true', List.isEmpty_eq_false]
  refine ⟨⟨?_, ?_⟩, ?_⟩
  · intro l hl
    rcases hl with hl | hl
    · simp only [concatNode, List.mem_flatten, List.mem_map, List.mem_range] at hl
      obtain ⟨pair, ⟨i, -, rfl⟩, hl⟩ := hl
      simp only [List.mem_cons, List.mem_singleton, List.not_mem_nil, or_false] at hl
      rcases hl with rfl | rfl
      · simp [Label.content, plainStr_append, fmtD_plain]; decide
      · simp [Label.content, plainStr_append, fmtD_plain]; decide
    · simp only [concatNode, List.mem_cons, List.mem_singleton, List.not_mem_nil, or_false] at hl
      rcases hl with rfl | rfl <;> decide
  · simp [concatNode, Node.raw, FilterSpec.render, stringsJoin, ParamValue.render,
      plainStr_append, fmtD_plain]
    decide
  · simp [concatNode, Node.raw, FilterSpec.render, stringsJoin, String.data_append]

theorem crossfadeGraph_parse (n : Nat) (D : ℚ) (offs : List ℚ) (h : 2 ≤ n) :
    parseGraph (stringsJoin ((crossfadeGraph n D offs).nodes.map Node.render) ";")
      = (crossfadeGraph n D offs).nodes.map Node.raw := by
  apply parseGraph_render
  · intro h0
    have := congrArg List.length h0
    rw [crossfadeGraph_length] at this
    simp at this
    omega
  · intro x hx
    simp only [crossfadeGraph, List.mem_append, List.mem_map] at hx
    rcases hx with ⟨i, -, rfl⟩ | ⟨i, -, rfl⟩
    · exact xfadeNode_clean _ _ _ _
    · exact acrossfadeNode_clean _ _ _

theorem fadeGraph_parse (videos : List Video) (D : ℚ) :
    parseGraph (stringsJoin ((fadeGraph videos D).nodes.map Node.render) ";")
      = (fadeGraph videos D).nodes.map Node.raw := by
  apply parseGraph_render
  · simp [fadeGraph]
  · intro x hx
    simp only [fadeGraph, List.mem_append, List.mem_map, List.mem_singleton] at hx
    rcases hx with (⟨i, -, rfl⟩ | ⟨i, -, rfl⟩) | rfl
    · exact fadeNode_clean_v _ _ _ _
    · exact fadeNode_clean_a _ _ _ _
    · exact concatNode_clean _

theorem crossfadeGraph_readsBack (n : Nat) (D : ℚ) (offs : List ℚ) (h : 2 ≤ n) :
    (crossfadeGraph n D offs).readsBack :=
  ⟨_, rfl, crossfadeGraph_parse n D offs h⟩

theorem fadeGraph_readsBack (videos : List Video) (D : ℚ) : (fadeGraph videos D).readsBack :=
  ⟨_, rfl, fadeGraph_parse videos D⟩

theorem parseGraph_sample :
    parseGraph "[0:v][1:v]xfade=transition=fade:duration=1.00:offset=4.00[vout];[0:a][1:a]acrossfade=d=1.00[aout]"
      = [⟨["[0:v]", "[1:v]"], "xfade=transition=fade:duration=1.00:offset=4.00", ["[vout]"]⟩,
         ⟨["[0:a]", "[1:a]"], "acrossfade=d=1.00", ["[aout]"]⟩] := by
  decide

theorem engineRuns_append (a b : List Effect) :
    engineRuns (a ++ b) = engineRuns a ++ engineRuns b := by
  induction a with
  | nil => rfl
  | cons e t ih => cases e <;> simp [engineRuns, ih]

theorem engineRuns_writes (file : String) (f : Video → String) (videos : List Video) :
    engineRuns (videos.map (fun v => Effect.write file (f v))) = [] := by
  induction videos with
  | nil => rfl
  | cons v t ih => simpa [engineRuns] using ih

theorem engineRuns_runEngine (env : Env) (args : List String) :
    engineRuns (runEngine env args) = [args] := by
  unfold runEngine
  generalize env.CombinedOutput args = r
  obtain ⟨o, e⟩ := r
  cases e <;> rfl

theorem events_runEngine_eq (env : Env) (args : List String) :
    events (runEngine env args)
      = [match (env.CombinedOutput args).2 with
         | some err =>
           { Error := some ("ffmpeg error: " ++ err ++ "\n" ++ (env.CombinedOutput args).1) }
         | none => { Status := "Export complete!", Done := true }] := by
  unfold runEngine
  generalize env.CombinedOutput args = r
  obtain ⟨o, e⟩ := r
  cases e <;> rfl

/-- The events and engine runs of the simple path once the temp file exists. -/
theorem exportSimple_ok (env : Env) (videos : List Video) (outputPath tmpName : String)
    (hT : env.CreateTemp = Except.ok tmpName) :
    events (exportSimple env videos outputPath)
        = { Status := "Combining videos..." }
            :: events (runEngine env (exportSimple_args tmpName outputPath))
    ∧ engineRuns (exportSimple env videos outputPath)
        = [exportSimple_args tmpName outputPath] := by
  unfold exportSimple
  simp only [hT]
  have hr := engineRuns_runEngine env (exportSimple_args tmpName outputPath)
  generalize runEngine env (exportSimple_args tmpName outputPath) = r at hr ⊢
  constructor
  · simp only [events, events_append, events_writes]
    simp
  · simp only [engineRuns, engineRuns_append, engineRuns_writes, hr]
    simp

/-- The events and engine runs of the simple path when the temp file cannot be created. -/
theorem exportSimple_error (env : Env) (videos : List Video) (outputPath err : String)
    (hT : env.CreateTemp = Except.error err) :
    events (exportSimple env videos outputPath)
        = [{ Error := some ("failed to create temp file: " ++ err) }]
    ∧ engineRuns (exportSimple env videos outputPath) = [] := by
  unfold exportSimple
  simp only [hT]
  exact ⟨rfl, rfl⟩

theorem transitionRun_ok (env : Env) (videos : List Video) (outputPath : String)
    (f : List String) :
    events (transitionRun env videos outputPath f)
        = { Status := "Building transition filters..." }
            :: { Status := "Rendering with transitions..." }
            :: events (runEngine env
                (inputArgs videos ++ f ++ fastStartArgs outputPath ++ ["-y", outputPath]))
    ∧ engineRuns (transitionRun env videos outputPath f)
        = [inputArgs videos ++ f ++ fastStartArgs outputPath ++ ["-y", outputPath]] := by
  unfold transitionRun
  have hr := engineRuns_runEngine env
    (inputArgs videos ++ f ++ fastStartArgs outputPath ++ ["-y", outputPath])
  generalize runEngine env
    (inputArgs videos ++ f ++ fastStartArgs outputPath ++ ["-y", outputPath]) = r at hr ⊢
  constructor
  · simp [events_append, events]
  · simp [engineRuns_append, engineRuns, hr]

/-- The three shapes of a run of `ExportVideos`. -/
theorem ExportVideos_shape (env : Env) (videos : List Video) (outputPath : String)
    (options : ExportOptions) :
    (videos = [] ∧ ExportVideos env videos outputPath options
        = [Effect.send { Error := some "no videos to export" }, Effect.closeChan])
    ∨ (videos ≠ [] ∧ (options.Transition = TransitionNone ∨ videos.length = 1)
        ∧ ExportVideos env videos outputPath options
          = Effect.send { Status := "Preparing export..." }
              :: exportSimple env videos outputPath ++ [Effect.closeChan])
    ∨ (videos ≠ [] ∧ ¬ (options.Transition = TransitionNone ∨ videos.length = 1)
        ∧ ∃ f, ExportVideos env videos outputPath options
          = Effect.send { Status := "Preparing export..." }
              :: transitionRun env videos outputPath f ++ [Effect.closeChan]) := by
  by_cases h0 : videos = []
  · left
    subst h0
    exact ⟨rfl, rfl⟩
  · have hlen : videos.length ≠ 0 := fun h => h0 (List.length_eq_zero.mp h)
    by_cases hs : options.Transition = TransitionNone ∨ videos.length = 1
    · right; left
      refine ⟨h0, hs, ?_⟩
      simp [ExportVideos, hlen, hs]
    · right; right
      obtain ⟨f, hf⟩ := exportWithTransitions_total env videos outputPath options
      refine ⟨h0, hs, f, ?_⟩
      simp [ExportVideos, hlen, hs, hf]

theorem events_send (p : ExportProgress) (rest : List Effect) :
    events (Effect.send p :: rest) = p :: events rest := rfl

theorem engineRuns_send (p : ExportProgress) (rest : List Effect) :
    engineRuns (Effect.send p :: rest) = engineRuns rest := rfl

/-- The events and engine runs of a run that reaches the engine with arguments `args`
after the status events `pre`. -/
theorem run_with_engine (env : Env) (pre : List ExportProgress) (args : List String)
    (es : List ExportProgress) (hes : es = pre ++ events (runEngine env args)) :
    ∃ t, es.getLast? = some t
      ∧ (t.isFailed = true ↔ (env.CombinedOutput args).2.isSome = true)
      ∧ (∀ err, (env.CombinedOutput args).2 = some err →
          t.Error = some ("ffmpeg error: " ++ err ++ "\n" ++ (env.CombinedOutput args).1))
      ∧ ((env.CombinedOutput args).2 = none →
          t = { Status := "Export complete!", Done := true }) := by
  subst hes
  rw [events_runEngine_eq]
  generalize env.CombinedOutput args = r
  obtain ⟨o, e⟩ := r
  cases e with
  | none =>
    refine ⟨{ Status := "Export complete!", Done := true }, by simp, by simp [ExportProgress.isFailed], ?_, ?_⟩
    · intro err h; cases h
    · intro _; rfl
  | some e =>
    refine ⟨{ Error := some ("ffmpeg error: " ++ e ++ "\n" ++ o) }, by simp,
      by simp [ExportProgress.isFailed], ?_, ?_⟩
    · intro err h
      cases h
      rfl
    · intro h; cases h

theorem hasPair_cons (a b x : String) (l : List String) (h : (x == a) = false) :
    hasPair a b (x :: l) = hasPair a b l := by
  cases l with
  | nil => rfl
  | cons y r => simp [hasPair, h]

theorem hasPair_cons_next (a b x y : String) (l : List String) (h : (y == b) = false) :
    hasPair a b (x :: y :: l) = hasPair a b (y :: l) := by
  simp [hasPair, h]

theorem hasPair_inputArgs (videos : List Video) (rest : List String)
    (hrest : ∀ y r, rest = y :: r → (y == "+faststart") = false) :
    hasPair "-movflags" "+faststart" (inputArgs videos ++ rest)
      = hasPair "-movflags" "+faststart" rest := by
  induction videos with
  | nil => simp [inputArgs]
  | cons v t ih =>
    have e : inputArgs (v :: t) ++ rest = "-i" :: v.Path :: (inputArgs t ++ rest) := by
      simp [inputArgs]
    rw [e, hasPair_cons _ _ _ _ (by decide)]
    have hnext : ∀ y r, inputArgs t ++ rest = y :: r → (y == "+faststart") = false := by
      intro y r hy
      cases t with
      | nil => exact hrest y r (by simpa [inputArgs] using hy)
      | cons w t2 =>
        have : y = "-i" := by
          simp [inputArgs] at hy
          exact hy.1.symm
        subst this
        decide
    cases hl : inputArgs t ++ rest with
    | nil => rw [← ih, hl]; rfl
    | cons y r =>
      rw [hasPair_cons_next _ _ _ _ _ (hnext y r hl), ← hl, ih]

theorem exportSimple_args_flags (tmpName outputPath : String) :
    hasPair "-c" "copy" (exportSimple_args tmpName outputPath) = true
    ∧ hasPair "-movflags" "+faststart" (exportSimple_args tmpName outputPath)
        = isFastStartExt outputPath := by
  unfold exportSimple_args
  by_cases h : isFastStartExt outputPath = true
  · simp [h, hasPair]
  · simp only [Bool.not_eq_true] at h
    simp [h, hasPair]

theorem builder_args_shape (videos : List Video) (options : ExportOptions) (f : List String)
    (hf : (if options.Transition = TransitionCrossfade then
            buildCrossfadeFilter videos (transitionDuration options)
          else if options.Transition = TransitionFade then
            buildFadeFilter videos (transitionDuration options)
          else some []) = some f) :
    f = [] ∨ ∃ text, f = ["-filter_complex", text, "-map", "[vout]", "-map", "[aout]"] := by
  by_cases hc : options.Transition = TransitionCrossfade
  · simp only [hc, if_true] at hf
    by_cases hn : videos.length < 2
    · rw [buildCrossfadeFilter_short videos _ hn] at hf
      exact Or.inl (Option.some.inj hf).symm
    · obtain ⟨offs, -, -, hb⟩ := buildCrossfadeFilter_eq videos (transitionDuration options)
        (by omega)
      rw [hb] at hf
      exact Or.inr ⟨_, (Option.some.inj hf).symm⟩
  · by_cases hd : options.Transition = TransitionFade
    · simp only [hc, hd, if_false, if_true] at hf
      by_cases hn : videos.length < 1
      · have : videos = [] := List.length_eq_zero.mp (by omega)
        subst this
        rw [buildFadeFilter_empty] at hf
        exact Or.inl (Option.some.inj hf).symm
      · rw [buildFadeFilter_eq videos _ (by omega)] at hf
        exact Or.inr ⟨_, (Option.some.inj hf).symm⟩
    · simp only [hc, hd, if_false] at hf
      exact Or.inl (Option.some.inj hf).symm

theorem exportWithTransitions_args_flags (videos : List Video) (outputPath : String)
    (options : ExportOptions) :
    ∃ args, exportWithTransitions_args videos outputPath options = some args
      ∧ hasPair "-movflags" "+faststart" args = isFastStartExt outputPath := by
  obtain ⟨f, hf⟩ : ∃ f, (if options.Transition = TransitionCrossfade then
            buildCrossfadeFilter videos (transitionDuration options)
          else if options.Transition = TransitionFade then
            buildFadeFilter videos (transitionDuration options)
          else some []) = some f := by
    by_cases hc : options.Transition = TransitionCrossfade
    · simp only [hc, if_true]; exact buildCrossfadeFilter_total _ _
    · by_cases hd : options.Transition = TransitionFade
      · simp only [hc, hd, if_false, if_true]; exact buildFadeFilter_total _ _
      · simp only [hc, hd, if_false]; exact ⟨_, rfl⟩
  refine ⟨inputArgs videos ++ f ++ fastStartArgs outputPath ++ ["-y", outputPath], ?_, ?_⟩
  · rw [exportWithTransitions_args_eq, hf]
    rfl
  · rw [List.append_assoc, List.append_assoc]
    rcases builder_args_shape videos options f hf with rfl | ⟨text, rfl⟩
    · by_cases h : isFastStartExt outputPath = true
      · rw [hasPair_inputArgs _ _ (by
          intro y r hy
          simp [fastStartArgs, h] at hy
          rw [← hy.1]; decide)]
        simp [fastStartArgs, h, hasPair]
      · simp only [Bool.not_eq_true] at h
        rw [hasPair_inputArgs _ _ (by
          intro y r hy
          simp [fastStartArgs, h] at hy
          rw [← hy.1]; decide)]
        simp [fastStartArgs, h, hasPair]
    · rw [hasPair_inputArgs _ _ (by
        intro y r hy
        simp at hy
        rw [← hy.1]; decide)]
      by_cases h : isFastStartExt outputPath = true
      · simp [fastStartArgs, h, hasPair]
      · simp only [Bool.not_eq_true] at h
        simp [fastStartArgs, h, hasPair]

theorem isFastStartExt_iff (outputPath : String) :
    isFastStartExt outputPath = true
      ↔ stringsToLower (filepathExt outputPath) ∈ [".mp4", ".mov", ".m4v"] := by
  simp [isFastStartExt, or_assoc]

theorem exportWithTransitions_runs (env : Env) (videos : List Video) (outputPath : String)
    (options : ExportOptions) (args : List String)
    (h : exportWithTransitions_args videos outputPath options = some args) :
    engineRuns (exportWithTransitions env videos outputPath options) = [args] := by
  unfold exportWithTransitions
  rw [h]
  show engineRuns (Effect.send _ :: Effect.send _ :: runEngine env args) = _
  rw [engineRuns_send, engineRuns_send, engineRuns_runEngine]

theorem digitChar_isDigit : ∀ d, d < 10 → (Nat.digitChar d).isDigit = true := by decide

theorem toDigitsCore_isDigit :
    ∀ fuel n ds, (∀ c ∈ ds, Char.isDigit c = true) →
      ∀ c ∈ Nat.toDigitsCore 10 fuel n ds, Char.isDigit c = true := by
  intro fuel
  induction fuel with
  | zero => intro n ds h c hc; exact h c (by simpa [Nat.toDigitsCore] using hc)
  | succ fuel ih =>
    intro n ds h c hc
    have hds : ∀ x ∈ Nat.digitChar (n % 10) :: ds, Char.isDigit x = true := by
      intro x hx
      rcases List.mem_cons.mp hx with rfl | hx
      · exact digitChar_isDigit _ (Nat.mod_lt _ (by decide))
      · exact h x hx
    simp only [Nat.toDigitsCore] at hc
    split at hc
    · exact hds c hc
    · exact ih _ _ hds c hc

theorem toDigitsCore_ne_nil :
    ∀ fuel n ds, (0 < fuel ∨ ds ≠ []) → Nat.toDigitsCore 10 fuel n ds ≠ [] := by
  intro fuel
  induction fuel with
  | zero =>
    intro n ds h
    rcases h with h | h
    · omega
    · simpa [Nat.toDigitsCore] using h
  | succ fuel ih =>
    intro n ds _
    simp only [Nat.toDigitsCore]
    split
    · simp
    · exact ih _ _ (Or.inr (by simp))

theorem repr_data (n : Nat) : (Nat.repr n).data = Nat.toDigits 10 n := by
  simp [Nat.repr, List.asString]

theorem repr_isDigit (n : Nat) : ∀ c ∈ (Nat.repr n).data, Char.isDigit c = true := by
  intro c hc
  rw [repr_data] at hc
  exact toDigitsCore_isDigit _ _ [] (by simp) c hc

theorem repr_ne_nil (n : Nat) : (Nat.repr n).data ≠ [] := by
  rw [repr_data]
  exact toDigitsCore_ne_nil _ _ [] (Or.inl (by omega))

theorem pad2_two_digits : ∀ k, k < 100 →
    (match (pad2 k).data with
     | [a, b] => a.isDigit && b.isDigit
     | _ => false) = true := by
  decide

theorem pad2_shape (k : Nat) (h : k < 100) :
    ∃ a b, (pad2 k).data = [a, b] ∧ a.isDigit = true ∧ b.isDigit = true := by
  have := pad2_two_digits k h
  generalize (pad2 k).data = l at this
  match l, this with
  | [a, b], this =>
    rw [Bool.and_eq_true] at this
    exact ⟨a, b, rfl, this.1, this.2⟩

theorem isTwoDecimal_parts (R : List Char) (a b : Char) (hne : R ≠ [])
    (hR : ∀ c ∈ R, Char.isDigit c = true) (ha : a.isDigit = true) (hb : b.isDigit = true) :
    isTwoDecimal ⟨R ++ Char.ofNat 46 :: [a, b]⟩ = true
    ∧ isTwoDecimal ⟨Char.ofNat 45 :: (R ++ Char.ofNat 46 :: [a, b])⟩ = true := by
  have hdot : Char.ofNat 46 ∉ R := fun h => absurd (hR _ h) (by decide)
  have htake := takeUntil_stop (Char.ofNat 46) R hdot [a, b]
  have hall : R.all Char.isDigit = true := List.all_eq_true.mpr hR
  have hemp : R.isEmpty = false := by
    cases R with
    | nil => exact absurd rfl hne
    | cons c r => rfl
  constructor
  · cases R with
    | nil => exact absurd rfl hne
    | cons c r =>
      have hc : c ≠ Char.ofNat 45 := fun h => absurd (hR c (by simp)) (by rw [h]; decide)
      simp only [isTwoDecimal, List.cons_append, hc, if_false]
      rw [← List.cons_append, htake]
      simp [hall, ha, hb]
  · simp only [isTwoDecimal, if_true]
    rw [htake]
    simp [hall, hemp, ha, hb]

theorem fmt2_data (x : ℚ) :
    (fmt2 x).data = (if x < 0 then [Char.ofNat 45] else [])
      ++ ((Nat.repr (hundredths x / 100)).data
        ++ Char.ofNat 46 :: (pad2 (hundredths x % 100)).data) := by
  unfold fmt2 hundredths
  by_cases h : x < 0
  · simp only [h, if_true, String.data_append]
    simp
  · simp only [h, if_false, String.data_append]
    simp

theorem fmt2_isTwoDecimal (x : ℚ) : isTwoDecimal (fmt2 x) = true := by
  obtain ⟨a, b, hp, ha, hb⟩ := pad2_shape (hundredths x % 100) (Nat.mod_lt _ (by decide))
  have hparts := isTwoDecimal_parts (Nat.repr (hundredths x / 100)).data a b
    (repr_ne_nil _) (repr_isDigit _) ha hb
  have hd := fmt2_data x
  rw [hp] at hd
  by_cases h : x < 0
  · simp only [h, if_true, List.singleton_append] at hd
    have : fmt2 x = ⟨Char.ofNat 45
        :: ((Nat.repr (hundredths x / 100)).data ++ Char.ofNat 46 :: [a, b])⟩ :=
      string_eq_of_data hd
    rw [this]
    exact hparts.2
  · simp only [h, if_false, List.nil_append] at hd
    have : fmt2 x = ⟨(Nat.repr (hundredths x / 100)).data ++ Char.ofNat 46 :: [a, b]⟩ :=
      string_eq_of_data hd
    rw [this]
    exact hparts.1

theorem fadeIn_render (name : String) (D : ℚ) :
    (fadeIn name D).render = name ++ "=t=in:st=0:d=" ++ fmt2 D := by
  apply string_eq_of_data
  simp [fadeIn, FilterSpec.render, stringsJoin, ParamValue.render, String.data_append, fmtD,
    repr_zero_data]

theorem fadeOut_render (name : String) (start D : ℚ) :
    (fadeOut name start D).render = name ++ "=t=out:st=" ++ fmt2 start ++ ":d=" ++ fmt2 D := by
  apply string_eq_of_data
  simp [fadeOut, FilterSpec.render, stringsJoin, ParamValue.render, String.data_append]

theorem crossfadeGraph_filters (n : Nat) (D : ℚ) (offs : List ℚ) :
    ∀ node ∈ (crossfadeGraph n D offs).nodes, ∀ f ∈ node.chain,
      (∃ off, f.render = "xfade=transition=fade:duration=" ++ fmt2 D ++ ":offset=" ++ fmt2 off)
      ∨ f.render = "acrossfade=d=" ++ fmt2 D := by
  intro node hnode f hf
  simp only [crossfadeGraph, List.mem_append, List.mem_map] at hnode
  rcases hnode with ⟨i, -, rfl⟩ | ⟨i, -, rfl⟩
  · simp only [xfadeNode, List.mem_singleton] at hf
    subst hf
    left
    refine ⟨offs.getD (i - 1) 0, ?_⟩
    apply string_eq_of_data
    simp [FilterSpec.render, stringsJoin, ParamValue.render, String.data_append]
  · simp only [acrossfadeNode, List.mem_singleton] at hf
    subst hf
    right
    apply string_eq_of_data
    simp [FilterSpec.render, stringsJoin, ParamValue.render, String.data_append]

theorem fadeNode_filters (kind : StreamKind) (name base : String) (n i : Nat) (dur D : ℚ) :
    ∀ f ∈ (fadeNode kind name base n i dur D).chain,
      f = fadeIn name D ∨ f = fadeOut name (dur - D) D := by
  intro f hf
  unfold fadeNode at hf
  simp only at hf
  split_ifs at hf <;> simp at hf
  · exact Or.inr hf
  · exact Or.inl hf
  · rcases hf with hf | hf
    · exact Or.inl hf
    · exact Or.inr hf

theorem fadeGraph_filters (videos : List Video) (D : ℚ) :
    ∀ node ∈ (fadeGraph videos D).nodes, ∀ f ∈ node.chain,
      f.render = "concat=n=" ++ fmtD videos.length ++ ":v=1:a=1"
      ∨ (∃ name, f.render = name ++ "=t=in:st=0:d=" ++ fmt2 D)
      ∨ (∃ name start, f.render = name ++ "=t=out:st=" ++ fmt2 start ++ ":d=" ++ fmt2 D) := by
  intro node hnode f hf
  simp only [fadeGraph, List.mem_append, List.mem_map, List.mem_singleton] at hnode
  rcases hnode with (⟨i, -, rfl⟩ | ⟨i, -, rfl⟩) | rfl
  · rcases fadeNode_filters _ _ _ _ _ _ _ f hf with rfl | rfl
    · exact Or.inr (Or.inl ⟨_, fadeIn_render _ _⟩)
    · exact Or.inr (Or.inr ⟨_, _, fadeOut_render _ _ _⟩)
  · rcases fadeNode_filters _ _ _ _ _ _ _ f hf with rfl | rfl
    · exact Or.inr (Or.inl ⟨_, fadeIn_render _ _⟩)
    · exact Or.inr (Or.inr ⟨_, _, fadeOut_render _ _ _⟩)
  · simp only [concatNode, List.mem_singleton] at hf
    subst hf
    left
    apply string_eq_of_data
    simp [FilterSpec.render, stringsJoin, ParamValue.render, String.data_append, fmtD,
      repr_one_data]

theorem roundHalfEven_ge_floor (q : ℚ) : (Rat.floor q).toNat ≤ roundHalfEven q := by
  unfold roundHalfEven
  simp only
  split_ifs <;> omega

theorem hundredths_pos (x : ℚ) (h : 1 / 100 ≤ x) : 1 ≤ hundredths x := by
  have hx : (0 : ℚ) ≤ x := le_trans (by norm_num) h
  have h1 : (1 : ℚ) ≤ |x| * 100 := by
    rw [abs_of_nonneg hx]
    linarith
  have hfl : (1 : ℤ) ≤ Rat.floor (|x| * 100) := Rat.le_floor.mpr (by exact_mod_cast h1)
  have : 1 ≤ (Rat.floor (|x| * 100)).toNat := by omega
  exact le_trans this (roundHalfEven_ge_floor _)

theorem transitionDuration_pos (options : ExportOptions) : 0 < transitionDuration options := by
  unfold transitionDuration
  split_ifs with h
  · norm_num
  · exact lt_of_not_ge h

theorem secondsAt_gt (videos : List Video) (D : ℚ)
    (hd : ∀ v ∈ videos, D < v.Duration.Seconds) (k : Nat) (hk : k < videos.length) :
    D < secondsAt videos k := by
  have hget : videos[k]? = some videos[k] := List.getElem?_eq_getElem hk
  rw [secondsAt_eq videos k _ hget]
  exact hd _ (List.getElem_mem hk)

theorem cumulativeAt_step_lt (videos : List Video) (D : ℚ)
    (hd : ∀ v ∈ videos, D < v.Duration.Seconds) (k : Nat) (hk : k < videos.length) :
    cumulativeAt videos D k < cumulativeAt videos D (k + 1) := by
  have := secondsAt_gt videos D hd k hk
  simp only [cumulativeAt]
  linarith

theorem cumulativeAt_pos (videos : List Video) (D : ℚ)
    (hd : ∀ v ∈ videos, D < v.Duration.Seconds) :
    ∀ k, k < videos.length → 0 < cumulativeAt videos D (k + 1) := by
  intro k
  induction k with
  | zero =>
    intro hk
    have := cumulativeAt_step_lt videos D hd 0 hk
    simpa [cumulativeAt] using this
  | succ k ih =>
    intro hk
    exact lt_trans (ih (by omega)) (cumulativeAt_step_lt videos D hd (k + 1) hk)

theorem cumulativeAt_closed (videos : List Video) (D : ℚ) :
    ∀ k, k ≤ videos.length →
      cumulativeAt videos D k
        = ((videos.take k).map (fun v => v.Duration.Seconds)).sum - (k : ℚ) * D := by
  intro k
  induction k with
  | zero => intro _; simp [cumulativeAt]
  | succ k ih =>
    intro hk
    have hlt : k < videos.length := by omega
    have hget : videos[k]? = some videos[k] := List.getElem?_eq_getElem hlt
    rw [cumulativeAt, ih (by omega), secondsAt_eq videos k _ hget, List.take_succ, hget]
    simp only [Option.toList, List.map_append, List.map_cons, List.map_nil, List.sum_append,
      List.sum_cons, List.sum_nil, Nat.cast_add, Nat.cast_one]
    ring

theorem mem_events (p : ExportProgress) (l : List Effect) :
    Effect.send p ∈ l ↔ p ∈ events l := by
  induction l with
  | nil => simp [events]
  | cons e t ih =>
    cases e <;> simp [events, ih]

theorem building_not_in_exportSimple (env : Env) (videos : List Video) (outputPath : String) :
    Effect.send { Status := "Building transition filters..." }
      ∉ exportSimple env videos outputPath := by
  rw [mem_events]
  cases hT : env.CreateTemp with
  | error err =>
    rw [(exportSimple_error env videos outputPath err hT).1]
    simp
  | ok tmpName =>
    rw [(exportSimple_ok env videos outputPath tmpName hT).1, events_runEngine_eq]
    generalize env.CombinedOutput (exportSimple_args tmpName outputPath) = r
    obtain ⟨o, e⟩ := r
    cases e <;> simp

theorem fadeGraph_single (clip : Video) (D : ℚ) :
    (fadeGraph [clip] D).nodes
      = [{ inputs := [Label.stream 0 StreamKind.v],
           chain := [fadeOut "fade" (clip.Duration.Seconds - D) D],
           outputs := [Label.named "v0"] },
         { inputs := [Label.stream 0 StreamKind.a],
           chain := [fadeOut "afade" (clip.Duration.Seconds - D) D],
           outputs := [Label.named "a0"] },
         { inputs := [Label.named "v0", Label.named "a0"],
           chain := [{ name := "concat",
                       params := [("n", ParamValue.count 1), ("v", ParamValue.count 1),
                                  ("a", ParamValue.count 1)] }],
           outputs := [Label.named "vout", Label.named "aout"] }] := by
  have h0 : ("v" ++ fmtD 0 : String) = "v0" := by decide
  have h1 : ("a" ++ fmtD 0 : String) = "a0" := by decide
  simp [fadeGraph, fadeNode, concatNode, secondsAt, List.range_succ, h0, h1]

theorem fadeGraph_single_text (clip : Video) (D : ℚ) :
    (fadeGraph [clip] D).args
      = ["-filter_complex",
          "[0:v]fade=t=out:st=" ++ fmt2 (clip.Duration.Seconds - D) ++ ":d=" ++ fmt2 D
            ++ "[v0];[0:a]afade=t=out:st=" ++ fmt2 (clip.Duration.Seconds - D) ++ ":d="
            ++ fmt2 D ++ "[a0];[v0][a0]concat=n=1:v=1:a=1[vout][aout]",
          "-map", "[vout]", "-map", "[aout]"] := by
  have hm : (fadeGraph [clip] D).maps = [Label.named "vout", Label.named "aout"] := rfl
  unfold FilterGraphSpec.args
  rw [fadeGraph_single, hm]
  simp only [List.map_cons, List.map_nil, List.flatten_cons, List.flatten_nil, List.cons_append,
    List.nil_append, List.append_nil, List.cons.injEq, true_and, and_true]
  refine ⟨?_, by decide, by decide⟩
  apply string_eq_of_data
  simp [stringsJoin, Node.render, FilterSpec.render, ParamValue.render, Label.render,
    StreamKind.render, fadeOut, String.join, String.data_append, fmtD, repr_zero_data,
    repr_one_data]

theorem escape_chars_injective :
    ∀ (l1 l2 : List Char),
      (l1.map (fun c =>
          if c = Char.ofNat 39 then [Char.ofNat 39, Char.ofNat 92, Char.ofNat 39, Char.ofNat 39]
          else [c])).flatten
        = (l2.map (fun c =>
          if c = Char.ofNat 39 then [Char.ofNat 39, Char.ofNat 92, Char.ofNat 39, Char.ofNat 39]
          else [c])).flatten
      → l1 = l2 := by
  intro l1
  induction l1 with
  | nil =>
    intro l2 h
    cases l2 with
    | nil => rfl
    | cons d u =>
      by_cases hd : d = Char.ofNat 39 <;> simp [hd] at h
  | cons c t ih =>
    intro l2 h
    cases l2 with
    | nil =>
      by_cases hc : c = Char.ofNat 39 <;> simp [hc] at h
    | cons d u =>
      by_cases hc : c = Char.ofNat 39
      · by_cases hd : d = Char.ofNat 39
        · simp only [hc, hd, List.map_cons, if_true, List.flatten_cons, List.cons_append,
            List.nil_append, List.cons.injEq, true_and] at h
          rw [hc, hd, ih u h]
        · simp only [hc, hd, List.map_cons, if_true, if_false, List.flatten_cons,
            List.cons_append, List.nil_append, List.cons.injEq] at h
          exact absurd h.1.symm hd
      · by_cases hd : d = Char.ofNat 39
        · simp only [hc, hd, List.map_cons, if_true, if_false, List.flatten_cons,
            List.cons_append, List.nil_append, List.cons.injEq] at h
          exact h.1.elim
        · simp only [hc, hd, List.map_cons, if_false, List.flatten_cons, List.cons_append,
            List.nil_append, List.cons.injEq] at h
          rw [h.1, ih u h.2]

theorem escapeQuotes_injective (p q : String) (h : escapeQuotes p = escapeQuotes q) : p = q := by
  apply string_eq_of_data
  apply escape_chars_injective
  have := congrArg String.data h
  simpa [escapeQuotes] using this


theorem set_map_range_replicate64 (f : Nat → F64) (m k : Nat) (x : F64) (h : k < m) :
    ((List.range k).map f ++ List.replicate (m - k) (F64.fin 0)).set k x
      = (List.range k).map f ++ x :: List.replicate (m - (k + 1)) (F64.fin 0) := by
  have hm : m - k = (m - (k + 1)) + 1 := by omega
  rw [hm, List.replicate_succ]
  rw [List.set_append]
  simp

theorem offsets64_loop (videos : List Video) (D : ℚ) (m : Nat) (hm : m ≤ videos.length) :
    ∀ k, k ≤ m →
      (List.range k).foldlM
        (fun (st : F64 × List F64) i => do
          let v ← videos[i]?
          let cumulative := st.1.add ((F64.fin v.Duration.Seconds).sub (F64.fin D))
          if i < st.2.length then pure (cumulative, st.2.set i cumulative) else none)
        (F64.fin 0, List.replicate m (F64.fin 0))
      = some (cumulativeAt64 videos D k,
          (List.range k).map (fun j => cumulativeAt64 videos D (j + 1))
            ++ List.replicate (m - k) (F64.fin 0)) := by
  intro k
  induction k with
  | zero => intro _; simp [cumulativeAt64]
  | succ k ih =>
    intro hk
    have hk1 : k < videos.length := by omega
    rw [List.range_succ, List.foldlM_append, ih (by omega)]
    have hget : videos[k]? = some videos[k] := List.getElem?_eq_getElem hk1
    have hs : secondsAt videos k = videos[k].Duration.Seconds := by
      simp [secondsAt, hget]
    have hlen : k < ((List.range k).map (fun j => cumulativeAt64 videos D (j + 1))
            ++ List.replicate (m - k) (F64.fin 0)).length := by
      simp; omega
    simp only [List.foldlM_cons, List.foldlM_nil, hget, Option.bind_eq_bind, Option.some_bind,
      hlen, if_true, Option.pure_def, bind_pure]
    rw [set_map_range_replicate64 _ _ _ _ (by omega)]
    simp [cumulativeAt64, hs, List.range_succ]

theorem offsets64_eq (videos : List Video) (D : ℚ) :
    buildCrossfadeFilter_offsets64 videos D
      = some ((List.range (videos.length - 1)).map
          (fun j => cumulativeAt64 videos D (j + 1))) := by
  unfold buildCrossfadeFilter_offsets64
  simp only []
  rw [offsets64_loop videos D (videos.length - 1) (by omega) (videos.length - 1) (le_refl _)]
  simp

theorem offsets64_getElem? (videos : List Video) (D : ℚ) (i : Nat)
    (h : i < videos.length - 1) :
    ((List.range (videos.length - 1)).map (fun j => cumulativeAt64 videos D (j + 1)))[i]?
      = some (cumulativeAt64 videos D (i + 1)) := by
  simp [List.getElem?_map, List.getElem?_range h]

theorem F64.eq_of_isQuotient (x : F64) (n : Int) (d : Nat) (h : x.isQuotient n d = true) :
    x = F64.fin (mkRat n d) := by
  cases x with
  | fin q =>
    simp only [F64.isQuotient, Bool.and_eq_true, beq_iff_eq] at h
    rw [← h.1, ← h.2, Rat.mkRat_self]
  | inf s => simp [F64.isQuotient] at h
  | nan => simp [F64.isQuotient] at h

set_option maxRecDepth 10000 in
theorem round64_2435 : round64 (mkRat 2435 1000) = F64.fin secs2435 :=
  F64.eq_of_isQuotient _ _ _ (by with_unfolding_all decide)

set_option maxRecDepth 10000 in
theorem cumulativeAt64_fourClips :
    cumulativeAt64 fourClips 1 1 = F64.fin (mkRat 3231332732638331 2251799813685248)
    ∧ cumulativeAt64 fourClips 1 2 = F64.fin (mkRat 3231332732638331 1125899906842624)
    ∧ cumulativeAt64 fourClips 1 3 = F64.fin (mkRat 605874887369687 140737488355328) :=
  ⟨F64.eq_of_isQuotient _ _ _ (by with_unfolding_all decide),
   F64.eq_of_isQuotient _ _ _ (by with_unfolding_all decide),
   F64.eq_of_isQuotient _ _ _ (by with_unfolding_all decide)⟩


theorem floor_natCast (N : Nat) : Rat.floor (N : ℚ) = (N : ℤ) := by
  apply le_antisymm
  · have h : ((Rat.floor (N : ℚ) : ℤ) : ℚ) ≤ (N : ℚ) := Rat.le_floor.mp (le_refl _)
    exact_mod_cast h
  · exact Rat.le_floor.mpr (by simp)

theorem roundHalfEven_natCast (N : Nat) : roundHalfEven (N : ℚ) = N := by
  unfold roundHalfEven
  simp [floor_natCast]

theorem pow2_neg (j : Nat) : pow2 (-(j : Int)) = 1 / ((2 ^ j : Nat) : ℚ) := by
  unfold pow2
  rcases Nat.eq_zero_or_pos j with rfl | hj
  · simp
  · have h : ¬ (0 : Int) ≤ -(j : Int) := by omega
    rw [if_neg h]
    simp

theorem bitLengthAux_le (k : Nat) : ∀ fuel n, n < 2 ^ k → bitLengthAux fuel n ≤ k := by
  induction k with
  | zero =>
    intro fuel n h
    have hn : n = 0 := by simpa using h
    subst hn
    cases fuel <;> simp [bitLengthAux]
  | succ k ih =>
    intro fuel n h
    cases fuel with
    | zero => simp [bitLengthAux]
    | succ f =>
      simp only [bitLengthAux]
      split_ifs
      · omega
      · have h2 : n / 2 < 2 ^ k := by
          apply Nat.div_lt_of_lt_mul
          rw [pow_succ] at h
          omega
        have := ih f (n / 2) h2
        omega

theorem binaryExponent_intCast_le (n : Int) (h : n.natAbs < 2 ^ 53) :
    binaryExponent (n : ℚ) ≤ 52 := by
  have hb : bitLength n.natAbs ≤ 53 := bitLengthAux_le 53 _ _ h
  have h1 : bitLength 1 = 1 := rfl
  unfold binaryExponent
  simp only [Rat.num_intCast, Rat.den_intCast, h1]
  split_ifs <;> omega

theorem round64_intCast (n : Int) (h : n.natAbs < 2 ^ 53) :
    round64 (n : ℚ) = F64.fin (n : ℚ) := by
  by_cases h0 : n = 0
  · subst h0
    simp [round64]
  have hx : (n : ℚ) ≠ 0 := by exact_mod_cast h0
  have he := binaryExponent_intCast_le n h
  obtain ⟨j, hj⟩ : ∃ j : Nat, max (binaryExponent (n : ℚ)) (-1022) - 52 = -(j : Int) :=
    ⟨(52 - max (binaryExponent (n : ℚ)) (-1022)).toNat, by omega⟩
  have hpos : (0 : ℚ) < ((2 ^ j : Nat) : ℚ) := by positivity
  have hm : |(n : ℚ)| / (1 / ((2 ^ j : Nat) : ℚ)) = ((n.natAbs * 2 ^ j : Nat) : ℚ) := by
    rw [div_div_eq_mul_div, div_one]
    push_cast
    rw [Nat.cast_natAbs]
    simp
  have hnot : ¬ (971 < -(j : Int) ∨ (-(j : Int) = 971 ∧ 2 ^ 53 ≤ n.natAbs * 2 ^ j)) := by
    omega
  unfold round64
  rw [if_neg hx]
  simp only [hj, pow2_neg, hm, roundHalfEven_natCast, if_neg hnot]
  congr 1
  have hne : ((2 ^ j : Nat) : ℚ) ≠ 0 := ne_of_gt hpos
  have habs : ((n.natAbs : Nat) : ℚ) = |(n : ℚ)| := by
    rw [Nat.cast_natAbs]; simp
  push_cast
  rw [habs]
  split_ifs with hneg
  · rw [abs_of_neg hneg]
    field_simp
  · rw [abs_of_nonneg (not_lt.mp hneg)]
    field_simp


theorem F64.sub_fin (a b : ℚ) : (F64.fin a).sub (F64.fin b) = round64 (a - b) := by
  simp [F64.sub, F64.neg, F64.add, sub_eq_add_neg]

theorem F64.add_fin (a b : ℚ) : (F64.fin a).add (F64.fin b) = round64 (a + b) := rfl

theorem round64_zero : round64 0 = F64.fin 0 := by
  simp [round64]

theorem cumulativeAt64_foldl (videos : List Video) (D : ℚ) :
    ∀ k, k ≤ videos.length →
      cumulativeAt64 videos D k
        = (videos.take k).foldl
            (fun acc v => acc.add ((F64.fin v.Duration.Seconds).sub (F64.fin D))) (F64.fin 0) := by
  intro k
  induction k with
  | zero => intro _; simp [cumulativeAt64]
  | succ k ih =>
    intro hk
    have hk1 : k < videos.length := by omega
    have hget : videos[k]? = some videos[k] := List.getElem?_eq_getElem hk1
    have ht : videos.take (k + 1) = videos.take k ++ [videos[k]] := by
      rw [List.take_succ, hget]
      rfl
    rw [ht, List.foldl_append, ← ih (by omega)]
    simp [cumulativeAt64, secondsAt_eq videos k _ hget]

theorem closedOffset_eq (videos : List Video) (D : ℚ) (k : Nat) (hk : k + 1 ≤ videos.length) :
    closedOffset videos D k = cumulativeAt videos D (k + 1) := by
  rw [cumulativeAt_closed videos D (k + 1) hk]
  simp [closedOffset]

theorem cumulativeAt64_exact (videos : List Video) (D : ℚ) :
    ∀ k, (∀ j, j ≤ k →
          round64 (secondsAt videos j - D) = F64.fin (secondsAt videos j - D)
          ∧ round64 (cumulativeAt videos D (j + 1)) = F64.fin (cumulativeAt videos D (j + 1))) →
      cumulativeAt64 videos D (k + 1) = F64.fin (cumulativeAt videos D (k + 1)) := by
  intro k
  induction k with
  | zero =>
    intro h
    have h0 := h 0 (le_refl _)
    simp only [cumulativeAt64, cumulativeAt, F64.sub_fin, h0.1, F64.add_fin, zero_add]
  | succ k ih =>
    intro h
    have hk := h (k + 1) (le_refl _)
    have hprev := ih (fun j hj => h j (by omega))
    rw [cumulativeAt64, hprev, F64.sub_fin, hk.1, F64.add_fin]
    exact hk.2

theorem round64_small :
    round64 4 = F64.fin 4 ∧ round64 8 = F64.fin 8 := by
  have h4 := round64_intCast 4 (by decide)
  have h8 := round64_intCast 8 (by decide)
  exact ⟨by exact_mod_cast h4, by exact_mod_cast h8⟩

theorem offsets64_five (p q r : String) :
    buildCrossfadeFilter_offsets64 [⟨p, ⟨5⟩⟩, ⟨q, ⟨5⟩⟩, ⟨r, ⟨5⟩⟩] 1
      = some [F64.fin 4, F64.fin 8] := by
  rw [offsets64_eq]
  have e1 : (5 : ℚ) - 1 = 4 := by norm_num
  have e2 : (4 : ℚ) + 4 = 8 := by norm_num
  simp [cumulativeAt64, secondsAt, List.range_succ, F64.sub_fin, F64.add_fin, e1, e2,
    round64_small.1, round64_small.2]

set_option maxRecDepth 10000 in
theorem fourClips_values :
    (mkRat 605874887369687 140737488355328).num
        ≠ (mkRat 3231332732638331 1125899906842624 + secs2435 - 1).num
    ∧ (mkRat 605874887369687 140737488355328).num ≠ (closedOffset fourClips 1 2).num
    ∧ fmt2 (mkRat 605874887369687 140737488355328) = "4.30"
    ∧ fmt2 (mkRat 3231332732638331 1125899906842624 + secs2435 - 1) = "4.31"
    ∧ fmt2 (closedOffset fourClips 1 2) = "4.31" := by
  refine ⟨by with_unfolding_all decide, by with_unfolding_all decide,
    by with_unfolding_all decide, by with_unfolding_all decide, by with_unfolding_all decide⟩

/-! ## Claims -/

/-- C1 (counterexample): with two clips and the kind value 3, which is none of the three
declared constants, the transition path runs and the engine is started with arguments
that carry no `-filter_complex` at all: neither builder contributes. (With two clips
and the kind None the simple path runs, and no builder contributes either.) -/
theorem C1_undeclared_kind_runs_no_builder :
    ExportVideos quietEnv [clipA, clipB] "out.mkv" ⟨3, 1⟩
      = [Effect.send { Status := "Preparing export..." },
         Effect.send { Status := "Building transition filters..." },
         Effect.send { Status := "Rendering with transitions..." },
         Effect.run ["-i", "a.mp4", "-i", "b.mp4", "-y", "out.mkv"],
         Effect.send { Status := "Export complete!", Done := true },
         Effect.closeChan]
    ∧ "-filter_complex" ∉ ["-i", "a.mp4", "-i", "b.mp4", "-y", "out.mkv"]
    ∧ engineRuns (ExportVideos quietEnv [clipA, clipB] "out.mkv" ⟨TransitionNone, 1⟩)
      = [["-f", "concat", "-safe", "0", "-i", "list.txt", "-c", "copy", "-y", "out.mkv"]] := by
  refine ⟨?_, ?_, ?_⟩
  · decide
  · decide
  · decide

/-- C1 (amended): for a non-empty clip list and a kind among the three declared constants,
`ExportVideos` runs exactly one strategy, chosen by the kind and the clip count alone:
the simple path when the kind is None or there is one clip; otherwise the transition
path whose engine arguments are the inputs, then the arguments returned by
`buildCrossfadeFilter` (kind Crossfade) or by `buildFadeFilter` (kind Fade), which
begin with `-filter_complex`, then the fast-start and output arguments. -/
theorem C1_strategy_selection (env : Env) (videos : List Video) (outputPath : String)
    (options : ExportOptions) (hne : videos ≠ [])
    (hkind : options.Transition = TransitionNone ∨ options.Transition = TransitionFade
      ∨ options.Transition = TransitionCrossfade) :
    ((options.Transition = TransitionNone ∨ videos.length = 1)
        ∧ ExportVideos env videos outputPath options
          = Effect.send { Status := "Preparing export..." }
              :: exportSimple env videos outputPath ++ [Effect.closeChan])
    ∨ (options.Transition = TransitionCrossfade ∧ 2 ≤ videos.length
        ∧ ∃ f, buildCrossfadeFilter videos (transitionDuration options) = some f
          ∧ f.head? = some "-filter_complex"
          ∧ ExportVideos env videos outputPath options
            = Effect.send { Status := "Preparing export..." }
                :: transitionRun env videos outputPath f ++ [Effect.closeChan])
    ∨ (options.Transition = TransitionFade ∧ 2 ≤ videos.length
        ∧ ∃ f, buildFadeFilter videos (transitionDuration options) = some f
          ∧ f.head? = some "-filter_complex"
          ∧ ExportVideos env videos outputPath options
            = Effect.send { Status := "Preparing export..." }
                :: transitionRun env videos outputPath f ++ [Effect.closeChan]) := by
  have hlen : videos.length ≠ 0 := by
    intro h0; exact hne (List.length_eq_zero.mp h0)
  by_cases hs : options.Transition = TransitionNone ∨ videos.length = 1
  · left
    refine ⟨hs, ?_⟩
    simp [ExportVideos, hlen, hs]
  · have hnone : options.Transition ≠ TransitionNone := fun h => hs (Or.inl h)
    have h2 : 2 ≤ videos.length := by
      have : videos.length ≠ 1 := fun h => hs (Or.inr h)
      omega
    rcases hkind with hk | hk | hk
    · exact absurd hk hnone
    · right; right
      refine ⟨hk, h2, (fadeGraph videos (transitionDuration options)).args,
        buildFadeFilter_eq videos _ (by omega), rfl, ?_⟩
      have hf := buildFadeFilter_eq videos (transitionDuration options) (by omega)
      simp only [ExportVideos, hlen, hs, if_false]
      rw [exportWithTransitions_eq env videos outputPath options _
        (by simp only [hk, fade_ne_crossfade, if_false, if_true]; exact hf)]
    · right; left
      obtain ⟨f, hf, hhead⟩ := buildCrossfadeFilter_args videos (transitionDuration options) h2
      refine ⟨hk, h2, f, hf, hhead, ?_⟩
      simp only [ExportVideos, hlen, hs, if_false]
      rw [exportWithTransitions_eq env videos outputPath options _
        (by simp only [hk, if_true]; exact hf)]

/-- C1 (witness): two clips with kind Crossfade take the transition path, and the engine
arguments carry what `buildCrossfadeFilter` returned. -/
theorem C1_strategy_selection_witness :
    [clipA, clipB] ≠ []
    ∧ ∃ f, buildCrossfadeFilter [clipA, clipB] 1 = some f
        ∧ f.head? = some "-filter_complex"
        ∧ ExportVideos quietEnv [clipA, clipB] "out.mp4" ⟨TransitionCrossfade, 1⟩
          = Effect.send { Status := "Preparing export..." }
              :: transitionRun quietEnv [clipA, clipB] "out.mp4" f ++ [Effect.closeChan] := by
  refine ⟨by decide, ?_⟩
  rcases C1_strategy_selection quietEnv [clipA, clipB] "out.mp4" ⟨TransitionCrossfade, 1⟩
    (by decide) (by decide) with h | h | h
  · exact absurd h.1 (by decide)
  · obtain ⟨-, -, f, hf, hh, he⟩ := h
    have hD : transitionDuration ⟨TransitionCrossfade, 1⟩ = 1 := by
      simp [transitionDuration]
    rw [hD] at hf
    exact ⟨f, hf, hh, he⟩
  · exact absurd h.1 (by decide)

set_option maxRecDepth 10000 in
/-- C2 (counterexample): four clips of 2435 ms, each read as 2.435 rounded to `float64`,
and D = 1. The loop stores three finite offsets, and the third is not the second plus
the clip duration minus D: that sum needs 54 significant digits and is rounded down.
The stored offset is written `4.30`, the value of the exact recurrence `4.31`. -/
theorem C2_recurrence_rounds :
    round64 (mkRat 2435 1000) = F64.fin secs2435
    ∧ ∃ (offs : List F64) (o1 o2 : ℚ),
        buildCrossfadeFilter_offsets64 fourClips 1 = some offs
        ∧ offs.length = 3
        ∧ offs[1]? = some (F64.fin o1)
        ∧ offs[2]? = some (F64.fin o2)
        ∧ o2 ≠ o1 + secs2435 - 1
        ∧ fmt2 o2 = "4.30"
        ∧ fmt2 (o1 + secs2435 - 1) = "4.31" := by
  refine ⟨round64_2435, _, mkRat 3231332732638331 1125899906842624,
    mkRat 605874887369687 140737488355328, offsets64_eq fourClips 1, by simp [fourClips],
    ?_, ?_, ?_, fourClips_values.2.2.1, fourClips_values.2.2.2.1⟩
  · rw [offsets64_getElem? fourClips 1 1 (by decide), cumulativeAt64_fourClips.2.1]
  · rw [offsets64_getElem? fourClips 1 2 (by decide), cumulativeAt64_fourClips.2.2]
  · intro h
    exact fourClips_values.1 (congrArg Rat.num h)

/-- C2 (amended): for a list of N ≥ 2 clips and any transition duration D, the offsets
computed inside `buildCrossfadeFilter` are N - 1 `float64` values with
`offset[0] = 0 + (duration[0] - D)` and `offset[i] = offset[i-1] + (duration[i] - D)`
for 1 ≤ i ≤ N - 2, where `-` and `+` are the operations of `float64`, each rounding
its exact result; a step is the exact `offset[i-1] + duration[i] - D` whenever neither
its difference nor its sum is changed by rounding; durations 5, 5, 5 with D = 1 give
the offsets 4, 8. -/
theorem C2_crossfade_offsets64 (videos : List Video) (D : ℚ) (h : 2 ≤ videos.length) :
    ∃ offs : List F64, buildCrossfadeFilter_offsets64 videos D = some offs
      ∧ offs.length = videos.length - 1
      ∧ (∃ v0, videos[0]? = some v0
          ∧ offs[0]? = some
              ((F64.fin 0).add ((F64.fin v0.Duration.Seconds).sub (F64.fin D))))
      ∧ (∀ i, 1 ≤ i → i ≤ videos.length - 2 →
          ∃ v prev, videos[i]? = some v ∧ offs[i - 1]? = some prev
            ∧ offs[i]? = some (prev.add ((F64.fin v.Duration.Seconds).sub (F64.fin D))))
      ∧ (∀ i, i ≤ videos.length - 2 → ∀ (v : Video) (prev : ℚ), videos[i]? = some v →
          ((i = 0 ∧ prev = 0) ∨ (1 ≤ i ∧ offs[i - 1]? = some (F64.fin prev))) →
          round64 (v.Duration.Seconds - D) = F64.fin (v.Duration.Seconds - D) →
          round64 (prev + (v.Duration.Seconds - D))
            = F64.fin (prev + (v.Duration.Seconds - D)) →
          offs[i]? = some (F64.fin (prev + v.Duration.Seconds - D)))
      ∧ (∀ p q r : String,
          buildCrossfadeFilter_offsets64 [⟨p, ⟨5⟩⟩, ⟨q, ⟨5⟩⟩, ⟨r, ⟨5⟩⟩] 1
            = some [F64.fin 4, F64.fin 8]) := by
  refine ⟨_, offsets64_eq videos D, by simp, ?_, ?_, ?_, offsets64_five⟩
  · have h0 : 0 < videos.length := by omega
    refine ⟨videos[0], List.getElem?_eq_getElem h0, ?_⟩
    rw [offsets64_getElem? videos D 0 (by omega)]
    simp [cumulativeAt64, secondsAt_eq videos 0 videos[0] (List.getElem?_eq_getElem h0)]
  · intro i h1 h2
    have hi : i < videos.length := by omega
    refine ⟨videos[i], cumulativeAt64 videos D i, List.getElem?_eq_getElem hi, ?_, ?_⟩
    · rw [offsets64_getElem? videos D (i - 1) (by omega)]
      have : i - 1 + 1 = i := by omega
      rw [this]
    · rw [offsets64_getElem? videos D i (by omega)]
      simp only [cumulativeAt64, secondsAt_eq videos i videos[i] (List.getElem?_eq_getElem hi)]
  · intro i hi v prev hv hprev hsub hadd
    have hc : cumulativeAt64 videos D i = F64.fin prev := by
      rcases hprev with ⟨rfl, rfl⟩ | ⟨h1, hp⟩
      · rfl
      · rw [offsets64_getElem? videos D (i - 1) (by omega)] at hp
        have : i - 1 + 1 = i := by omega
        rw [this] at hp
        exact Option.some.inj hp
    rw [offsets64_getElem? videos D i (by omega)]
    simp only [cumulativeAt64, secondsAt_eq videos i v hv, hc, F64.sub_fin, hsub, F64.add_fin,
      hadd, add_sub_assoc]

/-- C2 (witness): three clips of five seconds and D = 1 give the offsets 4, 8. -/
theorem C2_crossfade_offsets64_witness :
    2 ≤ [clipA, clipB, clipC].length
    ∧ buildCrossfadeFilter_offsets64 [clipA, clipB, clipC] 1 = some [F64.fin 4, F64.fin 8] := by
  refine ⟨by decide, ?_⟩
  obtain ⟨offs, -, -, -, -, -, h5⟩ := C2_crossfade_offsets64 [clipA, clipB, clipC] 1 (by decide)
  exact h5 "a.mp4" "b.mp4" "c.mp4"

/-- C3: for N ≥ 2 clips the graph description returned by `buildCrossfadeFilter` has
exactly N - 1 video (`xfade`) nodes and N - 1 audio (`acrossfade`) nodes; the node of
step i (1 ≤ i ≤ N - 1) of each chain takes as left input the output label of the
previous node of the chain (`[0:v]` / `[0:a]` at step 1) and as right input the stream
of clip i, its output label is `[v<i>]` / `[a<i>]` when i < N - 1 and `[vout]` /
`[aout]` when i = N - 1, and the returned arguments map `[vout]` and `[aout]`. The
nodes are those read back from the returned text (`readsBack`). -/
theorem C3_crossfade_graph (videos : List Video) (D : ℚ) (h : 2 ≤ videos.length) :
    ∃ g : FilterGraphSpec, buildCrossfadeFilter videos D = some g.args
      ∧ g.readsBack
      ∧ g.maps = [Label.named "vout", Label.named "aout"]
      ∧ g.nodes.length = (videos.length - 1) + (videos.length - 1)
      ∧ g.nodes.countP (fun x => decide (x.chain.map FilterSpec.name = ["xfade"]))
          = videos.length - 1
      ∧ g.nodes.countP (fun x => decide (x.chain.map FilterSpec.name = ["acrossfade"]))
          = videos.length - 1
      ∧ ∀ i, 1 ≤ i → i ≤ videos.length - 1 →
          ∃ nv na, g.nodes[i - 1]? = some nv
            ∧ g.nodes[(videos.length - 1) + (i - 1)]? = some na
            ∧ nv.chain.map FilterSpec.name = ["xfade"]
            ∧ na.chain.map FilterSpec.name = ["acrossfade"]
            ∧ (∃ left, nv.inputs = [left, Label.stream i StreamKind.v]
                ∧ (i = 1 → left = Label.stream 0 StreamKind.v)
                ∧ (1 < i → ∃ pv, g.nodes[i - 2]? = some pv ∧ pv.outputs = [left]))
            ∧ (∃ left, na.inputs = [left, Label.stream i StreamKind.a]
                ∧ (i = 1 → left = Label.stream 0 StreamKind.a)
                ∧ (1 < i → ∃ pa, g.nodes[(videos.length - 1) + (i - 2)]? = some pa
                    ∧ pa.outputs = [left]))
            ∧ nv.outputs
                = [if i < videos.length - 1 then Label.named ("v" ++ fmtD i)
                   else Label.named "vout"]
            ∧ na.outputs
                = [if i < videos.length - 1 then Label.named ("a" ++ fmtD i)
                   else Label.named "aout"] := by
  obtain ⟨offs, -, -, hb⟩ := buildCrossfadeFilter_eq videos D h
  refine ⟨crossfadeGraph videos.length D offs, hb, crossfadeGraph_readsBack _ D offs h, rfl,
    crossfadeGraph_length _ _ _,
    crossfadeGraph_count_xfade _ _ _, crossfadeGraph_count_acrossfade _ _ _, ?_⟩
  intro i h1 h2
  refine ⟨_, _, crossfadeGraph_video_node _ D offs i h1 h2,
    crossfadeGraph_audio_node _ D offs i h1 h2, rfl, rfl, ?_, ?_, ?_, ?_⟩
  · refine ⟨chainLeft StreamKind.v "v" "vout" videos.length i, rfl, ?_, ?_⟩
    · intro hi; simp [chainLeft, hi]
    · intro hi
      have hp := crossfadeGraph_video_node videos.length D offs (i - 1) (by omega) (by omega)
      have e : i - 1 - 1 = i - 2 := by omega
      rw [e] at hp
      refine ⟨_, hp, ?_⟩
      have : i ≠ 1 := by omega
      simp [xfadeNode, chainLeft, this]
  · refine ⟨chainLeft StreamKind.a "a" "aout" videos.length i, rfl, ?_, ?_⟩
    · intro hi; simp [chainLeft, hi]
    · intro hi
      have hp := crossfadeGraph_audio_node videos.length D offs (i - 1) (by omega) (by omega)
      have e : i - 1 - 1 = i - 2 := by omega
      rw [e] at hp
      refine ⟨_, hp, ?_⟩
      have : i ≠ 1 := by omega
      simp [acrossfadeNode, chainLeft, this]
  · by_cases hl : i < videos.length - 1
    · have : i ≠ videos.length - 1 := by omega
      simp [xfadeNode, chainLabel, hl, this]
    · have : i = videos.length - 1 := by omega
      simp [xfadeNode, chainLabel, ← this]
  · by_cases hl : i < videos.length - 1
    · have : i ≠ videos.length - 1 := by omega
      simp [acrossfadeNode, chainLabel, hl, this]
    · have : i = videos.length - 1 := by omega
      simp [acrossfadeNode, chainLabel, ← this]

/-- C3 (witness): three clips of five seconds and D = 1 give a graph of four nodes that
maps `[vout]` and `[aout]`; its text is the one shown. -/
theorem C3_crossfade_graph_witness :
    2 ≤ [clipA, clipB, clipC].length
    ∧ ∃ g : FilterGraphSpec, buildCrossfadeFilter [clipA, clipB, clipC] 1 = some g.args
      ∧ g.maps = [Label.named "vout", Label.named "aout"]
      ∧ g.nodes.length = 2 + 2
      ∧ g.args = ["-filter_complex",
          "[0:v][1:v]xfade=transition=fade:duration=1.00:offset=4.00[v1];[v1][2:v]xfade=transition=fade:duration=1.00:offset=8.00[vout];[0:a][1:a]acrossfade=d=1.00[a1];[a1][2:a]acrossfade=d=1.00[aout]",
          "-map", "[vout]", "-map", "[aout]"] := by
  refine ⟨by decide, ?_⟩
  obtain ⟨g, h1, -, h2, h3, -⟩ := C3_crossfade_graph [clipA, clipB, clipC] 1 (by decide)
  refine ⟨g, h1, h2, h3, ?_⟩
  have h4 := buildCrossfadeFilter_three_clips
  rw [h1] at h4
  exact Option.some.inj h4

/-- C4 (counterexample): for two clips of five seconds and D = 1 the audio node of
step 1 is `[0:a][1:a]acrossfade=d=1.00[aout]`: it carries the duration but no offset
parameter, while the offset of step 1 (4.00) appears in the video node only. -/
theorem C4_audio_node_has_no_offset :
    buildCrossfadeFilter [clipA, clipB] 1 = some (crossfadeGraph 2 1 [4]).args
    ∧ buildCrossfadeFilter_offsets [clipA, clipB] 1 = some [4]
    ∧ (crossfadeGraph 2 1 [4]).nodes.map Node.render
        = ["[0:v][1:v]xfade=transition=fade:duration=1.00:offset=4.00[vout]",
           "[0:a][1:a]acrossfade=d=1.00[aout]"]
    ∧ ∃ na, (crossfadeGraph 2 1 [4]).nodes[1]? = some na
        ∧ ∀ f ∈ na.chain, f.param "offset" = none := by
  refine ⟨by with_unfolding_all decide, by with_unfolding_all decide,
    by with_unfolding_all decide, acrossfadeNode 2 1 1, by with_unfolding_all decide, ?_⟩
  intro f hf
  simp only [acrossfadeNode, List.mem_singleton] at hf
  subst hf
  decide

/-- C4 (amended): for N ≥ 2 clips and every step i in 1..N-1, the video (`xfade`) node of
step i carries an offset parameter equal to `offsets[i-1]` and a duration parameter
equal to D; the audio (`acrossfade`) node of step i carries a duration parameter (`d`)
equal to D and no offset parameter. The nodes are those read back from the returned
text (`readsBack`). -/
theorem C4_crossfade_parameters (videos : List Video) (D : ℚ) (h : 2 ≤ videos.length) :
    ∃ (offs : List ℚ) (g : FilterGraphSpec),
      buildCrossfadeFilter_offsets videos D = some offs
      ∧ buildCrossfadeFilter videos D = some g.args
      ∧ g.readsBack
      ∧ ∀ i, 1 ≤ i → i ≤ videos.length - 1 →
          ∃ o nv na fv fa, offs[i - 1]? = some o
            ∧ g.nodes[i - 1]? = some nv
            ∧ g.nodes[(videos.length - 1) + (i - 1)]? = some na
            ∧ nv.chain = [fv] ∧ fv.name = "xfade"
            ∧ fv.param "offset" = some (ParamValue.time o)
            ∧ fv.param "duration" = some (ParamValue.time D)
            ∧ na.chain = [fa] ∧ fa.name = "acrossfade"
            ∧ fa.param "d" = some (ParamValue.time D)
            ∧ fa.param "offset" = none := by
  obtain ⟨offs, ho, hlen, hb⟩ := buildCrossfadeFilter_eq videos D h
  refine ⟨offs, crossfadeGraph videos.length D offs, ho, hb,
    crossfadeGraph_readsBack _ D offs h, ?_⟩
  intro i h1 h2
  have hi : i - 1 < offs.length := by omega
  have hget : offs[i - 1]? = some offs[i - 1] := List.getElem?_eq_getElem hi
  have hD : offs.getD (i - 1) 0 = offs[i - 1] := by simp [List.getD, hget]
  refine ⟨offs[i - 1], _, _, _, _, hget, crossfadeGraph_video_node _ D offs i h1 h2,
    crossfadeGraph_audio_node _ D offs i h1 h2, rfl, rfl, ?_, ?_, rfl, rfl, ?_, ?_⟩
  · rw [hD]; rfl
  · rfl
  · rfl
  · rfl

/-- C4 (witness): three clips of five seconds and D = 1. -/
theorem C4_crossfade_parameters_witness :
    2 ≤ [clipA, clipB, clipC].length
    ∧ ∃ (offs : List ℚ) (g : FilterGraphSpec),
        buildCrossfadeFilter_offsets [clipA, clipB, clipC] 1 = some offs
        ∧ buildCrossfadeFilter [clipA, clipB, clipC] 1 = some g.args := by
  refine ⟨by decide, ?_⟩
  obtain ⟨offs, g, h1, h2, -⟩ := C4_crossfade_parameters [clipA, clipB, clipC] 1 (by decide)
  exact ⟨offs, g, h1, h2⟩

/-- C5: for N ≥ 2 clips and any D, `buildFadeFilter` emits for each clip index i one
video-fade node and one audio-fade node on clip i's own streams, with output labels
`[v<i>]` / `[a<i>]`: clip 0 gets a fade-out only, starting at `duration[0] - D` with
length D; clip N - 1 gets a fade-in only, starting at 0 with length D; every interior
clip gets, on a single chain, a fade-in at 0 of length D followed by a fade-out
starting at `duration[i] - D` of length D. The nodes are those read back from the
returned text (`readsBack`). -/
theorem C5_fade_nodes (videos : List Video) (D : ℚ) (h : 2 ≤ videos.length) :
    ∃ g : FilterGraphSpec, buildFadeFilter videos D = some g.args
      ∧ g.readsBack
      ∧ g.nodes.length = videos.length + videos.length + 1
      ∧ ∀ i clip, videos[i]? = some clip →
          ∃ nv na, g.nodes[i]? = some nv ∧ g.nodes[videos.length + i]? = some na
            ∧ nv.inputs = [Label.stream i StreamKind.v]
            ∧ nv.outputs = [Label.named ("v" ++ fmtD i)]
            ∧ na.inputs = [Label.stream i StreamKind.a]
            ∧ na.outputs = [Label.named ("a" ++ fmtD i)]
            ∧ (i = 0 →
                nv.chain = [fadeOut "fade" (clip.Duration.Seconds - D) D]
                ∧ na.chain = [fadeOut "afade" (clip.Duration.Seconds - D) D])
            ∧ (i = videos.length - 1 →
                nv.chain = [fadeIn "fade" D] ∧ na.chain = [fadeIn "afade" D])
            ∧ (0 < i → i < videos.length - 1 →
                nv.chain = [fadeIn "fade" D, fadeOut "fade" (clip.Duration.Seconds - D) D]
                ∧ na.chain
                    = [fadeIn "afade" D, fadeOut "afade" (clip.Duration.Seconds - D) D]) := by
  refine ⟨fadeGraph videos D, buildFadeFilter_eq videos D (by omega),
    fadeGraph_readsBack videos D, fadeGraph_length _ _, ?_⟩
  intro i clip hclip
  have hi : i < videos.length := by
    by_contra hc
    rw [List.getElem?_eq_none (by omega)] at hclip
    exact absurd hclip (by simp)
  have hs := secondsAt_eq videos i clip hclip
  refine ⟨_, _, fadeGraph_video_node videos D i hi, fadeGraph_audio_node videos D i hi,
    rfl, rfl, rfl, rfl, ?_, ?_, ?_⟩
  · intro h0
    simp [fadeNode, h0, ← hs]
  · intro hl
    have h0 : i ≠ 0 := by omega
    simp [fadeNode, h0, ← hl]
  · intro h0 hl
    have h0' : i ≠ 0 := by omega
    have hl' : i ≠ videos.length - 1 := by omega
    simp [fadeNode, h0', hl', ← hs]

/-- C5 (witness): three clips of five seconds and D = 2 give a graph of seven nodes; its
text is the one shown. -/
theorem C5_fade_nodes_witness :
    2 ≤ [clipA, clipB, clipC].length
    ∧ ∃ g : FilterGraphSpec, buildFadeFilter [clipA, clipB, clipC] 2 = some g.args
      ∧ g.nodes.length = 3 + 3 + 1
      ∧ g.args = ["-filter_complex",
          "[0:v]fade=t=out:st=3.00:d=2.00[v0];[1:v]fade=t=in:st=0:d=2.00,fade=t=out:st=3.00:d=2.00[v1];[2:v]fade=t=in:st=0:d=2.00[v2];[0:a]afade=t=out:st=3.00:d=2.00[a0];[1:a]afade=t=in:st=0:d=2.00,afade=t=out:st=3.00:d=2.00[a1];[2:a]afade=t=in:st=0:d=2.00[a2];[v0][a0][v1][a1][v2][a2]concat=n=3:v=1:a=1[vout][aout]",
          "-map", "[vout]", "-map", "[aout]"] := by
  refine ⟨by decide, ?_⟩
  obtain ⟨g, h1, -, h2, -⟩ := C5_fade_nodes [clipA, clipB, clipC] 2 (by decide)
  refine ⟨g, h1, h2, ?_⟩
  have h4 := buildFadeFilter_three_clips
  rw [h1] at h4
  exact Option.some.inj h4

/-- C6: for N ≥ 1 clips the graph description returned by `buildFadeFilter` ends with a
single concatenation node whose inputs are the N labelled pairs
`[v0][a0]...[v<N-1>][a<N-1>]` in clip order, whose parameters are `n=N`, `v=1`, `a=1`
and whose outputs are `[vout][aout]`; the returned arguments map `[vout]` and `[aout]`,
as those of the crossfade builder do. The nodes are those read back from the returned
text (`readsBack`). -/
theorem C6_fade_concat (videos : List Video) (D : ℚ) (h : 1 ≤ videos.length) :
    ∃ (g : FilterGraphSpec) (c : Node), buildFadeFilter videos D = some g.args
      ∧ g.readsBack
      ∧ g.nodes.getLast? = some c
      ∧ g.nodes.countP (fun x => decide (x.chain.map FilterSpec.name = ["concat"])) = 1
      ∧ c.inputs = ((List.range videos.length).map
          (fun i => [Label.named ("v" ++ fmtD i), Label.named ("a" ++ fmtD i)])).flatten
      ∧ c.chain = [{ name := "concat",
                     params := [("n", ParamValue.count videos.length),
                                ("v", ParamValue.count 1), ("a", ParamValue.count 1)] }]
      ∧ c.outputs = [Label.named "vout", Label.named "aout"]
      ∧ g.maps = [Label.named "vout", Label.named "aout"]
      ∧ g.args.drop 2 = ["-map", "[vout]", "-map", "[aout]"]
      ∧ ∀ (videos2 : List Video) (D2 : ℚ), 2 ≤ videos2.length →
          ∃ g2 : FilterGraphSpec, buildCrossfadeFilter videos2 D2 = some g2.args
            ∧ g2.maps = g.maps ∧ g2.args.drop 2 = g.args.drop 2 := by
  refine ⟨fadeGraph videos D, concatNode videos.length, buildFadeFilter_eq videos D h,
    fadeGraph_readsBack videos D, fadeGraph_last videos D, ?_, rfl, rfl, rfl, rfl, rfl, ?_⟩
  · unfold fadeGraph
    simp only [List.countP_append]
    rw [countP_map_const_false _ _ _ (by
        intro x; unfold fadeNode; split_ifs <;> simp [fadeIn, fadeOut]),
      countP_map_const_false _ _ _ (by
        intro x; unfold fadeNode; split_ifs <;> simp [fadeIn, fadeOut])]
    simp [concatNode]
  · intro videos2 D2 h2
    obtain ⟨offs, -, -, hb⟩ := buildCrossfadeFilter_eq videos2 D2 h2
    exact ⟨_, hb, rfl, rfl⟩

/-- C6 (witness): a single clip. -/
theorem C6_fade_concat_witness :
    1 ≤ [clipA].length
    ∧ ∃ (g : FilterGraphSpec) (c : Node), buildFadeFilter [clipA] 1 = some g.args
      ∧ g.nodes.getLast? = some c
      ∧ c.outputs = [Label.named "vout", Label.named "aout"] := by
  refine ⟨by decide, ?_⟩
  obtain ⟨g, c, h1, -, h2, -, -, -, h3, -⟩ := C6_fade_concat [clipA] 1 (by decide)
  exact ⟨g, c, h1, h2, h3⟩

/-- C7: in the node sequence of the graph description returned by `buildCrossfadeFilter`
(N ≥ 2 clips) and by `buildFadeFilter` (N ≥ 1 clips), every stream reference `[k:v]` /
`[k:a]` among the inputs has `k < N`, every other input label is an output label of a
node earlier in the sequence, and each mapped label is an output label of a node. The
nodes are those read back from the returned text (`readsBack`). -/
theorem C7_labels_well_scoped (videos : List Video) (D : ℚ) :
    (2 ≤ videos.length →
      ∃ offs : List ℚ, buildCrossfadeFilter_offsets videos D = some offs
        ∧ buildCrossfadeFilter videos D = some (crossfadeGraph videos.length D offs).args
        ∧ (crossfadeGraph videos.length D offs).readsBack
        ∧ (crossfadeGraph videos.length D offs).wellScoped videos.length = true)
    ∧ (1 ≤ videos.length →
      buildFadeFilter videos D = some (fadeGraph videos D).args
        ∧ (fadeGraph videos D).readsBack
        ∧ (fadeGraph videos D).wellScoped videos.length = true) := by
  constructor
  · intro h
    obtain ⟨offs, ho, -, hb⟩ := buildCrossfadeFilter_eq videos D h
    exact ⟨offs, ho, hb, crossfadeGraph_readsBack _ D offs h,
      crossfadeGraph_wellScoped _ D offs h⟩
  · intro h
    exact ⟨buildFadeFilter_eq videos D h, fadeGraph_readsBack videos D,
      fadeGraph_wellScoped videos D⟩

/-- C7 (witness): three clips, for both builders. -/
theorem C7_labels_well_scoped_witness :
    2 ≤ [clipA, clipB, clipC].length ∧ 1 ≤ [clipA, clipB, clipC].length
    ∧ (∃ offs : List ℚ, buildCrossfadeFilter_offsets [clipA, clipB, clipC] 1 = some offs
        ∧ buildCrossfadeFilter [clipA, clipB, clipC] 1 = some (crossfadeGraph 3 1 offs).args
        ∧ (crossfadeGraph 3 1 offs).readsBack
        ∧ (crossfadeGraph 3 1 offs).wellScoped 3 = true)
    ∧ (buildFadeFilter [clipA, clipB, clipC] 1 = some (fadeGraph [clipA, clipB, clipC] 1).args
        ∧ (fadeGraph [clipA, clipB, clipC] 1).readsBack
        ∧ (fadeGraph [clipA, clipB, clipC] 1).wellScoped 3 = true) :=
  ⟨by decide, by decide,
    (C7_labels_well_scoped [clipA, clipB, clipC] 1).1 (by decide),
    (C7_labels_well_scoped [clipA, clipB, clipC] 1).2 (by decide)⟩

/-- C8 (counterexample): a single clip whose path holds a newline gives a manifest of two
lines, neither of which is `file '<escaped path>'`. -/
theorem C8_newline_path_splits_line :
    written "list.txt" (exportSimple quietEnv [clipNewline] "out.mp4") = "file \x27a\nb.mp4\x27\n"
    ∧ textLines (written "list.txt" (exportSimple quietEnv [clipNewline] "out.mp4"))
        = ["file \x27a", "b.mp4\x27"]
    ∧ [clipNewline].length = 1 := by
  decide

/-- C8 (amended): once the temp file is created, the manifest text written by
`exportSimple` for N clips is the N entries `file '<e_i>'`, in clip order, each followed
by a newline, where `e_i` is the path of clip i with every single quote replaced by the
four characters `'\''` and nothing else changed; when no path holds a newline the
manifest consists of exactly these N lines. `it's.mp4` is written `it'\''s.mp4`. -/
theorem C8_manifest_lines (env : Env) (videos : List Video) (outputPath tmpName : String)
    (hT : env.CreateTemp = Except.ok tmpName) :
    written tmpName (exportSimple env videos outputPath)
        = String.join (videos.map
            (fun v => "file \x27" ++ escapeQuotes v.Path ++ "\x27" ++ "\n"))
    ∧ (∀ v : Video, stringsReplaceAll v.Path "\x27" "\x27\\\x27\x27" = escapeQuotes v.Path)
    ∧ ((∀ v ∈ videos, Char.ofNat 10 ∉ v.Path.data) →
        textLines (written tmpName (exportSimple env videos outputPath))
            = videos.map (fun v => "file \x27" ++ escapeQuotes v.Path ++ "\x27")
          ∧ (textLines (written tmpName (exportSimple env videos outputPath))).length
            = videos.length)
    ∧ escapeQuotes "it\x27s.mp4" = "it\x27\\\x27\x27s.mp4" := by
  have hw := exportSimple_written env videos outputPath tmpName hT
  refine ⟨hw, fun v => stringsReplaceAll_quote v.Path, ?_, by decide⟩
  intro hnl
  have hlines : textLines (written tmpName (exportSimple env videos outputPath))
      = videos.map (fun v => "file \x27" ++ escapeQuotes v.Path ++ "\x27") := by
    rw [hw]
    have := textLines_join (videos.map (fun v => "file \x27" ++ escapeQuotes v.Path ++ "\x27"))
      (by
        intro l hl
        simp only [List.mem_map] at hl
        obtain ⟨v, hv, rfl⟩ := hl
        have he := escapeQuotes_no_newline v.Path (hnl v hv)
        simp only [String.data_append, List.mem_append, not_or]
        exact ⟨⟨by decide, he⟩, by decide⟩)
    simpa [List.map_map, Function.comp_def] using this
  exact ⟨hlines, by rw [hlines]; simp⟩

/-- C8 (witness): two clips, one with a quote in its path. -/
theorem C8_manifest_lines_witness :
    quietEnv.CreateTemp = Except.ok "list.txt"
    ∧ written "list.txt" (exportSimple quietEnv [⟨"it\x27s.mp4", ⟨5⟩⟩, clipB] "out.mp4")
        = String.join ([⟨"it\x27s.mp4", ⟨5⟩⟩, clipB].map
            (fun v : Video => "file \x27" ++ escapeQuotes v.Path ++ "\x27" ++ "\n")) :=
  ⟨rfl, (C8_manifest_lines quietEnv [⟨"it\x27s.mp4", ⟨5⟩⟩, clipB] "out.mp4" "list.txt" rfl).1⟩

/-- C9: for an empty clip list `ExportVideos` sends exactly one event, a Failed event
(`Error` set) that is no Status event, then closes the channel; the engine is not run
and no temp file is created. -/
theorem C9_empty_input (env : Env) (outputPath : String) (options : ExportOptions) :
    ExportVideos env [] outputPath options
      = [Effect.send { Error := some "no videos to export" }, Effect.closeChan]
    ∧ (∃ e, events (ExportVideos env [] outputPath options) = [e]
        ∧ e.isFailed = true ∧ e.isStatus = false ∧ e.Status = "")
    ∧ (∀ p ∈ events (ExportVideos env [] outputPath options), p.isStatus = false)
    ∧ engineRuns (ExportVideos env [] outputPath options) = [] := by
  refine ⟨rfl, ⟨_, rfl, rfl, rfl, rfl⟩, ?_, rfl⟩
  intro p hp
  have : events (ExportVideos env [] outputPath options)
      = [{ Error := some "no videos to export" }] := rfl
  rw [this, List.mem_singleton] at hp
  subst hp
  rfl

/-- C10: for every clip list, output path and options, and every outcome of the temp-file
creation and of the engine, the events sent by `ExportVideos` are zero or more
non-terminal Status events followed by exactly one terminal event, Failed (`Error` set)
or Completed (`Done` set); nothing is sent after it, the run does not panic and ends by
closing the channel. -/
theorem C10_event_order (env : Env) (videos : List Video) (outputPath : String)
    (options : ExportOptions) :
    ∃ statuses t, events (ExportVideos env videos outputPath options) = statuses ++ [t]
      ∧ (∀ s ∈ statuses, s.isStatus = true)
      ∧ (t.isFailed = true ∨ t.isCompleted = true) ∧ t.isStatus = false
      ∧ Effect.panicked ∉ ExportVideos env videos outputPath options
      ∧ (ExportVideos env videos outputPath options).getLast? = some Effect.closeChan := by
  have hlast : (ExportVideos env videos outputPath options).getLast? = some Effect.closeChan := by
    unfold ExportVideos
    simp
  by_cases h0 : videos.length = 0
  · refine ⟨[], { Error := some "no videos to export" }, ?_, by simp, Or.inl rfl, rfl, ?_, hlast⟩
    · simp [ExportVideos, h0, events]
    · simp [ExportVideos, h0]
  · have hprep : ∀ rest : List Effect,
        (∃ statuses t, events rest = statuses ++ [t]
          ∧ (∀ s ∈ statuses, s.isStatus = true)
          ∧ (t.isFailed || t.isCompleted) = true ∧ t.isStatus = false
          ∧ Effect.panicked ∉ rest) →
        ∃ statuses t,
          events (Effect.send { Status := "Preparing export..." } :: rest ++ [Effect.closeChan])
            = statuses ++ [t]
          ∧ (∀ s ∈ statuses, s.isStatus = true)
          ∧ (t.isFailed = true ∨ t.isCompleted = true) ∧ t.isStatus = false
          ∧ Effect.panicked
              ∉ Effect.send { Status := "Preparing export..." } :: rest ++ [Effect.closeChan] := by
      intro rest ⟨statuses, t, he, hs, ht, hns, hp⟩
      refine ⟨{ Status := "Preparing export..." } :: statuses, t, ?_, ?_, ?_, hns, ?_⟩
      · show events (Effect.send _ :: (rest ++ [Effect.closeChan])) = _
        simp [events, events_append, he]
      · intro s hmem
        rcases List.mem_cons.mp hmem with rfl | hmem
        · rfl
        · exact hs s hmem
      · simpa [Bool.or_eq_true] using ht
      · simp [hp]
    by_cases hs : options.Transition = TransitionNone ∨ videos.length = 1
    · obtain ⟨statuses, t, h1, h2, h3, h4, h5⟩ :=
        hprep _ (exportSimple_events env videos outputPath)
      refine ⟨statuses, t, ?_, h2, h3, h4, ?_, hlast⟩
      · simpa [ExportVideos, h0, hs] using h1
      · simpa [ExportVideos, h0, hs] using h5
    · obtain ⟨f, hf⟩ := exportWithTransitions_total env videos outputPath options
      obtain ⟨statuses, t, h1, h2, h3, h4, h5⟩ :=
        hprep _ (transitionRun_events env videos outputPath f)
      refine ⟨statuses, t, ?_, h2, h3, h4, ?_, hlast⟩
      · simpa [ExportVideos, h0, hs, hf] using h1
      · simpa [ExportVideos, h0, hs, hf] using h5

/-- C11 (counterexample): one clip with kind None, the temp file created and the engine
succeeding: two Status events, `Preparing export...` and `Combining videos...`, come
before the terminal event. -/
theorem C11_two_status_events :
    events (ExportVideos quietEnv [clipA] "out.mp4" ⟨TransitionNone, 0⟩)
      = [{ Status := "Preparing export..." }, { Status := "Combining videos..." },
         { Status := "Export complete!", Done := true }]
    ∧ (statusBeforeLast
        (events (ExportVideos quietEnv [clipA] "out.mp4" ⟨TransitionNone, 0⟩))).length = 2 := by
  constructor <;> decide

/-- C11 (amended): for a non-empty clip list exported with kind None, the Status events
before the terminal event are exactly two, `Preparing export...` then
`Combining videos...`, when the temp file is created, and exactly one,
`Preparing export...`, when its creation fails. -/
theorem C11_status_before_terminal (env : Env) (videos : List Video) (outputPath : String)
    (options : ExportOptions) (hne : videos ≠ [])
    (hkind : options.Transition = TransitionNone) :
    (∀ tmpName, env.CreateTemp = Except.ok tmpName →
      ∃ t, events (ExportVideos env videos outputPath options)
          = [{ Status := "Preparing export..." }, { Status := "Combining videos..." }, t]
        ∧ t.isStatus = false
        ∧ statusBeforeLast (events (ExportVideos env videos outputPath options))
          = [{ Status := "Preparing export..." }, { Status := "Combining videos..." }])
    ∧ (∀ err, env.CreateTemp = Except.error err →
      ∃ t, events (ExportVideos env videos outputPath options)
          = [{ Status := "Preparing export..." }, t]
        ∧ t.isFailed = true
        ∧ statusBeforeLast (events (ExportVideos env videos outputPath options))
          = [{ Status := "Preparing export..." }]) := by
  have hlen : videos.length ≠ 0 := fun h => hne (List.length_eq_zero.mp h)
  have hE : ExportVideos env videos outputPath options
      = Effect.send { Status := "Preparing export..." }
          :: exportSimple env videos outputPath ++ [Effect.closeChan] := by
    simp [ExportVideos, hlen, hkind]
  constructor
  · intro tmpName hT
    obtain ⟨t, ht, -, hns⟩ := events_runEngine env (exportSimple_args tmpName outputPath)
    have he : events (ExportVideos env videos outputPath options)
        = [{ Status := "Preparing export..." }, { Status := "Combining videos..." }, t] := by
      rw [hE]
      show events (Effect.send _ :: (exportSimple env videos outputPath ++ [Effect.closeChan]))
        = _
      rw [events_send, events_append, (exportSimple_ok env videos outputPath tmpName hT).1, ht]
      rfl
    refine ⟨t, he, hns, ?_⟩
    rw [he]
    rfl
  · intro err hT
    have he : events (ExportVideos env videos outputPath options)
        = [{ Status := "Preparing export..." },
           { Error := some ("failed to create temp file: " ++ err) }] := by
      rw [hE]
      show events (Effect.send _ :: (exportSimple env videos outputPath ++ [Effect.closeChan]))
        = _
      rw [events_send, events_append, (exportSimple_error env videos outputPath err hT).1]
      rfl
    refine ⟨_, he, rfl, ?_⟩
    rw [he]
    rfl

/-- C11 (witness): one clip with kind None in an environment where the temp file is
created. -/
theorem C11_status_before_terminal_witness :
    [clipA] ≠ [] ∧ (⟨TransitionNone, 0⟩ : ExportOptions).Transition = TransitionNone
    ∧ quietEnv.CreateTemp = Except.ok "list.txt"
    ∧ statusBeforeLast (events (ExportVideos quietEnv [clipA] "out.mp4" ⟨TransitionNone, 0⟩))
        = [{ Status := "Preparing export..." }, { Status := "Combining videos..." }] := by
  refine ⟨by decide, rfl, rfl, ?_⟩
  obtain ⟨t, -, -, h⟩ :=
    (C11_status_before_terminal quietEnv [clipA] "out.mp4" ⟨TransitionNone, 0⟩
      (by decide) rfl).1 "list.txt" rfl
  exact h

/-- C12: on both export paths the engine is run exactly once when the run reaches it: on
the simple path with the arguments of `exportSimple` once the manifest file is
created, on the transition path with the arguments of `exportWithTransitions`. It is
never run a second time, and it is not run at all only when the clip list is empty or
the manifest file cannot be created. When it has run, the terminal event is Failed
exactly when the engine reports an error, the Failed event carries
`ffmpeg error: <err>`, a newline and the captured combined output verbatim, and when
the engine reports success the terminal event is the Completed event. -/
theorem C12_engine_outcome (env : Env) (videos : List Video) (outputPath : String)
    (options : ExportOptions) :
    (engineRuns (ExportVideos env videos outputPath options)).length ≤ 1
    ∧ (engineRuns (ExportVideos env videos outputPath options) = [] ↔
        videos = [] ∨ ((options.Transition = TransitionNone ∨ videos.length = 1)
          ∧ ∃ err, env.CreateTemp = Except.error err))
    ∧ (videos ≠ [] → (options.Transition = TransitionNone ∨ videos.length = 1) →
        ∀ tmpName, env.CreateTemp = Except.ok tmpName →
          engineRuns (ExportVideos env videos outputPath options)
              = [exportSimple_args tmpName outputPath]
          ∧ ∃ t, (events (ExportVideos env videos outputPath options)).getLast? = some t
            ∧ (t.isFailed = true
                ↔ (env.CombinedOutput (exportSimple_args tmpName outputPath)).2.isSome = true)
            ∧ (∀ err, (env.CombinedOutput (exportSimple_args tmpName outputPath)).2 = some err →
                t.Error = some ("ffmpeg error: " ++ err ++ "\n"
                  ++ (env.CombinedOutput (exportSimple_args tmpName outputPath)).1))
            ∧ ((env.CombinedOutput (exportSimple_args tmpName outputPath)).2 = none →
                t = { Status := "Export complete!", Done := true }))
    ∧ (videos ≠ [] → ¬ (options.Transition = TransitionNone ∨ videos.length = 1) →
        ∃ args, exportWithTransitions_args videos outputPath options = some args
          ∧ engineRuns (ExportVideos env videos outputPath options) = [args]
          ∧ ∃ t, (events (ExportVideos env videos outputPath options)).getLast? = some t
            ∧ (t.isFailed = true ↔ (env.CombinedOutput args).2.isSome = true)
            ∧ (∀ err, (env.CombinedOutput args).2 = some err →
                t.Error
                  = some ("ffmpeg error: " ++ err ++ "\n" ++ (env.CombinedOutput args).1))
            ∧ ((env.CombinedOutput args).2 = none →
                t = { Status := "Export complete!", Done := true })) := by
  rcases ExportVideos_shape env videos outputPath options with
    ⟨h0, hE⟩ | ⟨h0, hs, hE⟩ | ⟨h0, hs, f, hE⟩
  · rw [hE]
    exact ⟨by decide, ⟨fun _ => Or.inl h0, fun _ => by simp [engineRuns]⟩,
      fun hne => absurd h0 hne, fun hne => absurd h0 hne⟩
  · have hruns : engineRuns (ExportVideos env videos outputPath options)
        = engineRuns (exportSimple env videos outputPath) := by
      rw [hE]
      show engineRuns (Effect.send _ :: (_ ++ [Effect.closeChan])) = _
      rw [engineRuns_send, engineRuns_append]
      simp [engineRuns]
    have hev : events (ExportVideos env videos outputPath options)
        = { Status := "Preparing export..." } :: events (exportSimple env videos outputPath) := by
      rw [hE]
      show events (Effect.send _ :: (_ ++ [Effect.closeChan])) = _
      rw [events_send, events_append]
      simp [events]
    have hok : ∀ tmpName, env.CreateTemp = Except.ok tmpName →
        engineRuns (ExportVideos env videos outputPath options)
            = [exportSimple_args tmpName outputPath]
        ∧ ∃ t, (events (ExportVideos env videos outputPath options)).getLast? = some t
          ∧ (t.isFailed = true
              ↔ (env.CombinedOutput (exportSimple_args tmpName outputPath)).2.isSome = true)
          ∧ (∀ err, (env.CombinedOutput (exportSimple_args tmpName outputPath)).2 = some err →
              t.Error = some ("ffmpeg error: " ++ err ++ "\n"
                ++ (env.CombinedOutput (exportSimple_args tmpName outputPath)).1))
          ∧ ((env.CombinedOutput (exportSimple_args tmpName outputPath)).2 = none →
              t = { Status := "Export complete!", Done := true }) := by
      intro tmpName hT
      refine ⟨by rw [hruns, (exportSimple_ok env videos outputPath tmpName hT).2], ?_⟩
      exact run_with_engine env
        [{ Status := "Preparing export..." }, { Status := "Combining videos..." }] _ _
        (by rw [hev, (exportSimple_ok env videos outputPath tmpName hT).1]; rfl)
    refine ⟨?_, ?_, fun _ _ => hok, fun _ hns => absurd hs hns⟩
    · cases hT : env.CreateTemp with
      | error err =>
        rw [hruns, (exportSimple_error env videos outputPath err hT).2]
        decide
      | ok tmpName =>
        rw [(hok tmpName hT).1]
        simp
    · cases hT : env.CreateTemp with
      | error err =>
        rw [hruns, (exportSimple_error env videos outputPath err hT).2]
        exact ⟨fun _ => Or.inr ⟨hs, err, rfl⟩, fun _ => rfl⟩
      | ok tmpName =>
        rw [(hok tmpName hT).1]
        constructor
        · intro h
          exact absurd h (by simp)
        · rintro (h | ⟨-, err, herr⟩)
          · exact absurd h h0
          · exact absurd herr (by simp)
  · have hruns : engineRuns (ExportVideos env videos outputPath options)
        = [inputArgs videos ++ f ++ fastStartArgs outputPath ++ ["-y", outputPath]] := by
      rw [hE]
      show engineRuns (Effect.send _ :: (_ ++ [Effect.closeChan])) = _
      rw [engineRuns_send, engineRuns_append, (transitionRun_ok env videos outputPath f).2]
      simp [engineRuns]
    have hev : events (ExportVideos env videos outputPath options)
        = { Status := "Preparing export..." }
            :: events (transitionRun env videos outputPath f) := by
      rw [hE]
      show events (Effect.send _ :: (_ ++ [Effect.closeChan])) = _
      rw [events_send, events_append]
      simp [events]
    obtain ⟨a, ha, -⟩ := exportWithTransitions_args_flags videos outputPath options
    have hlen0 : videos.length ≠ 0 := fun h => h0 (List.length_eq_zero.mp h)
    have hruns2 : engineRuns (ExportVideos env videos outputPath options) = [a] := by
      simp only [ExportVideos, hlen0, hs, if_false]
      show engineRuns (Effect.send _ :: (_ ++ [Effect.closeChan])) = _
      rw [engineRuns_send, engineRuns_append,
        exportWithTransitions_runs env videos outputPath options a ha]
      simp [engineRuns]
    have hargs : a = inputArgs videos ++ f ++ fastStartArgs outputPath ++ ["-y", outputPath] := by
      have := hruns2.symm.trans hruns
      simpa using this
    refine ⟨by rw [hruns2]; simp, ?_, fun _ hs2 => absurd hs2 hs, fun _ _ => ?_⟩
    · rw [hruns2]
      constructor
      · intro h
        exact absurd h (by simp)
      · rintro (h | ⟨h, -⟩)
        · exact absurd h h0
        · exact absurd h hs
    · refine ⟨a, ha, hruns2, ?_⟩
      exact run_with_engine env
        [{ Status := "Preparing export..." }, { Status := "Building transition filters..." },
         { Status := "Rendering with transitions..." }] _ _
        (by rw [hev, (transitionRun_ok env videos outputPath f).1, hargs]; rfl)

set_option maxRecDepth 100000 in
/-- C12 (witness): with an engine that fails, one clip of kind None (simple path) and
two clips of kind Crossfade (transition path) both run the engine once and end with
the Failed event that carries the error and the captured output. -/
theorem C12_engine_outcome_witness :
    ([clipA] ≠ [] ∧ ((TransitionNone : TransitionType) = TransitionNone ∨ [clipA].length = 1)
      ∧ failingEnv.CreateTemp = Except.ok "list.txt"
      ∧ engineRuns (ExportVideos failingEnv [clipA] "out.mp4" ⟨TransitionNone, 0⟩)
        = [["-f", "concat", "-safe", "0", "-i", "list.txt", "-c", "copy", "-movflags",
            "+faststart", "-y", "out.mp4"]]
      ∧ ∃ t, (events (ExportVideos failingEnv [clipA] "out.mp4" ⟨TransitionNone, 0⟩)).getLast?
          = some t
        ∧ t.Error = some ("ffmpeg error: " ++ "exit status 1" ++ "\n" ++ "boom"))
    ∧ ([clipA, clipB] ≠ []
      ∧ ¬ ((TransitionCrossfade : TransitionType) = TransitionNone ∨ [clipA, clipB].length = 1)
      ∧ ∃ args, exportWithTransitions_args [clipA, clipB] "out.mp4" ⟨TransitionCrossfade, 1⟩
          = some args
        ∧ engineRuns (ExportVideos failingEnv [clipA, clipB] "out.mp4" ⟨TransitionCrossfade, 1⟩)
          = [args]
        ∧ ∃ t, (events (ExportVideos failingEnv [clipA, clipB] "out.mp4"
              ⟨TransitionCrossfade, 1⟩)).getLast? = some t
          ∧ t.Error = some ("ffmpeg error: " ++ "exit status 1" ++ "\n" ++ "boom")) := by
  refine ⟨⟨by decide, by decide, rfl, ?_⟩, ⟨by decide, by decide, ?_⟩⟩
  · obtain ⟨h1, t, h2, -, h3, -⟩ :=
      (C12_engine_outcome failingEnv [clipA] "out.mp4" ⟨TransitionNone, 0⟩).2.2.1
        (by decide) (by decide) "list.txt" rfl
    exact ⟨h1, t, h2, h3 "exit status 1" rfl⟩
  · obtain ⟨args, h1, h2, t, h3, -, h4, -⟩ :=
      (C12_engine_outcome failingEnv [clipA, clipB] "out.mp4" ⟨TransitionCrossfade, 1⟩).2.2.2
        (by decide) (by decide)
    exact ⟨args, h1, h2, t, h3, h4 "exit status 1" rfl⟩

/-- C13: for every output path, a run of `ExportVideos` on the simple path (once the
manifest file is created) hands the engine one argument list, which always holds
`-c copy` and holds `-movflags +faststart` if and only if the extension of the output
path, lowered, is `.mp4`, `.mov` or `.m4v`; a run on the transition path hands the
engine one argument list, for which the same if-and-only-if holds. On both paths a
run with the output `out.MP4` has the flag and a run with the output `out.webm` does
not. -/
theorem C13_fast_start_flag (env : Env) (videos : List Video) (outputPath : String)
    (options : ExportOptions) :
    (videos ≠ [] → (options.Transition = TransitionNone ∨ videos.length = 1) →
      ∀ tmpName, env.CreateTemp = Except.ok tmpName →
        (∃ args, engineRuns (ExportVideos env videos outputPath options) = [args]
          ∧ args = exportSimple_args tmpName outputPath
          ∧ hasPair "-c" "copy" args = true
          ∧ (hasPair "-movflags" "+faststart" args = true
              ↔ stringsToLower (filepathExt outputPath) ∈ [".mp4", ".mov", ".m4v"]))
        ∧ (∃ args, engineRuns (ExportVideos env videos "out.MP4" options) = [args]
          ∧ hasPair "-c" "copy" args = true
          ∧ hasPair "-movflags" "+faststart" args = true)
        ∧ (∃ args, engineRuns (ExportVideos env videos "out.webm" options) = [args]
          ∧ hasPair "-c" "copy" args = true
          ∧ hasPair "-movflags" "+faststart" args = false))
    ∧ (videos ≠ [] → ¬ (options.Transition = TransitionNone ∨ videos.length = 1) →
        (∃ args, engineRuns (ExportVideos env videos outputPath options) = [args]
          ∧ exportWithTransitions_args videos outputPath options = some args
          ∧ (hasPair "-movflags" "+faststart" args = true
              ↔ stringsToLower (filepathExt outputPath) ∈ [".mp4", ".mov", ".m4v"]))
        ∧ (∃ args, engineRuns (ExportVideos env videos "out.MP4" options) = [args]
          ∧ hasPair "-movflags" "+faststart" args = true)
        ∧ (∃ args, engineRuns (ExportVideos env videos "out.webm" options) = [args]
          ∧ hasPair "-movflags" "+faststart" args = false)) := by
  have hlen0 : videos ≠ [] → videos.length ≠ 0 :=
    fun hne h => hne (List.length_eq_zero.mp h)
  have hsimple : ∀ out tmpName, videos ≠ [] →
      (options.Transition = TransitionNone ∨ videos.length = 1) →
      env.CreateTemp = Except.ok tmpName →
      engineRuns (ExportVideos env videos out options) = [exportSimple_args tmpName out] := by
    intro out tmpName h0 hs hT
    simp only [ExportVideos, hlen0 h0, hs, if_true, if_false]
    show engineRuns (Effect.send _ :: (_ ++ [Effect.closeChan])) = _
    rw [engineRuns_send, engineRuns_append, (exportSimple_ok env videos out tmpName hT).2]
    simp [engineRuns]
  have htrans : ∀ out, videos ≠ [] →
      ¬ (options.Transition = TransitionNone ∨ videos.length = 1) →
      ∃ a, engineRuns (ExportVideos env videos out options) = [a]
        ∧ exportWithTransitions_args videos out options = some a
        ∧ hasPair "-movflags" "+faststart" a = isFastStartExt out := by
    intro out h0 hs
    obtain ⟨a, ha, hm⟩ := exportWithTransitions_args_flags videos out options
    refine ⟨a, ?_, ha, hm⟩
    simp only [ExportVideos, hlen0 h0, hs, if_false]
    show engineRuns (Effect.send _ :: (_ ++ [Effect.closeChan])) = _
    rw [engineRuns_send, engineRuns_append,
      exportWithTransitions_runs env videos out options a ha]
    simp [engineRuns]
  refine ⟨?_, ?_⟩
  · intro h0 hs tmpName hT
    refine ⟨⟨_, hsimple outputPath tmpName h0 hs hT, rfl,
        (exportSimple_args_flags tmpName outputPath).1, ?_⟩,
      ⟨_, hsimple "out.MP4" tmpName h0 hs hT,
        (exportSimple_args_flags tmpName "out.MP4").1, ?_⟩,
      ⟨_, hsimple "out.webm" tmpName h0 hs hT,
        (exportSimple_args_flags tmpName "out.webm").1, ?_⟩⟩
    · rw [(exportSimple_args_flags tmpName outputPath).2]
      exact isFastStartExt_iff outputPath
    · rw [(exportSimple_args_flags tmpName "out.MP4").2]
      decide
    · rw [(exportSimple_args_flags tmpName "out.webm").2]
      decide
  · intro h0 hs
    obtain ⟨a, ha, hxa, hma⟩ := htrans outputPath h0 hs
    obtain ⟨b, hb, -, hmb⟩ := htrans "out.MP4" h0 hs
    obtain ⟨c, hc, -, hmc⟩ := htrans "out.webm" h0 hs
    refine ⟨⟨a, ha, hxa, ?_⟩, ⟨b, hb, ?_⟩, ⟨c, hc, ?_⟩⟩
    · rw [hma]
      exact isFastStartExt_iff outputPath
    · rw [hmb]
      decide
    · rw [hmc]
      decide

set_option maxRecDepth 100000 in
/-- C13 (witness): one clip of kind None written to `out.MP4` (simple path): the engine
arguments hold `-c copy` and the fast-start flag; two clips of kind Crossfade written
to `out.webm` (transition path): the engine arguments do not hold the fast-start
flag. -/
theorem C13_fast_start_flag_witness :
    ([clipA] ≠ [] ∧ ((TransitionNone : TransitionType) = TransitionNone ∨ [clipA].length = 1)
      ∧ quietEnv.CreateTemp = Except.ok "list.txt"
      ∧ engineRuns (ExportVideos quietEnv [clipA] "out.MP4" ⟨TransitionNone, 0⟩)
        = [["-f", "concat", "-safe", "0", "-i", "list.txt", "-c", "copy", "-movflags",
            "+faststart", "-y", "out.MP4"]]
      ∧ hasPair "-c" "copy" (exportSimple_args "list.txt" "out.MP4") = true
      ∧ hasPair "-movflags" "+faststart" (exportSimple_args "list.txt" "out.MP4") = true)
    ∧ ([clipA, clipB] ≠ []
      ∧ ¬ ((TransitionCrossfade : TransitionType) = TransitionNone ∨ [clipA, clipB].length = 1)
      ∧ ∃ args, engineRuns (ExportVideos quietEnv [clipA, clipB] "out.webm"
            ⟨TransitionCrossfade, 1⟩) = [args]
        ∧ hasPair "-movflags" "+faststart" args = false) := by
  refine ⟨⟨by decide, by decide, rfl, ?_⟩, ⟨by decide, by decide, ?_⟩⟩
  · obtain ⟨⟨args, h1, h2, h3, h4⟩, -, -⟩ :=
      (C13_fast_start_flag quietEnv [clipA] "out.MP4" ⟨TransitionNone, 0⟩).1
        (by decide) (by decide) "list.txt" rfl
    subst h2
    exact ⟨h1, h3, h4.mpr (by decide)⟩
  · obtain ⟨-, -, h⟩ :=
      (C13_fast_start_flag quietEnv [clipA, clipB] "out.webm" ⟨TransitionCrossfade, 1⟩).2
        (by decide) (by decide)
    exact h

set_option maxRecDepth 100000 in
/-- C14 (counterexample): for two clips of five seconds and D = 1 the fade-in of clip 1 is
written `fade=t=in:st=0:d=1.00`: its start time is the bare `0`, which is not in
two-decimal notation. -/
theorem C14_fade_in_start_is_bare_zero :
    buildFadeFilter [clipA, clipB] 1 = some ["-filter_complex",
      "[0:v]fade=t=out:st=4.00:d=1.00[v0];[1:v]fade=t=in:st=0:d=1.00[v1];[0:a]afade=t=out:st=4.00:d=1.00[a0];[1:a]afade=t=in:st=0:d=1.00[a1];[v0][a0][v1][a1]concat=n=2:v=1:a=1[vout][aout]",
      "-map", "[vout]", "-map", "[aout]"]
    ∧ (∃ node, (fadeGraph [clipA, clipB] 1).nodes[1]? = some node
        ∧ node.chain = [fadeIn "fade" 1])
    ∧ (fadeIn "fade" 1).render = "fade=t=in:st=0:d=1.00"
    ∧ ((fadeIn "fade" 1).param "st").map ParamValue.render = some "0"
    ∧ isTwoDecimal "0" = false := by
  refine ⟨by with_unfolding_all decide,
    ⟨fadeNode StreamKind.v "fade" "v" 2 1 5 1, by with_unfolding_all decide,
      by with_unfolding_all decide⟩,
    by with_unfolding_all decide, by decide, by decide⟩

/-- C14 (amended): `%.2f` always writes fixed notation with exactly two decimal places,
and every time value computed by the builders is written with it: the duration and
the offset of each `xfade` node, the duration of each `acrossfade` node, the duration
of each fade and the start of each fade-out. The start of a fade-in is the literal
`0` of the format string. The nodes are those read back from the returned text. -/
theorem C14_time_values_two_decimals (videos : List Video) (D : ℚ) :
    (∀ q : ℚ, isTwoDecimal (fmt2 q) = true)
    ∧ (2 ≤ videos.length →
        ∃ offs : List ℚ,
          buildCrossfadeFilter videos D = some (crossfadeGraph videos.length D offs).args
          ∧ (crossfadeGraph videos.length D offs).readsBack
          ∧ ∀ node ∈ (crossfadeGraph videos.length D offs).nodes, ∀ f ∈ node.chain,
              (∃ off, f.render
                  = "xfade=transition=fade:duration=" ++ fmt2 D ++ ":offset=" ++ fmt2 off)
              ∨ f.render = "acrossfade=d=" ++ fmt2 D)
    ∧ (1 ≤ videos.length →
        buildFadeFilter videos D = some (fadeGraph videos D).args
          ∧ (fadeGraph videos D).readsBack
          ∧ ∀ node ∈ (fadeGraph videos D).nodes, ∀ f ∈ node.chain,
              f.render = "concat=n=" ++ fmtD videos.length ++ ":v=1:a=1"
              ∨ (∃ name, f.render = name ++ "=t=in:st=0:d=" ++ fmt2 D)
              ∨ (∃ name start,
                  f.render = name ++ "=t=out:st=" ++ fmt2 start ++ ":d=" ++ fmt2 D)) := by
  refine ⟨fmt2_isTwoDecimal, ?_, ?_⟩
  · intro h
    obtain ⟨offs, -, -, hb⟩ := buildCrossfadeFilter_eq videos D h
    exact ⟨offs, hb, crossfadeGraph_readsBack _ D offs h, crossfadeGraph_filters _ D offs⟩
  · intro h
    exact ⟨buildFadeFilter_eq videos D h, fadeGraph_readsBack videos D,
      fadeGraph_filters videos D⟩

/-- C14 (witness): three clips, for both builders. -/
theorem C14_time_values_two_decimals_witness :
    2 ≤ [clipA, clipB, clipC].length ∧ 1 ≤ [clipA, clipB, clipC].length
    ∧ (∃ offs : List ℚ,
        buildCrossfadeFilter [clipA, clipB, clipC] 1 = some (crossfadeGraph 3 1 offs).args)
    ∧ buildFadeFilter [clipA, clipB, clipC] 1 = some (fadeGraph [clipA, clipB, clipC] 1).args := by
  obtain ⟨-, h2, h3⟩ := C14_time_values_two_decimals [clipA, clipB, clipC] 1
  obtain ⟨offs, hb, -⟩ := h2 (by decide)
  exact ⟨by decide, by decide, ⟨offs, hb⟩, (h3 (by decide)).1⟩

set_option maxRecDepth 100000 in
/-- C15 (counterexample): with `TransitionDuration` one millisecond the duration handed to
the builder is 0.001, strictly positive, yet it is written `0.00`: the duration
parameters of the emitted graph are `duration=0.00` and `d=0.00`. -/
theorem C15_small_duration_written_zero :
    transitionDuration ⟨TransitionCrossfade, 1 / 1000⟩ = 1 / 1000
    ∧ fmt2 (1 / 1000) = "0.00"
    ∧ exportWithTransitions_args [clipA, clipB] "out.mkv" ⟨TransitionCrossfade, 1 / 1000⟩
      = some ["-i", "a.mp4", "-i", "b.mp4", "-filter_complex",
          "[0:v][1:v]xfade=transition=fade:duration=0.00:offset=5.00[vout];[0:a][1:a]acrossfade=d=0.00[aout]",
          "-map", "[vout]", "-map", "[aout]", "-y", "out.mkv"] := by
  refine ⟨by with_unfolding_all decide, by with_unfolding_all decide,
    by with_unfolding_all decide⟩

/-- C15 (amended): on the transition path the duration D handed to the graph builders is
`options.TransitionDuration` when that value is strictly positive and 1 when it is
zero, negative or unset, so D is strictly positive. The graph handed to the engine is
the crossfade graph or the fade graph built with that D: every `xfade` filter of
every node has the parameter `duration` with value D, every `acrossfade`, `fade` and
`afade` filter has the parameter `d` with value D, and the `concat` filter has no
duration parameter. The value D of such a parameter is written with two decimals, as
its number of hundredths, and that number is at least 1 (the written duration is
positive) whenever D is at least 0.01. -/
theorem C15_transition_duration (env : Env) (videos : List Video) (outputPath : String)
    (options : ExportOptions) :
    (0 < options.TransitionDuration →
        transitionDuration options = options.TransitionDuration)
    ∧ (options.TransitionDuration ≤ 0 → transitionDuration options = 1)
    ∧ 0 < transitionDuration options
    ∧ (options.Transition = TransitionCrossfade → 2 ≤ videos.length →
        ∃ g : FilterGraphSpec, g.readsBack
          ∧ buildCrossfadeFilter videos (transitionDuration options) = some g.args
          ∧ engineRuns (ExportVideos env videos outputPath options)
            = [inputArgs videos ++ g.args ++ fastStartArgs outputPath ++ ["-y", outputPath]]
          ∧ g.nodes ≠ []
          ∧ ∀ node ∈ g.nodes, ∀ f ∈ node.chain,
              (f.name = "xfade"
                ∧ f.param "duration" = some (ParamValue.time (transitionDuration options))
                ∧ f.param "d" = none)
              ∨ (f.name = "acrossfade"
                ∧ f.param "d" = some (ParamValue.time (transitionDuration options))
                ∧ f.param "duration" = none))
    ∧ (options.Transition = TransitionFade → 2 ≤ videos.length →
        ∃ g : FilterGraphSpec, g.readsBack
          ∧ buildFadeFilter videos (transitionDuration options) = some g.args
          ∧ engineRuns (ExportVideos env videos outputPath options)
            = [inputArgs videos ++ g.args ++ fastStartArgs outputPath ++ ["-y", outputPath]]
          ∧ g.nodes ≠ []
          ∧ ∀ node ∈ g.nodes, ∀ f ∈ node.chain,
              (f.name = "concat" ∧ f.param "d" = none ∧ f.param "duration" = none)
              ∨ ((f.name = "fade" ∨ f.name = "afade")
                ∧ f.param "d" = some (ParamValue.time (transitionDuration options))
                ∧ f.param "duration" = none))
    ∧ (ParamValue.time (transitionDuration options)).render = fmt2 (transitionDuration options)
    ∧ (fmt2 (transitionDuration options)).data
        = (Nat.repr (hundredths (transitionDuration options) / 100)).data
          ++ Char.ofNat 46 :: (pad2 (hundredths (transitionDuration options) % 100)).data
    ∧ (1 / 100 ≤ transitionDuration options → 1 ≤ hundredths (transitionDuration options))
    ∧ fmt2 1 = "1.00" := by
  have hruns : ∀ f : List String, 2 ≤ videos.length →
      options.Transition ≠ TransitionNone →
      (if options.Transition = TransitionCrossfade then
          buildCrossfadeFilter videos (transitionDuration options)
        else if options.Transition = TransitionFade then
          buildFadeFilter videos (transitionDuration options)
        else some []) = some f →
      engineRuns (ExportVideos env videos outputPath options)
        = [inputArgs videos ++ f ++ fastStartArgs outputPath ++ ["-y", outputPath]] := by
    intro f h2 hk hf
    have hlen0 : videos.length ≠ 0 := by omega
    have hs : ¬ (options.Transition = TransitionNone ∨ videos.length = 1) := by
      rintro (h | h)
      · exact hk h
      · omega
    simp only [ExportVideos, hlen0, hs, if_false]
    show engineRuns (Effect.send _ :: (_ ++ [Effect.closeChan])) = _
    rw [engineRuns_send, engineRuns_append,
      exportWithTransitions_eq env videos outputPath options f hf,
      (transitionRun_ok env videos outputPath f).2]
    simp [engineRuns]
  refine ⟨?_, ?_, transitionDuration_pos options, ?_, ?_, rfl, ?_, hundredths_pos _, ?_⟩
  · intro h
    simp [transitionDuration, not_le.mpr h]
  · intro h
    simp [transitionDuration, h]
  · intro hk h2
    obtain ⟨offs, -, -, hb⟩ := buildCrossfadeFilter_eq videos (transitionDuration options) h2
    refine ⟨crossfadeGraph videos.length (transitionDuration options) offs,
      crossfadeGraph_readsBack _ _ offs h2, hb, ?_, ?_, ?_⟩
    · exact hruns _ h2 (by rw [hk]; decide) (by rw [if_pos hk]; exact hb)
    · have h1 : videos.length - 1 = (videos.length - 2) + 1 := by omega
      simp [crossfadeGraph, h1, List.range'_succ]
    · intro node hn f hf
      simp only [crossfadeGraph, List.mem_append, List.mem_map] at hn
      rcases hn with ⟨i, -, rfl⟩ | ⟨i, -, rfl⟩
      · simp only [xfadeNode, List.mem_singleton] at hf
        subst hf
        exact Or.inl ⟨rfl, rfl, rfl⟩
      · simp only [acrossfadeNode, List.mem_singleton] at hf
        subst hf
        exact Or.inr ⟨rfl, rfl, rfl⟩
  · intro hk h2
    have hb := buildFadeFilter_eq videos (transitionDuration options) (by omega)
    have hnc : ¬ options.Transition = TransitionCrossfade := by rw [hk]; decide
    refine ⟨fadeGraph videos (transitionDuration options), fadeGraph_readsBack _ _, hb,
      ?_, ?_, ?_⟩
    · exact hruns _ h2 (by rw [hk]; decide) (by rw [if_neg hnc, if_pos hk]; exact hb)
    · simp [fadeGraph]
    · intro node hn f hf
      simp only [fadeGraph, List.mem_append, List.mem_map, List.mem_singleton] at hn
      rcases hn with (⟨i, -, rfl⟩ | ⟨i, -, rfl⟩) | rfl
      · rcases fadeNode_filters _ _ _ _ _ _ _ f hf with rfl | rfl
        · exact Or.inr ⟨Or.inl rfl, rfl, rfl⟩
        · exact Or.inr ⟨Or.inl rfl, rfl, rfl⟩
      · rcases fadeNode_filters _ _ _ _ _ _ _ f hf with rfl | rfl
        · exact Or.inr ⟨Or.inr rfl, rfl, rfl⟩
        · exact Or.inr ⟨Or.inr rfl, rfl, rfl⟩
      · simp only [concatNode, List.mem_singleton] at hf
        subst hf
        exact Or.inl ⟨rfl, rfl, rfl⟩
  · have hd := fmt2_data (transitionDuration options)
    rw [if_neg (not_lt.mpr (le_of_lt (transitionDuration_pos options)))] at hd
    simpa using hd
  · with_unfolding_all decide

set_option maxRecDepth 100000 in
/-- C15 (witness): a duration of a second and a half is handed on unchanged, no duration
gives 1; for two clips of kind Crossfade and no duration the engine is handed the
graph with `duration=1.00` and `d=1.00`, for kind Fade the graph with `d=1.00`. -/
theorem C15_transition_duration_witness :
    ((0 : ℚ) < 3 / 2 ∧ transitionDuration ⟨TransitionFade, 3 / 2⟩ = 3 / 2)
    ∧ ((0 : ℚ) ≤ 0 ∧ transitionDuration ⟨TransitionFade, 0⟩ = 1)
    ∧ ((TransitionCrossfade : TransitionType) = TransitionCrossfade ∧ 2 ≤ [clipA, clipB].length
      ∧ ∃ g : FilterGraphSpec,
          engineRuns (ExportVideos quietEnv [clipA, clipB] "out.mkv" ⟨TransitionCrossfade, 0⟩)
            = [inputArgs [clipA, clipB] ++ g.args ++ fastStartArgs "out.mkv" ++ ["-y", "out.mkv"]]
          ∧ g.nodes ≠ []
          ∧ ∀ node ∈ g.nodes, ∀ f ∈ node.chain,
              f.param "duration" = some (ParamValue.time 1)
              ∨ f.param "d" = some (ParamValue.time 1))
    ∧ ((TransitionFade : TransitionType) = TransitionFade ∧ 2 ≤ [clipA, clipB].length
      ∧ ∃ g : FilterGraphSpec,
          engineRuns (ExportVideos quietEnv [clipA, clipB] "out.mkv" ⟨TransitionFade, 0⟩)
            = [inputArgs [clipA, clipB] ++ g.args ++ fastStartArgs "out.mkv" ++ ["-y", "out.mkv"]]
          ∧ g.nodes ≠ [])
    ∧ ((1 : ℚ) / 100 ≤ transitionDuration ⟨TransitionFade, 0⟩
      ∧ 1 ≤ hundredths (transitionDuration ⟨TransitionFade, 0⟩)) := by
  have hD : transitionDuration ⟨TransitionCrossfade, 0⟩ = 1 := by
    simp [transitionDuration]
  have hF : transitionDuration ⟨TransitionFade, 0⟩ = 1 := by
    simp [transitionDuration]
  have h1 := (C15_transition_duration quietEnv [clipA, clipB] "out.mp4"
    ⟨TransitionFade, 3 / 2⟩).1 (by norm_num)
  have h2 := (C15_transition_duration quietEnv [clipA, clipB] "out.mp4"
    ⟨TransitionFade, 0⟩).2.1 (le_refl _)
  obtain ⟨g, -, -, h3, h4, h5⟩ := (C15_transition_duration quietEnv [clipA, clipB] "out.mkv"
    ⟨TransitionCrossfade, 0⟩).2.2.2.1 rfl (by decide)
  obtain ⟨g2, -, -, h6, h7, -⟩ := (C15_transition_duration quietEnv [clipA, clipB] "out.mkv"
    ⟨TransitionFade, 0⟩).2.2.2.2.1 rfl (by decide)
  have h8 := (C15_transition_duration quietEnv [clipA, clipB] "out.mkv"
    ⟨TransitionFade, 0⟩).2.2.2.2.2.2.2.1
  have hle : (1 : ℚ) / 100 ≤ transitionDuration ⟨TransitionFade, 0⟩ := by
    rw [hF]; norm_num
  refine ⟨⟨by norm_num, h1⟩, ⟨le_refl _, h2⟩, ⟨rfl, by decide, g, h3, h4, ?_⟩,
    ⟨rfl, by decide, g2, h6, h7⟩, ⟨hle, h8 hle⟩⟩
  intro node hn f hf
  rw [hD] at h5
  rcases h5 node hn f hf with ⟨-, h, -⟩ | ⟨-, h, -⟩
  · exact Or.inl h
  · exact Or.inr h

/-- C16: for N ≥ 2 clips and a transition duration D that every clip duration exceeds,
the offsets computed inside `buildCrossfadeFilter` are non-decreasing,
`offset[i] ≤ offset[i+1]` for 0 ≤ i < N - 2 (strictly increasing, in fact), and every
offset is positive. -/
theorem C16_offsets_monotone (videos : List Video) (D : ℚ) (h : 2 ≤ videos.length)
    (hd : ∀ v ∈ videos, D < v.Duration.Seconds) :
    ∃ offs : List ℚ, buildCrossfadeFilter_offsets videos D = some offs
      ∧ (∀ i, i < videos.length - 2 →
          ∃ a b, offs[i]? = some a ∧ offs[i + 1]? = some b ∧ a ≤ b ∧ a < b)
      ∧ ∀ o ∈ offs, 0 < o := by
  refine ⟨_, offsets_eq videos D, ?_, ?_⟩
  · intro i hi
    refine ⟨_, _, offsets_getElem? videos D i (by omega),
      offsets_getElem? videos D (i + 1) (by omega), ?_, ?_⟩
    · exact le_of_lt (cumulativeAt_step_lt videos D hd (i + 1) (by omega))
    · exact cumulativeAt_step_lt videos D hd (i + 1) (by omega)
  · intro o ho
    simp only [List.mem_map, List.mem_range] at ho
    obtain ⟨j, hj, rfl⟩ := ho
    exact cumulativeAt_pos videos D hd j (by omega)

/-- C16 (witness): three clips of five seconds and D = 1. -/
theorem C16_offsets_monotone_witness :
    2 ≤ [clipA, clipB, clipC].length
    ∧ (∀ v ∈ [clipA, clipB, clipC], (1 : ℚ) < v.Duration.Seconds)
    ∧ ∃ offs : List ℚ, buildCrossfadeFilter_offsets [clipA, clipB, clipC] 1 = some offs
      ∧ ∀ o ∈ offs, 0 < o := by
  have hd : ∀ v ∈ [clipA, clipB, clipC], (1 : ℚ) < v.Duration.Seconds := by
    intro v hv
    simp only [List.mem_cons, List.mem_singleton, List.not_mem_nil, or_false] at hv
    rcases hv with rfl | rfl | rfl <;> simp [clipA, clipB, clipC]
  obtain ⟨offs, h1, -, h3⟩ := C16_offsets_monotone [clipA, clipB, clipC] 1 (by decide) hd
  exact ⟨by decide, hd, offs, h1, h3⟩

/-- C17: `buildCrossfadeFilter` returns the empty result for fewer than two clips, and
that branch is not reached from `ExportVideos`: whenever a run takes the transition
path (the only place where the builder is called) the clip list has at least two
clips; then every `videos[i]` of the offsets loop and every `offsets[i-1]` of the
chain loop is in range, the builder returns a non-empty result, and no run panics. -/
theorem C17_short_branch_unreachable (env : Env) (videos : List Video) (outputPath : String)
    (options : ExportOptions) :
    (∀ (vs : List Video) (D : ℚ), vs.length < 2 → buildCrossfadeFilter vs D = some [])
    ∧ (Effect.send { Status := "Building transition filters..." }
          ∈ ExportVideos env videos outputPath options → 2 ≤ videos.length)
    ∧ (2 ≤ videos.length → ∀ D : ℚ,
        ∃ offs f, buildCrossfadeFilter_offsets videos D = some offs
          ∧ (∀ i, i < videos.length - 1 → ∃ v, videos[i]? = some v)
          ∧ (∀ i, 1 ≤ i → i < videos.length → ∃ o, offs[i - 1]? = some o)
          ∧ buildCrossfadeFilter videos D = some f ∧ f ≠ [])
    ∧ Effect.panicked ∉ ExportVideos env videos outputPath options := by
  refine ⟨buildCrossfadeFilter_short, ?_, ?_, ?_⟩
  · intro hmem
    rcases ExportVideos_shape env videos outputPath options with
      ⟨-, hE⟩ | ⟨-, -, hE⟩ | ⟨hne, hs, -⟩
    · rw [hE] at hmem
      simp at hmem
    · rw [hE] at hmem
      have hno := building_not_in_exportSimple env videos outputPath
      rw [List.cons_append, List.mem_cons, List.mem_append, List.mem_singleton] at hmem
      rcases hmem with h | h | h
      · exact absurd h (by decide)
      · exact absurd h hno
      · exact absurd h (by decide)
    · have h0 : videos.length ≠ 0 := fun h => hne (List.length_eq_zero.mp h)
      have h1 : videos.length ≠ 1 := fun h => hs (Or.inr h)
      omega
  · intro h D
    obtain ⟨offs, ho, hlen, hb⟩ := buildCrossfadeFilter_eq videos D h
    refine ⟨offs, _, ho, ?_, ?_, hb, by simp [FilterGraphSpec.args]⟩
    · intro i hi
      exact ⟨videos[i], List.getElem?_eq_getElem (by omega)⟩
    · intro i h1 h2
      have hlt : i - 1 < offs.length := by omega
      exact ⟨offs[i - 1], List.getElem?_eq_getElem hlt⟩
  · rcases ExportVideos_shape env videos outputPath options with
      ⟨-, hE⟩ | ⟨-, -, hE⟩ | ⟨-, -, f, hE⟩
    · rw [hE]; simp
    · obtain ⟨_, _, _, _, _, _, hp⟩ := exportSimple_events env videos outputPath
      rw [hE]
      simp [hp]
    · obtain ⟨_, _, _, _, _, _, hp⟩ := transitionRun_events env videos outputPath f
      rw [hE]
      simp [hp]

/-- C17 (witness): two clips with kind Crossfade take the transition path. -/
theorem C17_short_branch_unreachable_witness :
    Effect.send { Status := "Building transition filters..." }
        ∈ ExportVideos quietEnv [clipA, clipB] "out.mp4" ⟨TransitionCrossfade, 1⟩
    ∧ 2 ≤ [clipA, clipB].length := by
  have hmem : Effect.send { Status := "Building transition filters..." }
      ∈ ExportVideos quietEnv [clipA, clipB] "out.mp4" ⟨TransitionCrossfade, 1⟩ := by
    have hE : ExportVideos quietEnv [clipA, clipB] "out.mp4" ⟨TransitionCrossfade, 1⟩
        = Effect.send { Status := "Preparing export..." }
            :: (exportWithTransitions quietEnv [clipA, clipB] "out.mp4"
                ⟨TransitionCrossfade, 1⟩ ++ [Effect.closeChan]) := rfl
    rw [hE]
    simp [exportWithTransitions]
  exact ⟨hmem, (C17_short_branch_unreachable quietEnv [clipA, clipB] "out.mp4"
    ⟨TransitionCrossfade, 1⟩).2.1 hmem⟩

/-- C18: for a single clip of duration d and any D, `buildFadeFilter` treats the clip as
a first clip: a fade-out only, on the video and on the audio stream, starting at
`d - D` with length D, labelled `[v0]` / `[a0]`, joined by a concatenation node with
`n=1`. -/
theorem C18_single_clip_fade (clip : Video) (D : ℚ) :
    buildFadeFilter [clip] D
      = some ["-filter_complex",
          "[0:v]fade=t=out:st=" ++ fmt2 (clip.Duration.Seconds - D) ++ ":d=" ++ fmt2 D
            ++ "[v0];[0:a]afade=t=out:st=" ++ fmt2 (clip.Duration.Seconds - D) ++ ":d="
            ++ fmt2 D ++ "[a0];[v0][a0]concat=n=1:v=1:a=1[vout][aout]",
          "-map", "[vout]", "-map", "[aout]"]
    ∧ ∃ g : FilterGraphSpec, buildFadeFilter [clip] D = some g.args
        ∧ g.readsBack
        ∧ g.nodes
          = [{ inputs := [Label.stream 0 StreamKind.v],
               chain := [fadeOut "fade" (clip.Duration.Seconds - D) D],
               outputs := [Label.named "v0"] },
             { inputs := [Label.stream 0 StreamKind.a],
               chain := [fadeOut "afade" (clip.Duration.Seconds - D) D],
               outputs := [Label.named "a0"] },
             { inputs := [Label.named "v0", Label.named "a0"],
               chain := [{ name := "concat",
                           params := [("n", ParamValue.count 1), ("v", ParamValue.count 1),
                                      ("a", ParamValue.count 1)] }],
               outputs := [Label.named "vout", Label.named "aout"] }] := by
  have hb := buildFadeFilter_eq [clip] D (by simp)
  refine ⟨?_, fadeGraph [clip] D, hb, fadeGraph_readsBack [clip] D, fadeGraph_single clip D⟩
  rw [hb, fadeGraph_single_text]

set_option maxRecDepth 10000 in
/-- C19 (counterexample): four clips of 2435 ms, each read as 2.435 rounded to `float64`,
and D = 1. The offset of index 2 stored by the loop is not the total length of the
first three clips minus 3 times D: it is smaller, and it is written `4.30` where the
closed form gives `4.31`. -/
theorem C19_closed_form_rounds :
    ∃ (offs : List F64) (o2 : ℚ),
      buildCrossfadeFilter_offsets64 fourClips 1 = some offs
      ∧ offs[2]? = some (F64.fin o2)
      ∧ o2 ≠ closedOffset fourClips 1 2
      ∧ closedOffset fourClips 1 2 = secs2435 + secs2435 + secs2435 - 3 * 1
      ∧ fmt2 o2 = "4.30"
      ∧ fmt2 (closedOffset fourClips 1 2) = "4.31" := by
  refine ⟨_, mkRat 605874887369687 140737488355328, offsets64_eq fourClips 1, ?_, ?_, ?_,
    fourClips_values.2.2.1, fourClips_values.2.2.2.2⟩
  · rw [offsets64_getElem? fourClips 1 2 (by decide), cumulativeAt64_fourClips.2.2]
  · intro h
    exact fourClips_values.2.1 (congrArg Rat.num h)
  · simp [closedOffset, fourClips]
    ring

/-- C19 (amended): for N ≥ 2 clips, any D and every k in 0..N-2, the k-th offset computed
inside `buildCrossfadeFilter` is the running sum over the first k + 1 clips of
`duration - D`, started at 0 and taken in the arithmetic of `float64` (each difference
and each sum rounded). It equals the closed form, the total length of the first k + 1
clips minus (k + 1) times D, whenever no difference and no closed form up to index k is
changed by rounding, as when all of them are whole numbers of magnitude below 2^53. -/
theorem C19_offset_running_sum (videos : List Video) (D : ℚ) (h : 2 ≤ videos.length) :
    ∃ offs : List F64, buildCrossfadeFilter_offsets64 videos D = some offs
      ∧ ∀ k, k ≤ videos.length - 2 →
          offs[k]? = some
            ((videos.take (k + 1)).foldl
              (fun acc v => acc.add ((F64.fin v.Duration.Seconds).sub (F64.fin D)))
              (F64.fin 0))
          ∧ ((∀ j, j ≤ k →
                round64 (secondsAt videos j - D) = F64.fin (secondsAt videos j - D)
                ∧ round64 (closedOffset videos D j) = F64.fin (closedOffset videos D j)) →
              offs[k]? = some (F64.fin (closedOffset videos D k)))
          ∧ ((∀ j, j ≤ k → ∃ a b : Int, a.natAbs < 2 ^ 53 ∧ b.natAbs < 2 ^ 53
                ∧ secondsAt videos j - D = (a : ℚ) ∧ closedOffset videos D j = (b : ℚ)) →
              offs[k]? = some (F64.fin (closedOffset videos D k))) := by
  refine ⟨_, offsets64_eq videos D, ?_⟩
  intro k hk
  have hexact : (∀ j, j ≤ k →
        round64 (secondsAt videos j - D) = F64.fin (secondsAt videos j - D)
        ∧ round64 (closedOffset videos D j) = F64.fin (closedOffset videos D j)) →
      ((List.range (videos.length - 1)).map (fun j => cumulativeAt64 videos D (j + 1)))[k]?
        = some (F64.fin (closedOffset videos D k)) := by
    intro hj
    rw [offsets64_getElem? videos D k (by omega), closedOffset_eq videos D k (by omega)]
    congr 1
    apply cumulativeAt64_exact
    intro j hjk
    have := hj j hjk
    rw [closedOffset_eq videos D j (by omega)] at this
    exact this
  refine ⟨?_, hexact, ?_⟩
  · rw [offsets64_getElem? videos D k (by omega), cumulativeAt64_foldl videos D (k + 1) (by omega)]
  · intro hj
    apply hexact
    intro j hjk
    obtain ⟨a, b, ha, hb, h1, h2⟩ := hj j hjk
    rw [h1, h2]
    exact ⟨round64_intCast a ha, round64_intCast b hb⟩

/-- C19 (witness): three clips of five seconds and D = 1: the offset of index 1 is
5 + 5 - 2 * 1 = 8, every difference and closed form being a whole number. -/
theorem C19_offset_running_sum_witness :
    2 ≤ [clipA, clipB, clipC].length
    ∧ ∃ offs : List F64, buildCrossfadeFilter_offsets64 [clipA, clipB, clipC] 1 = some offs
      ∧ offs[1]? = some (F64.fin (closedOffset [clipA, clipB, clipC] 1 1))
      ∧ closedOffset [clipA, clipB, clipC] 1 1 = 8 := by
  refine ⟨by decide, ?_⟩
  obtain ⟨offs, h1, h2⟩ := C19_offset_running_sum [clipA, clipB, clipC] 1 (by decide)
  refine ⟨offs, h1, ?_, ?_⟩
  · apply (h2 1 (by decide)).2.2
    intro j hj
    have hj2 : j = 0 ∨ j = 1 := by omega
    rcases hj2 with rfl | rfl
    · exact ⟨4, 4, by decide, by decide, by simp [secondsAt, clipA]; norm_num,
        by simp [closedOffset, clipA]; norm_num⟩
    · exact ⟨4, 8, by decide, by decide, by simp [secondsAt, clipB]; norm_num,
        by simp [closedOffset, clipA, clipB]; norm_num⟩
  · simp [closedOffset, clipA, clipB]
    norm_num

/-- C20: the escaping of single quotes used for the manifest lines of `exportSimple` is
injective: two paths with the same escaped form are equal, so two different paths
never give the same manifest line. -/
theorem C20_escape_injective (p q : String)
    (h : stringsReplaceAll p "\x27" "\x27\\\x27\x27"
      = stringsReplaceAll q "\x27" "\x27\\\x27\x27") :
    p = q
    ∧ ∀ a b : String,
        "file \x27" ++ stringsReplaceAll a "\x27" "\x27\\\x27\x27" ++ "\x27\n"
          = "file \x27" ++ stringsReplaceAll b "\x27" "\x27\\\x27\x27" ++ "\x27\n"
        → a = b := by
  refine ⟨?_, ?_⟩
  · rw [stringsReplaceAll_quote, stringsReplaceAll_quote] at h
    exact escapeQuotes_injective p q h
  · intro a b hab
    rw [stringsReplaceAll_quote, stringsReplaceAll_quote] at hab
    apply escapeQuotes_injective
    apply string_eq_of_data
    have := congrArg String.data hab
    simpa [String.data_append] using this

/-- C20 (witness): the path `it's.mp4`, whose escaped form is `it'\''s.mp4`. -/
theorem C20_escape_injective_witness :
    stringsReplaceAll "it\x27s.mp4" "\x27" "\x27\\\x27\x27" = "it\x27\\\x27\x27s.mp4"
    ∧ ("it\x27s.mp4" : String) = "it\x27s.mp4" :=
  ⟨by decide, (C20_escape_injective "it\x27s.mp4" "it\x27s.mp4" rfl).1⟩

end App
